import Mathlib

/-!
# memlens: address resolver, memory dumper and region-name lookup

A shallow embedding of `lecture-series-hwsw/lecture-4-programming-constructs/memlens.hpp`
(`named_address`, `region_name_to_address`, `dump_memory`) together with the
properties of these functions.

Conventions of the embedding.

* Pointers and `size_t` values are natural numbers below `2 ^ 64`; every
  arithmetic operation of the source on them is followed by `% ADDR_MOD`.
* The global `MEMORY_REGIONS` is passed explicitly as a list.
* `std::cout` output is modelled by the values written, in the order written.
* Memory is a function from addresses to bytes; every dereference of the
  source is recorded in a list of addresses read.
-/

namespace Memlens

/-! # Part I: definitions -/

/-! ## Data model -/

/-- Number of values of a pointer or of a `size_t` (64-bit targets). -/
def ADDR_MOD : Nat := 2 ^ 64

/-- Record `memory_region_t` of `memlens.hpp`. -/
structure memory_region_t where
  start_address : Nat
  size : Nat
  resident_size : Nat
  region_type : String
  region_detail : String
  permissions : Nat
  deriving Repr, DecidableEq

/-- One past the last address of a region as the source computes it:
`(uint8_t*)it->start_address + it->size`, in pointer arithmetic. -/
def region_end (it : memory_region_t) : Nat :=
  (it.start_address + it.size) % ADDR_MOD

/-! ## `named_address` -/

/-- Loop variables of `named_address`: the smallest offset seen so far and the
label built for it. -/
structure resolver_state where
  offset : Nat
  result : String
  deriving Repr, DecidableEq

/-- Body of the `for` loop of `named_address` for one region `it`. -/
def named_address_step (address : Nat) (st : resolver_state) (it : memory_region_t) :
    resolver_state :=
  if it.start_address ≤ address ∧ address < region_end it then
    if it.region_type = "stack" then
      let new_offset := (region_end it + ADDR_MOD - address) % ADDR_MOD
      if new_offset < st.offset then
        { offset := new_offset, result := "[stack - " ++ toString new_offset ++ "]" }
      else st
    else
      let new_offset := (address + ADDR_MOD - it.start_address) % ADDR_MOD
      if new_offset < st.offset then
        { offset := new_offset,
          result := "[" ++ it.region_type ++ " + " ++ toString new_offset ++ "]" }
      else st
  else st

/-- The loop of `named_address`, started from `offset = 1<<30` and an empty
`result`. -/
def named_address_scan (MEMORY_REGIONS : List memory_region_t) (address : Nat) :
    resolver_state :=
  MEMORY_REGIONS.foldl (named_address_step address) { offset := 2 ^ 30, result := "" }

/-- Function `named_address` of `memlens.hpp`.  The text that
`ss << std::hex << (void*)address` produces is implementation-defined, so the
pointer formatter is the parameter `ptr_str`. -/
def named_address (ptr_str : Nat → String) (MEMORY_REGIONS : List memory_region_t)
    (address : Nat) : String :=
  let st := named_address_scan MEMORY_REGIONS address
  if st.result ≠ "" then ptr_str address ++ " @" ++ st.result else ptr_str address

/-- Lower-case hexadecimal digits of a number, without prefix or padding
(`std::hex << std::noshowbase` applied to an unsigned integer). -/
def hex_str (n : Nat) : String :=
  String.mk (Nat.toDigits 16 n)

/-- A pointer formatter in the style of libstdc++: `0x` followed by the
hexadecimal digits.  Used where a concrete `ptr_str` is needed. -/
def hex_ptr (address : Nat) : String :=
  "0x" ++ hex_str address


/-! ## Vocabulary of the resolver properties -/

/-- Two regions have no address in common (as ranges of integers). -/
def regions_disjoint (r₁ r₂ : memory_region_t) : Prop :=
  r₁.size = 0 ∨ r₂.size = 0 ∨ r₁.start_address + r₁.size ≤ r₂.start_address ∨
    r₂.start_address + r₂.size ≤ r₁.start_address

instance (r₁ r₂ : memory_region_t) : Decidable (regions_disjoint r₁ r₂) := by
  unfold regions_disjoint; infer_instance

/-- Offset the label of a region reports for an address: distance to the end
for a `"stack"` region, distance from the start for any other region. -/
def symbolic_offset (r : memory_region_t) (address : Nat) : Nat :=
  if r.region_type = "stack" then r.start_address + r.size - address
  else address - r.start_address

/-- Label text of a region for an address: `[stack - N]` or `[T + N]`. -/
def symbolic_label (r : memory_region_t) (address : Nat) : String :=
  if r.region_type = "stack" then "[stack - " ++ toString (symbolic_offset r address) ++ "]"
  else "[" ++ r.region_type ++ " + " ++ toString (symbolic_offset r address) ++ "]"

/-- A small snapshot: one heap page and one stack page. -/
def demo_snapshot : List memory_region_t :=
  [ { start_address := 0x1000, size := 0x1000, resident_size := 0, region_type := "heap",
      region_detail := "-", permissions := 3 },
    { start_address := 0x7000, size := 0x1000, resident_size := 0, region_type := "stack",
      region_detail := "-", permissions := 3 } ]

/-- A heap region of 2 GiB starting at `0x1000`. -/
def large_heap : memory_region_t :=
  { start_address := 0x1000, size := 2 ^ 31, resident_size := 0, region_type := "heap",
    region_detail := "-", permissions := 3 }

/-! ## `dump_memory` -/

/-- Expression `reinterpret_cast<uintptr_t>(address) & ~0xf`: the mask `~0xf`
is the `int` value `-16`, converted to `uintptr_t`. -/
def address_base (address : Nat) : Nat :=
  address &&& (ADDR_MOD - 16)

/-- Text of `std::hex << std::setfill('0') << std::setw(2) << (int)v`: the
hexadecimal digits of `v`, padded on the left with `'0'` to two characters. -/
def hex2 (v : Nat) : String :=
  let digits := Nat.toDigits 16 v
  String.mk (List.replicate (2 - digits.length) '0' ++ digits)

/-- One row of the dump: the row address written first, the 16 hex columns,
the 16 ASCII columns, and the addresses dereferenced while producing the row
(hex loop first, then ASCII loop). -/
structure dump_row where
  row_address : Nat
  hex : List String
  ascii : List Char
  reads : List Nat
  deriving Repr, DecidableEq

/-- One iteration of the hex loop of `dump_memory`: the text written for the
column and the addresses dereferenced. -/
def hex_column (mem : Nat → Nat) (address end_address u8_addr : Nat) : String × List Nat :=
  if address ≤ u8_addr ∧ u8_addr < end_address then
    (hex2 (mem u8_addr % 256) ++ " ", [u8_addr])
  else ("   ", [])

/-- One iteration of the ASCII loop of `dump_memory`: the character written
for the column and the addresses dereferenced. -/
def ascii_column (mem : Nat → Nat) (address end_address u8_addr : Nat) : Char × List Nat :=
  if address ≤ u8_addr ∧ u8_addr < end_address then
    let c := mem u8_addr % 256
    (if 32 ≤ c ∧ c < 127 then Char.ofNat c else '.', [u8_addr])
  else (' ', [])

/-- Body of the row loop of `dump_memory` for the row starting at
`row_address`. -/
def dump_memory_row (mem : Nat → Nat) (address end_address row_address : Nat) : dump_row :=
  let hex_cols := (List.range 16).map fun i =>
    hex_column mem address end_address ((row_address + i) % ADDR_MOD)
  let ascii_cols := (List.range 16).map fun i =>
    ascii_column mem address end_address ((row_address + i) % ADDR_MOD)
  { row_address := row_address,
    hex := hex_cols.map Prod.fst,
    ascii := ascii_cols.map Prod.fst,
    reads := (hex_cols.map Prod.snd).flatten ++ (ascii_cols.map Prod.snd).flatten }

/-- Local `offset` of `dump_memory`: `(uint8_t*)address - address_base`. -/
def dump_offset (address : Nat) : Nat :=
  (address + ADDR_MOD - address_base address) % ADDR_MOD

/-- Local `rows` of `dump_memory`: `(size + offset + 15) / 16` in `size_t`
arithmetic. -/
def dump_rows (address size : Nat) : Nat :=
  (size + dump_offset address + 15) % ADDR_MOD / 16

/-- Function `dump_memory` of `memlens.hpp`, reading bytes from `mem`: the
rows written, in order. -/
def dump_memory (mem : Nat → Nat) (address size : Nat) : List dump_row :=
  let end_address := (address + size) % ADDR_MOD
  (List.range (dump_rows address size)).map fun row =>
    dump_memory_row mem address end_address ((address_base address + row * 16) % ADDR_MOD)

/-- Characters written to `std::cout` for one row. -/
def dump_row_text (r : dump_row) : String :=
  hex_str r.row_address ++ "  " ++ String.join r.hex ++ "  |" ++ String.mk r.ascii ++ "|\n"

/-- Characters written to `std::cout` by `dump_memory`. -/
def dump_text (mem : Nat → Nat) (address size : Nat) : String :=
  String.join ((dump_memory mem address size).map dump_row_text) ++ "\n"

/-- Memory holding the byte `a - base` at every address `a`. -/
def counting_memory (base : Nat) (a : Nat) : Nat :=
  a - base

/-- A row in which every hex column and every ASCII column is blank and for
which no byte was read. -/
def blank_row (row_address : Nat) : dump_row :=
  { row_address := row_address,
    hex := List.replicate 16 "   ",
    ascii := List.replicate 16 ' ',
    reads := [] }

/-! ## `region_name_to_address` -/

/-- Exceptions thrown by `std::stoull`. -/
inductive stoull_error where
  | invalid_argument
  | out_of_range
  deriving Repr, DecidableEq

/-- C library `isspace` in the "C" locale: space, `\t`, `\n`, `\v`, `\f`, `\r`. -/
def isspace (c : Char) : Bool :=
  c.toNat = 32 ∨ (9 ≤ c.toNat ∧ c.toNat ≤ 13)

/-- Value of a character as a digit for `strtoull`: `0`-`9` are 0..9 and the
letters of either case are 10..35. -/
def digit_value (c : Char) : Option Nat :=
  if 48 ≤ c.toNat ∧ c.toNat ≤ 57 then some (c.toNat - 48)
  else if 97 ≤ c.toNat ∧ c.toNat ≤ 122 then some (c.toNat - 97 + 10)
  else if 65 ≤ c.toNat ∧ c.toNat ≤ 90 then some (c.toNat - 65 + 10)
  else none

/-- Whether `c` is a digit of the given base. -/
def is_base_digit (base : Nat) (c : Char) : Bool :=
  match digit_value c with
  | some d => d < base
  | none => false

/-- Value of the longest run of digits of the given base at the head of the
input, accumulated from `acc`; the scan stops at the first other character. -/
def scan_digits (base : Nat) (acc : Nat) : List Char → Nat
  | [] => acc
  | c :: cs =>
    match digit_value c with
    | some d => if d < base then scan_digits base (acc * base + d) cs else acc
    | none => acc

/-- Optional sign of the subject sequence of `strtoull`: whether it is `-`,
and the remaining input. -/
def scan_sign : List Char → Bool × List Char
  | '-' :: t => (true, t)
  | '+' :: t => (false, t)
  | s => (false, s)

/-- Base detection of `strtoull` with base 0: `0x`/`0X` followed by a
hexadecimal digit selects base 16 and is skipped, a leading `0` selects base 8,
anything else base 10. -/
def scan_base : List Char → Nat × List Char
  | '0' :: x :: d :: t =>
    if (x = 'x' ∨ x = 'X') ∧ is_base_digit 16 d then (16, d :: t) else (8, '0' :: x :: d :: t)
  | '0' :: t => (8, '0' :: t)
  | s => (10, s)

/-- Library call `std::stoull(str, nullptr, 0)`, after the C++ standard and
the C definition of `strtoull`: leading white space is skipped, an optional
sign is read, the base is detected, and the longest run of digits is
converted; characters after it are ignored because the index argument is
`nullptr`.  Without any digit `std::invalid_argument` is thrown, a value above
`ULLONG_MAX` throws `std::out_of_range`, and a `-` sign negates the value in
`unsigned long long`. -/
def stoull (str : String) : Except stoull_error Nat :=
  let (negative, s) := scan_sign (str.toList.dropWhile isspace)
  let (base, digits) := scan_base s
  match digits with
  | [] => .error .invalid_argument
  | c :: _ =>
    if is_base_digit base c then
      let value := scan_digits base 0 digits
      if ADDR_MOD ≤ value then .error .out_of_range
      else .ok (if negative then (ADDR_MOD - value) % ADDR_MOD else value)
    else .error .invalid_argument

/-- Function `region_name_to_address` of `memlens.hpp`: the start address of
the first region whose type equals `name`, else `name` read as a number. -/
def region_name_to_address (MEMORY_REGIONS : List memory_region_t) (name : String) :
    Except stoull_error Nat :=
  match MEMORY_REGIONS with
  | [] => stoull name
  | it :: rest =>
    if name = it.region_type then .ok it.start_address
    else region_name_to_address rest name

/-! ### Numeric literals, as the specification describes them -/

/-- Value of a digit character of a literal in base 8, 10 or 16. -/
def literal_digit (base : Nat) (c : Char) : Option Nat :=
  if 48 ≤ c.toNat ∧ c.toNat ≤ 57 ∧ c.toNat - 48 < base then some (c.toNat - 48)
  else if base = 16 ∧ 97 ≤ c.toNat ∧ c.toNat ≤ 102 then some (c.toNat - 87)
  else if base = 16 ∧ 65 ≤ c.toNat ∧ c.toNat ≤ 70 then some (c.toNat - 55)
  else none

/-- Value of a sequence of digits in positional notation, most significant
digit first, continuing from `acc`; `none` if a character is not a digit. -/
def literal_value (base : Nat) (acc : Nat) : List Char → Option Nat
  | [] => some acc
  | c :: cs =>
    match literal_digit base c with
    | some d => literal_value base (acc * base + d) cs
    | none => none

/-- Value of a string that is, in its entirety, a numeric literal: `0x` or
`0X` followed by at least one hexadecimal digit; `0` followed by octal digits;
or a non-empty sequence of decimal digits not starting with `0`. -/
def numeric_literal (name : String) : Option Nat :=
  match name.toList with
  | '0' :: 'x' :: d :: ds => literal_value 16 0 (d :: ds)
  | '0' :: 'X' :: d :: ds => literal_value 16 0 (d :: ds)
  | '0' :: ds => literal_value 8 0 ds
  | d :: ds => literal_value 10 0 (d :: ds)
  | [] => none

/-- Whether the name, after leading white space and an optional sign, starts
with a decimal digit. -/
def begins_with_digit (name : String) : Bool :=
  match (scan_sign (name.toList.dropWhile isspace)).2 with
  | c :: _ => 48 ≤ c.toNat ∧ c.toNat ≤ 57
  | [] => false

instance : DecidableEq (Except stoull_error Nat)
  | .ok a, .ok b => if h : a = b then isTrue (by rw [h]) else isFalse (by intro e; cases e; exact h rfl)
  | .error a, .error b =>
    if h : a = b then isTrue (by rw [h]) else isFalse (by intro e; cases e; exact h rfl)
  | .ok _, .error _ => isFalse (by intro e; cases e)
  | .error _, .ok _ => isFalse (by intro e; cases e)

/-! ## Snapshot refresh -/

/-- Member `std::vector::clear`: the vector without its elements. -/
def vector_clear (_ : List memory_region_t) : List memory_region_t :=
  []

/-- Function `update_memory_layout` of `memlens.hpp`.  The enumerator
`load_memory_layout` compiled in for the platform is a parameter; it receives
the collection and returns it with the enumerated regions appended. -/
def update_memory_layout (load_memory_layout : List memory_region_t → List memory_region_t)
    (MEMORY_REGIONS : List memory_region_t) : List memory_region_t :=
  load_memory_layout (vector_clear MEMORY_REGIONS)

/-! ## Linux enumerator (`memlens-linux.hpp`)

Strings of the source are byte strings; a `Char` of the embedding stands for
one byte. -/

/-- Constant `PERM_READ`. -/
def PERM_READ : Nat := 0x01

/-- Constant `PERM_WRIT`. -/
def PERM_WRIT : Nat := 0x02

/-- Constant `PERM_EXEC`. -/
def PERM_EXEC : Nat := 0x04

/-- State of the `std::istringstream` over one line: the characters not yet
read, and whether the stream has stopped being `good()`, after which every
extraction leaves its target untouched. -/
structure istringstream where
  buf : List Char
  failed : Bool
  deriving Repr, DecidableEq

/-- Call `iss.ignore(1)`: skips one character. -/
def iss_ignore (iss : istringstream) : istringstream :=
  if iss.failed then iss
  else
    match iss.buf with
    | [] => { buf := [], failed := true }
    | _ :: rest => { buf := rest, failed := false }

/-- Extraction `iss >> std::hex >> x` of a pointer or a `uint64_t`.  The
conversion of the characters is done by the library facet `num_get`; it is the
parameter `hex_get`, which maps the input (after white space) to the value
stored, the characters left, and whether the conversion failed.  The result
is `none` when the stream was not good and `x` is left untouched. -/
def extract_hex (hex_get : List Char → Nat × List Char × Bool) (iss : istringstream) :
    istringstream × Option Nat :=
  if iss.failed then (iss, none)
  else
    match iss.buf.dropWhile isspace with
    | [] => ({ buf := [], failed := true }, none)
    | c :: cs =>
      let (value, rest, conversion_failed) := hex_get (c :: cs)
      ({ buf := rest, failed := conversion_failed }, some (value % ADDR_MOD))

/-- Extraction `iss >> s` of a `std::string`: white space is skipped and the
characters up to the next white space are stored.  The result is `none` when
nothing is stored and `s` is left untouched. -/
def extract_token (iss : istringstream) : istringstream × Option String :=
  if iss.failed then (iss, none)
  else
    match iss.buf.dropWhile isspace with
    | [] => ({ buf := [], failed := true }, none)
    | c :: cs =>
      ({ buf := (c :: cs).dropWhile fun x => !isspace x, failed := false },
       some (String.mk ((c :: cs).takeWhile fun x => !isspace x)))

/-- Values of the locals of one iteration of the line loop after the
extractions: `region.start_address`, `end_address`, `perms`, `file_offset`
and `detail`. -/
structure maps_fields where
  start_address : Nat
  end_address : Nat
  perms : String
  file_offset : Nat
  detail : String
  deriving Repr, DecidableEq

/-- Values that the uninitialised locals `region.start_address`, `end_address`
and `file_offset` hold when no extraction writes them. -/
structure indeterminate where
  start_address : Nat
  end_address : Nat
  file_offset : Nat
  deriving Repr, DecidableEq

/-- The extractions of one iteration of the line loop of `load_memory_layout`
(Linux), in source order. -/
def parse_maps_line (hex_get : List Char → Nat × List Char × Bool) (indet : indeterminate)
    (line : String) : maps_fields :=
  let iss : istringstream := { buf := line.toList, failed := false }
  let (iss, start_address) := extract_hex hex_get iss
  let iss := iss_ignore iss
  let (iss, end_address) := extract_hex hex_get iss
  let (iss, perms) := extract_token iss
  let (iss, file_offset) := extract_hex hex_get iss
  let (iss, _) := extract_token iss
  let (iss, _) := extract_token iss
  let (_, detail) := extract_token iss
  { start_address := start_address.getD (indet.start_address % ADDR_MOD),
    end_address := end_address.getD (indet.end_address % ADDR_MOD),
    perms := perms.getD "",
    file_offset := file_offset.getD (indet.file_offset % ADDR_MOD),
    detail := detail.getD "" }

/-- Test `s.find(pat) != std::string::npos`. -/
def has_substring (pat : List Char) : List Char → Bool
  | [] => pat.isEmpty
  | c :: cs => pat.isPrefixOf (c :: cs) || has_substring pat cs

/-- Value of `region.permissions` computed from the permission string. -/
def maps_permissions (perms : String) : Nat :=
  let p := 0
  let p := if perms.toList.contains 'r' then p ||| PERM_READ else p
  let p := if perms.toList.contains 'w' then p ||| PERM_WRIT else p
  let p := if perms.toList.contains 'x' then p ||| PERM_EXEC else p
  p

/-- Call `detail.substr(1, detail.length() - 2)`. -/
def strip_brackets (detail : String) : String :=
  String.mk ((detail.toList.drop 1).take ((detail.length + ADDR_MOD - 2) % ADDR_MOD))

/-- Classification block of `load_memory_layout` (Linux): the pair
`(region_type, region_detail)` computed from `detail`, `file_offset` and
`region.permissions`. -/
def maps_classify (detail : String) (file_offset permissions : Nat) : String × String :=
  match detail.toList with
  | '/' :: _ =>
    let this_file := has_substring "/memlens".toList detail.toList
    if file_offset = 0 then
      if this_file then ("loader", detail) else ("-", detail ++ " (loader)")
    else if permissions &&& PERM_EXEC ≠ 0 then
      if this_file then ("code", detail) else ("-", detail ++ " (code)")
    else if permissions &&& PERM_WRIT ≠ 0 then
      if this_file then ("data", detail) else ("-", detail ++ " (data)")
    else if permissions &&& PERM_READ ≠ 0 then
      if this_file then ("const", detail) else ("-", detail ++ " (const)")
    else ("-", detail)
  | '[' :: _ => (strip_brackets detail, "-")
  | _ => ("-", detail)

/-- The region pushed for one line, from the values extracted. -/
def maps_region (f : maps_fields) : memory_region_t :=
  let permissions := maps_permissions f.perms
  let cls := maps_classify f.detail f.file_offset permissions
  { start_address := f.start_address,
    size := (f.end_address + ADDR_MOD - f.start_address) % ADDR_MOD,
    resident_size := 0,
    region_type := cls.1,
    region_detail := cls.2,
    permissions := permissions }

/-- Function `load_memory_layout` of `memlens-linux.hpp`.  The content of
`/proc/self/maps` is `maps`: `none` when the file cannot be opened, else its
lines; `indet i` gives the indeterminate values of iteration `i`. -/
def load_memory_layout_linux (hex_get : List Char → Nat × List Char × Bool)
    (indet : Nat → indeterminate) (maps : Option (List String))
    (regions : List memory_region_t) : List memory_region_t :=
  match maps with
  | none => regions
  | some lines =>
    regions ++ List.zipWith
      (fun i line => maps_region (parse_maps_line hex_get (indet i) line))
      (List.range lines.length) lines

/-- A conversion for `extract_hex` that reads a run of hexadecimal digits and
fails when there is none or the value does not fit 64 bits. -/
def hex_digits_get (s : List Char) : Nat × List Char × Bool :=
  let digits := s.takeWhile (is_base_digit 16)
  let rest := s.dropWhile (is_base_digit 16)
  if digits.isEmpty then (0, s, true)
  else if ADDR_MOD ≤ scan_digits 16 0 digits then (ADDR_MOD - 1, rest, true)
  else (scan_digits 16 0 digits, rest, false)

/-- Indeterminate values all equal to zero. -/
def zero_indeterminate (_ : Nat) : indeterminate :=
  { start_address := 0, end_address := 0, file_offset := 0 }

/-- A few lines in the format of `/proc/self/maps`. -/
def demo_maps : List String :=
  [ "55d0c8a00000-55d0c8a01000 r--p 00000000 08:01 1234   /home/u/memlens",
    "55d0c8a01000-55d0c8a05000 r-xp 00001000 08:01 1234   /home/u/memlens",
    "55d0c8a05000-55d0c8a06000 rw-p 00005000 08:01 1234   /home/u/memlens",
    "55d0c9b00000-55d0c9b21000 rw-p 00000000 00:00 0      [heap]",
    "7f00aa000000-7f00aa1b5000 r-xp 00001000 08:01 99     /lib/libc.so.6",
    "7f00aa1b5000-7f00aa3b5000 ---p 001b5000 08:01 99     /lib/libc.so.6",
    "7f00aa3b5000-7f00aa3b9000 r--p 001b5000 08:01 99     /lib/libc.so.6",
    "7f00ab000000-7f00ab001000 rw-p 00000000 00:00 0",
    "7ffd00000000-7ffd00021000 rw-p 00000000 00:00 0      [stack]" ]

/-! ## macOS enumerator (`memlens-macos.hpp`)

The constants below are the values of `<mach/vm_prot.h>`,
`<mach/vm_statistics.h>` and `<mach-o/loader.h>`. -/

/-- Constant `VM_PROT_NONE`. -/
def VM_PROT_NONE : Nat := 0x00

/-- Constant `VM_PROT_READ`. -/
def VM_PROT_READ : Nat := 0x01

/-- Constant `VM_PROT_WRITE`. -/
def VM_PROT_WRITE : Nat := 0x02

/-- Constant `VM_PROT_EXECUTE`. -/
def VM_PROT_EXECUTE : Nat := 0x04

/-- Constant `VM_MEMORY_MALLOC`. -/
def VM_MEMORY_MALLOC : Nat := 1

/-- Constant `VM_MEMORY_MALLOC_SMALL`. -/
def VM_MEMORY_MALLOC_SMALL : Nat := 2

/-- Constant `VM_MEMORY_MALLOC_LARGE`. -/
def VM_MEMORY_MALLOC_LARGE : Nat := 3

/-- Constant `VM_MEMORY_MALLOC_HUGE`. -/
def VM_MEMORY_MALLOC_HUGE : Nat := 4

/-- Constant `VM_MEMORY_SBRK`. -/
def VM_MEMORY_SBRK : Nat := 5

/-- Constant `VM_MEMORY_REALLOC`. -/
def VM_MEMORY_REALLOC : Nat := 6

/-- Constant `VM_MEMORY_MALLOC_TINY`. -/
def VM_MEMORY_MALLOC_TINY : Nat := 7

/-- Constant `VM_MEMORY_MALLOC_LARGE_REUSABLE`. -/
def VM_MEMORY_MALLOC_LARGE_REUSABLE : Nat := 8

/-- Constant `VM_MEMORY_MALLOC_LARGE_REUSED`. -/
def VM_MEMORY_MALLOC_LARGE_REUSED : Nat := 9

/-- Constant `VM_MEMORY_MALLOC_NANO`. -/
def VM_MEMORY_MALLOC_NANO : Nat := 11

/-- Constant `VM_MEMORY_MALLOC_MEDIUM`. -/
def VM_MEMORY_MALLOC_MEDIUM : Nat := 12

/-- Constant `VM_MEMORY_STACK`. -/
def VM_MEMORY_STACK : Nat := 30

/-- Constant `VM_MEMORY_DYLD`. -/
def VM_MEMORY_DYLD : Nat := 60

/-- Constant `VM_MEMORY_DYLD_MALLOC`. -/
def VM_MEMORY_DYLD_MALLOC : Nat := 61

/-- Constant `VM_MEMORY_OS_ALLOC_ONCE`. -/
def VM_MEMORY_OS_ALLOC_ONCE : Nat := 73

/-- Constant `MH_MAGIC_64`. -/
def MH_MAGIC_64 : Nat := 0xfeedfacf

/-- What the system calls of one iteration of the region loop return:
`address`, `size`, `info.protection`, `info.reserved` and `info.shared` from
the basic query (the extended query reports the same address and size);
`(user_tag, pages_resident)` from the extended query when it succeeds; and the name written by `proc_regionfilename` when it returns a
positive count. -/
structure mach_region where
  address : Nat
  size : Nat
  protection : Nat
  reserved : Bool
  shared : Bool
  ext_info : Option (Nat × Nat)
  filename : Option String
  deriving Repr, DecidableEq

/-- Locals `data_addr`, `const_addr` and `linksh_addr` of `load_memory_layout`
(macOS), which live across the iterations of the region loop. -/
structure image_segments where
  data_addr : Nat
  const_addr : Nat
  linksh_addr : Nat
  deriving Repr, DecidableEq

/-- Outcome of one iteration of the region loop: the remembered segment
addresses, the region pushed, and the addresses dereferenced as
`*(uint32_t*)address`. -/
structure mach_step_result where
  segments : image_segments
  region : memory_region_t
  probed : List Nat
  deriving Repr, DecidableEq

/-- Local `user_tag` of the region loop. -/
def mach_user_tag (q : mach_region) : Nat :=
  match q.ext_info with
  | some (user_tag, _) => user_tag
  | none => 0

/-- Value of `region.permissions` computed from `prot`. -/
def mach_permissions (prot : Nat) : Nat :=
  let p := 0
  let p := if prot &&& VM_PROT_READ ≠ 0 then p ||| PERM_READ else p
  let p := if prot &&& VM_PROT_WRITE ≠ 0 then p ||| PERM_WRIT else p
  let p := if prot &&& VM_PROT_EXECUTE ≠ 0 then p ||| PERM_EXEC else p
  p

/-- Detail text of a region without a backing file, built from the flags
`info.reserved` and `info.shared`. -/
def mach_flags_detail (reserved shared : Bool) : String :=
  let d := ""
  let d := if reserved then (if d.length > 0 then d ++ ", " else d) ++ "reserved" else d
  let d := if shared then (if d.length > 0 then d ++ ", " else d) ++ "shared" else d
  d

/-- The `default:` label of the `switch (user_tag)`: the remembered segment
addresses, `region.region_type`, `region.region_detail` and the addresses
dereferenced.  `read_u32` is the memory read `*(uint32_t*)address` and
`getsegmentdata header name` the library call of that name. -/
def mach_default_case (read_u32 : Nat → Nat) (getsegmentdata : Nat → String → Nat)
    (seg : image_segments) (q : mach_region) :
    image_segments × String × String × List Nat :=
  match q.filename with
  | some filename =>
    let probe : Bool :=
      4 ≤ q.size ∧ q.protection &&& VM_PROT_READ ≠ 0 ∧ mach_user_tag q = 0
    let first4bytes := if probe then read_u32 q.address % 2 ^ 32 else 0
    let probed := if probe then [q.address] else []
    if first4bytes = MH_MAGIC_64 then
      ({ data_addr := getsegmentdata q.address "__DATA",
         const_addr := getsegmentdata q.address "__DATA_CONST",
         linksh_addr := getsegmentdata q.address "__LINKEDIT" },
       "code", filename, probed)
    else if q.address = seg.data_addr then (seg, "data", filename, probed)
    else if q.address = seg.const_addr then (seg, "const", filename, probed)
    else if q.address = seg.linksh_addr then (seg, "linkd", filename, probed)
    else (seg, "-", filename, probed)
  | none => (seg, "-", mach_flags_detail q.reserved q.shared, [])

/-- The `switch (user_tag)` of the region loop: the remembered segment
addresses, `region.region_type`, `region.region_detail` and the addresses
dereferenced. -/
def mach_classify (read_u32 : Nat → Nat) (getsegmentdata : Nat → String → Nat)
    (seg : image_segments) (q : mach_region) :
    image_segments × String × String × List Nat :=
  let prot := q.protection
  let user_tag := mach_user_tag q
  if user_tag = VM_MEMORY_MALLOC then
    if prot = VM_PROT_NONE then (seg, "guard", "malloc guard", [])
    else (seg, "meta", "malloc metadata", [])
  else if user_tag = VM_MEMORY_STACK then
    (seg, if prot = VM_PROT_NONE then "guard" else "stack",
      if prot = VM_PROT_NONE then "stack guard" else "stack", [])
  else if user_tag = VM_MEMORY_MALLOC_SMALL then (seg, "heap", "malloc small", [])
  else if user_tag = VM_MEMORY_MALLOC_LARGE ∨ user_tag = VM_MEMORY_MALLOC_LARGE_REUSED ∨
      user_tag = VM_MEMORY_MALLOC_LARGE_REUSABLE then (seg, "heap", "malloc large", [])
  else if user_tag = VM_MEMORY_REALLOC then (seg, "heap", "malloc realloc", [])
  else if user_tag = VM_MEMORY_MALLOC_HUGE then (seg, "heap", "malloc huge", [])
  else if user_tag = VM_MEMORY_SBRK then (seg, "heap", "malloc sbrk", [])
  else if user_tag = VM_MEMORY_MALLOC_TINY then (seg, "heap", "malloc tiny", [])
  else if user_tag = VM_MEMORY_MALLOC_MEDIUM then (seg, "heap", "malloc medium", [])
  else if user_tag = VM_MEMORY_MALLOC_NANO then (seg, "heap", "malloc nano", [])
  else if user_tag = VM_MEMORY_OS_ALLOC_ONCE then (seg, "kernel", "kernel alloc once", [])
  else if user_tag = VM_MEMORY_DYLD then (seg, "dyld", "dyld", [])
  else if user_tag = VM_MEMORY_DYLD_MALLOC then (seg, "dyld", "dyld malloc", [])
  else mach_default_case read_u32 getsegmentdata seg q

/-- Body of the region loop of `load_memory_layout` (macOS) for one queried
region.  `page_size` is `getpagesize()` and `indet_pages` the indeterminate
value of `ext_info.pages_resident` when the extended query fails. -/
def mach_step (read_u32 : Nat → Nat) (getsegmentdata : Nat → String → Nat)
    (page_size indet_pages : Nat) (seg : image_segments) (q : mach_region) :
    mach_step_result :=
  let cls := mach_classify read_u32 getsegmentdata seg q
  let pages_resident :=
    match q.ext_info with
    | some (_, pages_resident) => pages_resident
    | none => indet_pages
  { segments := cls.1,
    region :=
      { start_address := q.address,
        size := q.size,
        resident_size := pages_resident * page_size % 2 ^ 32,
        region_type := cls.2.1,
        region_detail := cls.2.2.1,
        permissions := mach_permissions q.protection },
    probed := cls.2.2.2 }

/-- The region loop over the regions returned by the successive queries. -/
def mach_walk (read_u32 : Nat → Nat) (getsegmentdata : Nat → String → Nat)
    (page_size indet_pages : Nat) (seg : image_segments) :
    List mach_region → List mach_step_result
  | [] => []
  | q :: qs =>
    let r := mach_step read_u32 getsegmentdata page_size indet_pages seg q
    r :: mach_walk read_u32 getsegmentdata page_size indet_pages r.segments qs

/-- The regions that the successive calls of `mach_vm_region` return, the
query address advancing by `address += size`, until a call fails.  The
system call is the parameter `mach_vm_region`; `fuel` bounds the number of
iterations. -/
def mach_queries (mach_vm_region : Nat → Option mach_region) : Nat → Nat → List mach_region
  | 0, _ => []
  | fuel + 1, address =>
    match mach_vm_region address with
    | none => []
    | some q => q :: mach_queries mach_vm_region fuel ((q.address + q.size) % ADDR_MOD)

/-- Function `load_memory_layout` of `memlens-macos.hpp`. -/
def load_memory_layout_macos (mach_vm_region : Nat → Option mach_region)
    (read_u32 : Nat → Nat) (getsegmentdata : Nat → String → Nat)
    (page_size indet_pages fuel : Nat) (regions : List memory_region_t) :
    List memory_region_t :=
  regions ++ (mach_walk read_u32 getsegmentdata page_size indet_pages
    { data_addr := 0, const_addr := 0, linksh_addr := 0 }
    (mach_queries mach_vm_region fuel 0)).map fun r => r.region

/-! ## Win32 enumerator (`memlens-windows.hpp`)

The constants below are the values of `<winnt.h>`. -/

/-- Constant `PAGE_NOACCESS`. -/
def PAGE_NOACCESS : Nat := 0x01

/-- Constant `PAGE_READONLY`. -/
def PAGE_READONLY : Nat := 0x02

/-- Constant `PAGE_READWRITE`. -/
def PAGE_READWRITE : Nat := 0x04

/-- Constant `PAGE_EXECUTE`. -/
def PAGE_EXECUTE : Nat := 0x10

/-- Constant `PAGE_EXECUTE_READ`. -/
def PAGE_EXECUTE_READ : Nat := 0x20

/-- Constant `PAGE_EXECUTE_READWRITE`. -/
def PAGE_EXECUTE_READWRITE : Nat := 0x40

/-- Constant `MEM_COMMIT`. -/
def MEM_COMMIT : Nat := 0x1000

/-- Constant `MEM_RESERVE`. -/
def MEM_RESERVE : Nat := 0x2000

/-- Constant `MEM_FREE`. -/
def MEM_FREE : Nat := 0x10000

/-- Constant `MEM_PRIVATE`. -/
def MEM_PRIVATE : Nat := 0x20000

/-- Constant `MEM_IMAGE`. -/
def MEM_IMAGE : Nat := 0x1000000

/-- Record `MODFILEINFO`: the fields `info.lpBaseOfDll` and `info.SizeOfImage`
of the module, and its file name. -/
structure MODFILEINFO where
  lpBaseOfDll : Nat
  SizeOfImage : Nat
  filename : String
  deriving Repr, DecidableEq

/-- Fields of `MEMORY_BASIC_INFORMATION` read by the walker (`Type_` is the
field `Type`). -/
structure MEMORY_BASIC_INFORMATION where
  BaseAddress : Nat
  RegionSize : Nat
  State : Nat
  Protect : Nat
  Type_ : Nat
  deriving Repr, DecidableEq

/-- Value of `region.permissions` computed from `mbi.Protect`. -/
def win_permissions (Protect : Nat) : Nat :=
  let p := 0
  let p := if Protect &&& PAGE_READONLY ≠ 0 then p ||| PERM_READ else p
  let p := if Protect &&& PAGE_READWRITE ≠ 0 then p ||| (PERM_READ ||| PERM_WRIT) else p
  let p := if Protect &&& PAGE_EXECUTE ≠ 0 then p ||| PERM_EXEC else p
  let p := if Protect &&& PAGE_EXECUTE_READ ≠ 0 then p ||| (PERM_EXEC ||| PERM_READ) else p
  let p := if Protect &&& PAGE_EXECUTE_READWRITE ≠ 0 then
    p ||| (PERM_EXEC ||| PERM_READ ||| PERM_WRIT) else p
  let p := if Protect &&& PAGE_NOACCESS ≠ 0 then 0 else p
  p

/-- Test of the walker whether the pointer `p` lies in the region of `mbi`:
`p >= mbi.BaseAddress && (size_t)(p - mbi.BaseAddress) < mbi.RegionSize`. -/
def win_points_into (p : Nat) (mbi : MEMORY_BASIC_INFORMATION) : Bool :=
  mbi.BaseAddress ≤ p ∧ (p + ADDR_MOD - mbi.BaseAddress) % ADDR_MOD < mbi.RegionSize

/-- Body of the module loop for one module `it`, acting on the pair
`(region.region_type, region.region_detail)`. -/
def win_module_step (mbi : MEMORY_BASIC_INFORMATION) (permissions : Nat)
    (region : String × String) (it : MODFILEINFO) : String × String :=
  if it.lpBaseOfDll ≤ mbi.BaseAddress ∧
      (mbi.BaseAddress + mbi.RegionSize) % ADDR_MOD <
        (it.lpBaseOfDll + it.SizeOfImage) % ADDR_MOD then
    let region_detail := it.filename
    let isMemlens := has_substring "memlens".toList region_detail.toList
    if isMemlens then
      if permissions &&& PERM_EXEC ≠ 0 then ("code", region_detail)
      else if permissions &&& PERM_WRIT ≠ 0 then ("data", region_detail)
      else if permissions &&& PERM_READ ≠ 0 then
        (if mbi.BaseAddress = it.lpBaseOfDll then "loader" else "const", region_detail)
      else ("-", region_detail)
    else ("dll", region_detail)
  else region

/-- Body of the region loop of `load_memory_layout` (Win32) for one queried
region: the region pushed, or `none` when the iteration ends with `continue`.
`mbi_ptr` is the address of the local `mbi` and `malloc_ptr` the probe
buffer. -/
def win_region (moduleInfos : List MODFILEINFO) (mbi_ptr malloc_ptr : Nat)
    (mbi : MEMORY_BASIC_INFORMATION) : Option memory_region_t :=
  let cls : String × String :=
    if win_points_into mbi_ptr mbi then ("stack", "-")
    else if win_points_into malloc_ptr mbi then ("heap", "-")
    else ("", "")
  let permissions := win_permissions mbi.Protect
  let resident_size := if mbi.State = MEM_COMMIT then mbi.RegionSize else 0
  if mbi.State ≠ MEM_COMMIT ∧ mbi.State ≠ MEM_RESERVE then none
  else
    let cls : String × String := if mbi.State = MEM_COMMIT then cls else ("reserved", cls.2)
    let cls := if mbi.Type_ = MEM_IMAGE then
      moduleInfos.foldl (win_module_step mbi permissions) cls else cls
    some { start_address := mbi.BaseAddress, size := mbi.RegionSize,
           resident_size := resident_size, region_type := cls.1, region_detail := cls.2,
           permissions := permissions }

/-- The region loop of `load_memory_layout` (Win32): `VirtualQueryEx` is
called at `addr`, which advances by `addr += mbi.RegionSize`, until a call
fails.  The system call is a parameter; `fuel` bounds the number of
iterations. -/
def win_walk (VirtualQueryEx : Nat → Option MEMORY_BASIC_INFORMATION)
    (moduleInfos : List MODFILEINFO) (mbi_ptr malloc_ptr : Nat) :
    Nat → Nat → List memory_region_t
  | 0, _ => []
  | fuel + 1, addr =>
    match VirtualQueryEx addr with
    | none => []
    | some mbi =>
      let rest := win_walk VirtualQueryEx moduleInfos mbi_ptr malloc_ptr fuel
        ((addr + mbi.RegionSize) % ADDR_MOD)
      match win_region moduleInfos mbi_ptr malloc_ptr mbi with
      | some region => region :: rest
      | none => rest

/-- Function `load_memory_layout` of `memlens-windows.hpp`; `moduleInfos` is
the module list gathered before the walk. -/
def load_memory_layout_windows (VirtualQueryEx : Nat → Option MEMORY_BASIC_INFORMATION)
    (moduleInfos : List MODFILEINFO) (mbi_ptr malloc_ptr fuel : Nat)
    (regions : List memory_region_t) : List memory_region_t :=
  regions ++ win_walk VirtualQueryEx moduleInfos mbi_ptr malloc_ptr fuel 0

/-- A module list with the executable at `[0x400000, 0x403000)`. -/
def demo_modules : List MODFILEINFO :=
  [ { lpBaseOfDll := 0x400000, SizeOfImage := 0x3000, filename := "memlens.exe" } ]

/-- The last region of the demo executable image: `[0x402000, 0x403000)`,
committed, read-only, of type image. -/
def demo_last_image_region : MEMORY_BASIC_INFORMATION :=
  { BaseAddress := 0x402000, RegionSize := 0x1000, State := MEM_COMMIT,
    Protect := PAGE_READONLY, Type_ := MEM_IMAGE }

/-- A committed private read-write region at `[0x10000, 0x20000)`. -/
def demo_private_region : MEMORY_BASIC_INFORMATION :=
  { BaseAddress := 0x10000, RegionSize := 0x10000, State := MEM_COMMIT,
    Protect := PAGE_READWRITE, Type_ := MEM_PRIVATE }

/-! ## The `dump` command of `main` -/

/-- Library call `std::stoul(str, nullptr, 0)`; `unsigned long` has 64 bits on
the targets considered, so it converts as `std::stoull` does. -/
def stoul (str : String) : Except stoull_error Nat :=
  stoull str

/-- Lines 130-134 of `main` (`memlens.cpp`): `size` is 64 unless a second
argument is given, which is converted by `std::stoul`; then
`dump_memory(addr, size)` is called.  The result is the exception thrown or
the rows dumped. -/
def main_dump (mem : Nat → Nat) (addr : Nat) (args : List String) :
    Except stoull_error (List dump_row) :=
  match args with
  | _ :: size_arg :: _ =>
    match stoul size_arg with
    | .ok size => .ok (dump_memory mem addr size)
    | .error e => .error e
  | _ => .ok (dump_memory mem addr 64)

instance : DecidableEq (Except stoull_error (List dump_row))
  | .ok a, .ok b => if h : a = b then isTrue (by rw [h]) else isFalse (by intro e; cases e; exact h rfl)
  | .error a, .error b =>
    if h : a = b then isTrue (by rw [h]) else isFalse (by intro e; cases e; exact h rfl)
  | .ok _, .error _ => isFalse (by intro e; cases e)
  | .error _, .ok _ => isFalse (by intro e; cases e)

/-! ### Vocabulary of the enumerator properties -/

/-- Vendor tags that map to one fixed `(type, detail)` pair. -/
def vendor_tag_table : List (Nat × String × String) :=
  [ (VM_MEMORY_MALLOC_SMALL, "heap", "malloc small"),
    (VM_MEMORY_MALLOC_LARGE, "heap", "malloc large"),
    (VM_MEMORY_MALLOC_LARGE_REUSED, "heap", "malloc large"),
    (VM_MEMORY_MALLOC_LARGE_REUSABLE, "heap", "malloc large"),
    (VM_MEMORY_MALLOC_HUGE, "heap", "malloc huge"),
    (VM_MEMORY_MALLOC_TINY, "heap", "malloc tiny"),
    (VM_MEMORY_MALLOC_MEDIUM, "heap", "malloc medium"),
    (VM_MEMORY_MALLOC_NANO, "heap", "malloc nano"),
    (VM_MEMORY_REALLOC, "heap", "malloc realloc"),
    (VM_MEMORY_SBRK, "heap", "malloc sbrk"),
    (VM_MEMORY_OS_ALLOC_ONCE, "kernel", "kernel alloc once"),
    (VM_MEMORY_DYLD, "dyld", "dyld"),
    (VM_MEMORY_DYLD_MALLOC, "dyld", "dyld malloc") ]

/-- The `(type, detail)` pair of a listed vendor tag, as a function of the tag
and of whether the protection is empty; `none` for a tag that is not listed. -/
def vendor_tag_class (user_tag : Nat) (prot_none : Bool) : Option (String × String) :=
  if user_tag = VM_MEMORY_MALLOC then
    some (if prot_none then ("guard", "malloc guard") else ("meta", "malloc metadata"))
  else if user_tag = VM_MEMORY_STACK then
    some (if prot_none then ("guard", "stack guard") else ("stack", "stack"))
  else vendor_tag_table.lookup user_tag

/-- A queried region has an unspecific vendor tag: none of the tags listed in
the switch. -/
def mach_unlisted (q : mach_region) : Bool :=
  (vendor_tag_class (mach_user_tag q) (q.protection = VM_PROT_NONE)).isNone

/-- A queried region is recognised as an image header: its vendor tag is 0,
it has a backing file, it is readable and at least 4 bytes long, and the four
bytes at its start are the image magic. -/
def mach_is_header (read_u32 : Nat → Nat) (q : mach_region) : Bool :=
  mach_user_tag q = 0 ∧ q.filename.isSome ∧
  4 ≤ q.size ∧ q.protection &&& VM_PROT_READ ≠ 0 ∧
  read_u32 q.address % 2 ^ 32 = MH_MAGIC_64

/-- The segment addresses remembered after the region loop has processed the
given regions. -/
def mach_segments_after (read_u32 : Nat → Nat) (getsegmentdata : Nat → String → Nat)
    (seg : image_segments) : List mach_region → image_segments
  | [] => seg
  | q :: qs =>
    mach_segments_after read_u32 getsegmentdata
      (mach_classify read_u32 getsegmentdata seg q).1 qs

/-- A memory whose first word at every address is the image magic. -/
def magic_memory (_ : Nat) : Nat :=
  0xfeedfacf

/-- A memory that holds zero everywhere. -/
def zero_memory (_ : Nat) : Nat :=
  0

/-- Segment lookup of a demo image at `0x100000000`: `__DATA` at
`0x100008000`, `__DATA_CONST` at `0x100004000`, `__LINKEDIT` at `0x10000c000`. -/
def demo_getsegmentdata (header : Nat) (name : String) : Nat :=
  if header = 0x100000000 then
    if name = "__DATA" then 0x100008000
    else if name = "__DATA_CONST" then 0x100004000
    else if name = "__LINKEDIT" then 0x10000c000
    else 0
  else 0

/-- A file-backed region of the demo image with vendor tag 0. -/
def demo_image_region (address size protection : Nat) : mach_region :=
  { address := address, size := size, protection := protection, reserved := false,
    shared := false, ext_info := some (0, 1), filename := some "/usr/local/bin/memlens" }

/-- A small-allocator region. -/
def demo_malloc_small : mach_region :=
  { address := 0x600000000000, size := 0x800000, protection := 3, reserved := false,
    shared := false, ext_info := some (VM_MEMORY_MALLOC_SMALL, 16),
    filename := some "/ignored" }

/-- A memory that holds the image magic at `0x100000000` and zero elsewhere. -/
def demo_image_memory (a : Nat) : Nat :=
  if a = 0x100000000 then 0xfeedfacf else 0

/-- A pass over the demo image: header, `__DATA_CONST`, `__DATA`, `__LINKEDIT`. -/
def demo_image_pass : List mach_region :=
  [ demo_image_region 0x100000000 0x4000 5,
    demo_image_region 0x100004000 0x4000 1,
    demo_image_region 0x100008000 0x4000 3,
    demo_image_region 0x10000c000 0x4000 1 ]


/-! ### Vocabulary of the Win32 walk -/

/-- The results of the successive calls of `VirtualQueryEx` in the region loop:
each call is made at the address of the previous call advanced by the
`RegionSize` that call returned, until a call fails. -/
def win_queries (VirtualQueryEx : Nat → Option MEMORY_BASIC_INFORMATION) :
    Nat → Nat → List MEMORY_BASIC_INFORMATION
  | 0, _ => []
  | fuel + 1, addr =>
    match VirtualQueryEx addr with
    | none => []
    | some mbi => mbi :: win_queries VirtualQueryEx fuel ((addr + mbi.RegionSize) % ADDR_MOD)

/-- A query function over four regions of `0x10000` bytes each, starting at
address 0: free, committed, free, reserved; queries elsewhere fail. -/
def demo_VirtualQueryEx (addr : Nat) : Option MEMORY_BASIC_INFORMATION :=
  if addr = 0 then
    some { BaseAddress := 0, RegionSize := 0x10000, State := MEM_FREE, Protect := PAGE_NOACCESS,
           Type_ := 0 }
  else if addr = 0x10000 then
    some { BaseAddress := 0x10000, RegionSize := 0x10000, State := MEM_COMMIT,
           Protect := PAGE_READWRITE, Type_ := MEM_PRIVATE }
  else if addr = 0x20000 then
    some { BaseAddress := 0x20000, RegionSize := 0x10000, State := MEM_FREE,
           Protect := PAGE_NOACCESS, Type_ := 0 }
  else if addr = 0x30000 then
    some { BaseAddress := 0x30000, RegionSize := 0x10000, State := MEM_RESERVE, Protect := 0,
           Type_ := MEM_PRIVATE }
  else none

/-- A file-backed region with the unlisted vendor tag 33. -/
def demo_tagged_region : mach_region :=
  { address := 0x200000000, size := 0x4000, protection := 5, reserved := false,
    shared := false, ext_info := some (33, 1), filename := some "/usr/lib/libfoo.dylib" }


/-! ### Vocabulary of the resolver scan -/

/-- Containment test of `named_address`:
`address >= it->start_address && address < start_address + size`. -/
def region_contains (it : memory_region_t) (address : Nat) : Prop :=
  it.start_address ≤ address ∧ address < region_end it

instance (it : memory_region_t) (address : Nat) : Decidable (region_contains it address) := by
  unfold region_contains; infer_instance

/-- Local `new_offset` of `named_address` for a region: the distance from the
address to the end of a `"stack"` region, from the start of any other region
to the address. -/
def computed_offset (it : memory_region_t) (address : Nat) : Nat :=
  if it.region_type = "stack" then (region_end it + ADDR_MOD - address) % ADDR_MOD
  else (address + ADDR_MOD - it.start_address) % ADDR_MOD

/-- Label that `named_address` builds for a region. -/
def computed_label (it : memory_region_t) (address : Nat) : String :=
  if it.region_type = "stack" then "[stack - " ++ toString (computed_offset it address) ++ "]"
  else "[" ++ it.region_type ++ " + " ++ toString (computed_offset it address) ++ "]"

/-- Two regions with the same range, typed `heap` and `data`. -/
def demo_overlap : List memory_region_t :=
  [ { start_address := 0x1000, size := 0x1000, resident_size := 0, region_type := "heap",
      region_detail := "-", permissions := 3 },
    { start_address := 0x1000, size := 0x1000, resident_size := 0, region_type := "data",
      region_detail := "-", permissions := 3 } ]


/-! ### Vocabulary of the Linux line loop -/

/-- The start and end address that the first two extractions of the line loop
store, when both store a value; `none` when one of them leaves its target
untouched. -/
def maps_addresses (hex_get : List Char → Nat × List Char × Bool) (line : String) :
    Option (Nat × Nat) :=
  let iss : istringstream := { buf := line.toList, failed := false }
  let (iss, start_address) := extract_hex hex_get iss
  let iss := iss_ignore iss
  let (_, end_address) := extract_hex hex_get iss
  match start_address, end_address with
  | some s, some e => some (s, e)
  | _, _ => none


/-! ## `prime_factors` (`memlens.cpp`) -/

/-- Number of values of a `uint32_t`. -/
def UINT32_MOD : Nat := 2 ^ 32

/-- Ways in which a run of the loops of `prime_factors` does not return: the
fuel of the model runs out, `num % i` is evaluated with `i == 0`, or an
element is written at or beyond the end of the array. -/
inductive loop_error where
  | out_of_fuel
  | division_by_zero
  | out_of_bounds
  deriving Repr, DecidableEq

/-- The loop `while (num % i == 0) { factors[factor_idx++] = i; num /= i; }`.
The list `factors` holds the elements written so far, so `factor_idx` is its
length; `capacity` is the number of elements of the array.  The result is the
value of `num` and the elements written when the loop ends. -/
def prime_factors_while (capacity i : Nat) :
    Nat → Nat → List Nat → Except loop_error (Nat × List Nat)
  | 0, _, _ => .error .out_of_fuel
  | fuel + 1, num, factors =>
    if i = 0 then .error .division_by_zero
    else if num % i = 0 then
      if capacity ≤ factors.length then .error .out_of_bounds
      else prime_factors_while capacity i fuel (num / i) (factors ++ [i])
    else .ok (num, factors)

/-- The loop `for (uint32_t i = 2; i <= num; i++)` from the test of its
condition at the given `i`; `inner_fuel` is the fuel of each run of the inner
loop. -/
def prime_factors_for (capacity inner_fuel : Nat) :
    Nat → Nat → Nat → List Nat → Except loop_error (List Nat)
  | 0, _, _, _ => .error .out_of_fuel
  | fuel + 1, i, num, factors =>
    if i ≤ num then
      match prime_factors_while capacity i inner_fuel num factors with
      | .ok (num, factors) =>
        prime_factors_for capacity inner_fuel fuel ((i + 1) % UINT32_MOD) num factors
      | .error e => .error e
    else .ok factors

/-- The computation of `prime_factors`: the array `new uint32_t[num]` and the
two loops; the result is the sequence of elements written to `factors`. -/
def prime_factors (fuel : Nat) (num : Nat) : Except loop_error (List Nat) :=
  prime_factors_for num fuel fuel 2 num []

instance : DecidableEq (Except loop_error (List Nat))
  | .ok a, .ok b => if h : a = b then isTrue (by rw [h]) else isFalse (by intro e; cases e; exact h rfl)
  | .error a, .error b =>
    if h : a = b then isTrue (by rw [h]) else isFalse (by intro e; cases e; exact h rfl)
  | .ok _, .error _ => isFalse (by intro e; cases e)
  | .error _, .ok _ => isFalse (by intro e; cases e)

/-- Loop invariant of `prime_factors` at the counter `i`, for the argument
`num₀`, the current value `num` and the elements `factors` written so far. -/
structure factor_invariant (num₀ i num : Nat) (factors : List Nat) : Prop where
  num_pos : 1 ≤ num
  product : factors.prod * num = num₀
  primes : ∀ p ∈ factors, Nat.Prime p
  bounded : ∀ p ∈ factors, p ≤ i
  sorted : factors.Pairwise (· ≤ ·)
  divided : ∀ d, 2 ≤ d → d < i → ¬ d ∣ num
  count : 2 ^ factors.length * num ≤ num₀

/-! ### Vocabulary of the Linux line format -/

/-- Drops the white space at the head of the input and the field, the run of
other characters, that follows it. -/
def skip_field (s : List Char) : List Char :=
  (s.dropWhile isspace).dropWhile fun c => !isspace c

/-- The name field of a line of `/proc/self/maps`: what follows the five
fields address range, permissions, offset, device and inode, and the white
space after them, up to the end of the line.  It holds the backing path of a
file mapping, a bracketed pseudo-name, or nothing. -/
def maps_pathname (line : String) : String :=
  String.mk
    ((skip_field (skip_field (skip_field (skip_field (skip_field line.toList))))).dropWhile
      isspace)

/-- The part of a name up to its first white space. -/
def first_word (name : String) : String :=
  String.mk (name.toList.takeWhile fun c => !isspace c)

/-- The stream of one iteration of the line loop after the extraction of the
file offset, that is before `iss >> ignore; // skip device major minor`. -/
def maps_stream_at_device (hex_get : List Char → Nat × List Char × Bool) (line : String) :
    istringstream :=
  let iss : istringstream := { buf := line.toList, failed := false }
  let (iss, _) := extract_hex hex_get iss
  let iss := iss_ignore iss
  let (iss, _) := extract_hex hex_get iss
  let (iss, _) := extract_token iss
  let (iss, _) := extract_hex hex_get iss
  iss

/-- The extractions of the address range, the permissions and the file offset
consume the first three fields of the line and leave the stream good, as they
do on a line in the format of the kernel. -/
def maps_numbers_read (hex_get : List Char → Nat × List Char × Bool) (line : String) : Prop :=
  maps_stream_at_device hex_get line =
    { buf := skip_field (skip_field (skip_field line.toList)), failed := false }

instance (hex_get : List Char → Nat × List Char × Bool) (line : String) :
    Decidable (maps_numbers_read hex_get line) := by
  unfold maps_numbers_read
  infer_instance

/-! ### Leading numeric literal of a name -/

/-- The prefix `lit` of `name` is a numeric literal of value `v`, and no longer
prefix of `name` is a numeric literal. -/
def leading_literal (name : String) (lit : List Char) (v : Nat) : Prop :=
  lit ∈ name.toList.inits ∧ numeric_literal (String.mk lit) = some v ∧
  ∀ p ∈ name.toList.inits, lit.length < p.length → numeric_literal (String.mk p) = none

instance (name : String) (lit : List Char) (v : Nat) : Decidable (leading_literal name lit v) := by
  unfold leading_literal
  infer_instance

/-! # Part II: theorems -/

/-! ## Lemmas on `named_address` -/

theorem region_end_le (it : memory_region_t) : region_end it ≤ it.start_address + it.size :=
  Nat.mod_le _ _

theorem named_address_step_outside (address : Nat) (st : resolver_state) (it : memory_region_t)
    (h : ¬ (it.start_address ≤ address ∧ address < it.start_address + it.size)) :
    named_address_step address st it = st := by
  have hle := region_end_le it
  have : ¬ (it.start_address ≤ address ∧ address < region_end it) := by
    rintro ⟨h1, h2⟩
    exact h ⟨h1, lt_of_lt_of_le h2 hle⟩
  simp [named_address_step, this]

theorem foldl_named_address_step_outside (address : Nat) (l : List memory_region_t)
    (st : resolver_state)
    (h : ∀ it ∈ l, ¬ (it.start_address ≤ address ∧ address < it.start_address + it.size)) :
    l.foldl (named_address_step address) st = st := by
  induction l generalizing st with
  | nil => rfl
  | cons it tl ih =>
    rw [List.foldl_cons, named_address_step_outside address st it (h it (List.mem_cons_self _ _))]
    exact ih st (fun x hx => h x (List.mem_cons_of_mem _ hx))

theorem symbolic_label_ne_empty (r : memory_region_t) (address : Nat) :
    symbolic_label r address ≠ "" := by
  have key : ∀ s : String, s ++ "]" ≠ "" := by
    intro s h
    have hl := congrArg String.length h
    rw [String.length_append] at hl
    change s.length + 1 = 0 at hl
    omega
  unfold symbolic_label
  split <;> exact key _

theorem named_address_step_inside (address : Nat) (st : resolver_state) (r : memory_region_t)
    (hend : r.start_address + r.size < ADDR_MOD)
    (hlo : r.start_address ≤ address) (hhi : address < r.start_address + r.size) :
    named_address_step address st r =
      if symbolic_offset r address < st.offset then
        { offset := symbolic_offset r address, result := symbolic_label r address }
      else st := by
  have he : region_end r = r.start_address + r.size := Nat.mod_eq_of_lt hend
  have h1 : (r.start_address + r.size + ADDR_MOD - address) % ADDR_MOD
      = r.start_address + r.size - address := by
    have : r.start_address + r.size + ADDR_MOD - address
        = (r.start_address + r.size - address) + ADDR_MOD := by omega
    rw [this, Nat.add_mod_right]
    exact Nat.mod_eq_of_lt (by omega)
  have h2 : (address + ADDR_MOD - r.start_address) % ADDR_MOD = address - r.start_address := by
    have : address + ADDR_MOD - r.start_address = (address - r.start_address) + ADDR_MOD := by
      omega
    rw [this, Nat.add_mod_right]
    exact Nat.mod_eq_of_lt (by omega)
  unfold named_address_step symbolic_label symbolic_offset
  rw [he]
  by_cases hs : r.region_type = "stack"
  · simp only [hs, if_true, hlo, hhi, and_self, h1]
  · simp only [hs, if_false, hlo, hhi, and_self, h2, if_true]

theorem disjoint_not_contains (r it : memory_region_t) (address : Nat)
    (hd : regions_disjoint r it ∨ regions_disjoint it r)
    (hlo : r.start_address ≤ address) (hhi : address < r.start_address + r.size) :
    ¬ (it.start_address ≤ address ∧ address < it.start_address + it.size) := by
  unfold regions_disjoint at hd
  omega

/-- In a snapshot of pairwise disjoint regions the scan of `named_address`
is decided by the one region that contains the address. -/
theorem named_address_scan_unique (regions : List memory_region_t) (r : memory_region_t)
    (address : Nat) (hdis : regions.Pairwise regions_disjoint) (hr : r ∈ regions)
    (hend : r.start_address + r.size < ADDR_MOD)
    (hlo : r.start_address ≤ address) (hhi : address < r.start_address + r.size) :
    named_address_scan regions address =
      if symbolic_offset r address < 2 ^ 30 then
        { offset := symbolic_offset r address, result := symbolic_label r address }
      else { offset := 2 ^ 30, result := "" } := by
  obtain ⟨pre, post, rfl⟩ := List.append_of_mem hr
  rw [List.pairwise_append] at hdis
  obtain ⟨_, hpost, hcross⟩ := hdis
  rw [List.pairwise_cons] at hpost
  have hpre : ∀ it ∈ pre, ¬ (it.start_address ≤ address ∧
      address < it.start_address + it.size) := fun it hit =>
    disjoint_not_contains r it address (Or.inr (hcross it hit r (List.mem_cons_self _ _))) hlo hhi
  have hpst : ∀ it ∈ post, ¬ (it.start_address ≤ address ∧
      address < it.start_address + it.size) := fun it hit =>
    disjoint_not_contains r it address (Or.inl (hpost.1 it hit)) hlo hhi
  unfold named_address_scan
  rw [List.foldl_append, foldl_named_address_step_outside address pre _ hpre, List.foldl_cons,
    foldl_named_address_step_outside address post _ hpst,
    named_address_step_inside address _ r hend hlo hhi]

/-! ## Properties of `named_address` -/

/-- C1 (as amended): in a snapshot of pairwise non-overlapping regions, for an
address strictly inside a region `r` (whose end does not overflow), the offset
`N` of the label is strictly less than the size of `r`; when `N < 2^30` the
result is the pointer text followed by `" @[T + N]"` (or `" @[stack - N]"` for
a stack region), and when `N ≥ 2^30` the result is the bare pointer text. -/
theorem named_address_inside_region (ptr_str : Nat → String)
    (regions : List memory_region_t) (r : memory_region_t) (address : Nat)
    (hdis : regions.Pairwise regions_disjoint) (hr : r ∈ regions)
    (hend : r.start_address + r.size < ADDR_MOD)
    (hlo : r.start_address < address) (hhi : address < r.start_address + r.size) :
    symbolic_offset r address < r.size ∧
    (symbolic_offset r address < 2 ^ 30 →
      named_address ptr_str regions address
        = ptr_str address ++ " @" ++ symbolic_label r address) ∧
    (2 ^ 30 ≤ symbolic_offset r address →
      named_address ptr_str regions address = ptr_str address) := by
  have hscan := named_address_scan_unique regions r address hdis hr hend (le_of_lt hlo) hhi
  refine ⟨?_, ?_, ?_⟩
  · unfold symbolic_offset
    split <;> omega
  · intro hN
    unfold named_address
    rw [hscan, if_pos hN]
    simp [symbolic_label_ne_empty]
  · intro hN
    unfold named_address
    rw [hscan, if_neg (Nat.not_lt.mpr hN)]
    simp

/-- C2: for an address that lies in no region of the snapshot, `named_address`
returns exactly the pointer text, with no `" @[...]"` suffix. -/
theorem named_address_unmapped (ptr_str : Nat → String) (regions : List memory_region_t)
    (address : Nat)
    (hout : ∀ it ∈ regions, address < it.start_address ∨
      it.start_address + it.size ≤ address) :
    named_address ptr_str regions address = ptr_str address := by
  have h : ∀ it ∈ regions, ¬ (it.start_address ≤ address ∧
      address < it.start_address + it.size) := by
    intro it hit
    have := hout it hit
    omega
  unfold named_address named_address_scan
  rw [foldl_named_address_step_outside address regions _ h]
  simp

/-- Witness of C1 as amended: `0x1010` lies inside the heap page of the demo
snapshot and resolves to `heap + 16`. -/
theorem named_address_inside_region_witness :
    named_address hex_ptr demo_snapshot 0x1010 = "0x1010 @[heap + 16]" :=
  ((named_address_inside_region hex_ptr demo_snapshot
      { start_address := 0x1000, size := 0x1000, resident_size := 0, region_type := "heap",
        region_detail := "-", permissions := 3 } 0x1010
      (by decide) (by decide) (by decide) (by decide) (by decide)).2.1 (by decide)).trans
    (by decide)

/-- Counterexample to C1 as stated: the address at offset `2^30` of a 2 GiB
heap region lies strictly inside the region, yet the result is the bare
pointer text and carries no label. -/
theorem named_address_inside_region_counterexample :
    [large_heap].Pairwise regions_disjoint ∧
    large_heap.start_address < 0x40001000 ∧
    0x40001000 < large_heap.start_address + large_heap.size ∧
    large_heap.start_address + large_heap.size < ADDR_MOD ∧
    0x40001000 - large_heap.start_address = 2 ^ 30 ∧
    named_address hex_ptr [large_heap] 0x40001000 = "0x40001000" ∧
    named_address hex_ptr [large_heap] 0x40001000 ≠ "0x40001000 @[heap + 1073741824]" := by
  decide

/-- Witness of C2: `0x9000` lies in no region of the demo snapshot. -/
theorem named_address_unmapped_witness :
    named_address hex_ptr demo_snapshot 0x9000 = "0x9000" :=
  (named_address_unmapped hex_ptr demo_snapshot 0x9000 (by decide)).trans (by decide)

/-! ## Lemmas on `dump_memory` -/

theorem ADDR_MOD_eq : ADDR_MOD = 18446744073709551616 := by decide

/-- Masking with `~0xf` clears the low four bits. -/
theorem address_base_eq (address : Nat) (h : address < ADDR_MOD) :
    address_base address = address - address % 16 := by
  have hmask : ADDR_MOD - 16 = 2 ^ 4 * (2 ^ 60 - 1) := by decide
  have hrhs : address - address % 16 = 2 ^ 4 * (address / 2 ^ 4) := by
    have := Nat.div_add_mod address 16
    norm_num
    omega
  unfold address_base
  rw [hmask, hrhs]
  apply Nat.eq_of_testBit_eq
  intro i
  rw [Nat.testBit_and, Nat.testBit_mul_pow_two, Nat.testBit_mul_pow_two,
    Nat.testBit_two_pow_sub_one, ← Nat.shiftRight_eq_div_pow, Nat.testBit_shiftRight]
  by_cases h4 : i ≥ 4
  · by_cases h64 : i < 64
    · have e : 4 + (i - 4) = i := by omega
      have d : i - 4 < 60 := by omega
      simp [h4, d, e]
    · have hlt : address < 2 ^ i :=
        lt_of_lt_of_le h (by
          rw [ADDR_MOD]
          exact Nat.pow_le_pow_right (by decide) (by omega))
      have e : 4 + (i - 4) = i := by omega
      simp [h4, e, Nat.testBit_lt_two_pow hlt]
  · simp [h4]

theorem dump_offset_eq (address : Nat) (h : address < ADDR_MOD) :
    dump_offset address = address % 16 := by
  unfold dump_offset
  rw [address_base_eq address h]
  rw [ADDR_MOD_eq] at *
  omega

theorem dump_rows_eq (address size : Nat) (h : address < ADDR_MOD) :
    dump_rows address size = (size + address % 16 + 15) % ADDR_MOD / 16 := by
  unfold dump_rows
  rw [dump_offset_eq address h]

theorem dump_memory_length (mem : Nat → Nat) (address size : Nat) :
    (dump_memory mem address size).length = dump_rows address size := by
  simp [dump_memory]

theorem dump_memory_getElem? (mem : Nat → Nat) (address size k : Nat)
    (hk : k < dump_rows address size) :
    (dump_memory mem address size)[k]? =
      some (dump_memory_row mem address ((address + size) % ADDR_MOD)
        ((address_base address + k * 16) % ADDR_MOD)) := by
  simp [dump_memory, List.getElem?_map, List.getElem?_range hk]

theorem dump_memory_getElem?_lt (mem : Nat → Nat) (address size k : Nat) (row : dump_row)
    (h : (dump_memory mem address size)[k]? = some row) : k < dump_rows address size := by
  have := (List.getElem?_eq_some.mp h).1
  rwa [dump_memory_length] at this

theorem dump_memory_row_hex (mem : Nat → Nat) (address end_address row_address i : Nat)
    (hi : i < 16) :
    (dump_memory_row mem address end_address row_address).hex[i]? =
      some (hex_column mem address end_address ((row_address + i) % ADDR_MOD)).1 := by
  simp [dump_memory_row, List.getElem?_map, List.getElem?_range hi]

theorem dump_memory_row_ascii (mem : Nat → Nat) (address end_address row_address i : Nat)
    (hi : i < 16) :
    (dump_memory_row mem address end_address row_address).ascii[i]? =
      some (ascii_column mem address end_address ((row_address + i) % ADDR_MOD)).1 := by
  simp [dump_memory_row, List.getElem?_map, List.getElem?_range hi]

theorem hex_column_reads (mem : Nat → Nat) (address end_address u8_addr u : Nat)
    (h : u ∈ (hex_column mem address end_address u8_addr).2) :
    address ≤ u ∧ u < end_address := by
  unfold hex_column at h
  split at h
  · simp at h
    subst h
    assumption
  · simp at h

theorem ascii_column_reads (mem : Nat → Nat) (address end_address u8_addr u : Nat)
    (h : u ∈ (ascii_column mem address end_address u8_addr).2) :
    address ≤ u ∧ u < end_address := by
  unfold ascii_column at h
  split at h
  · simp at h
    subst h
    assumption
  · simp at h

/-- Every address dereferenced while printing a row passed the window test. -/
theorem dump_memory_row_reads (mem : Nat → Nat) (address end_address row_address u : Nat)
    (h : u ∈ (dump_memory_row mem address end_address row_address).reads) :
    address ≤ u ∧ u < end_address := by
  simp only [dump_memory_row, List.mem_append, List.mem_flatten, List.mem_map] at h
  rcases h with ⟨l, ⟨p, ⟨i, _, rfl⟩, rfl⟩, hu⟩ | ⟨l, ⟨p, ⟨i, _, rfl⟩, rfl⟩, hu⟩
  · exact hex_column_reads _ _ _ _ _ hu
  · exact ascii_column_reads _ _ _ _ _ hu

/-- Address of row `k`: no wrap-around happens when the request ends inside
the address space, and the row address is always a multiple of 16. -/
theorem dump_row_address (address size k : Nat) (ha : address < ADDR_MOD)
    (hk : k < dump_rows address size) :
    (address_base address + k * 16) % ADDR_MOD = (address - address % 16 + 16 * k) % ADDR_MOD ∧
    (address_base address + k * 16) % ADDR_MOD % 16 = 0 ∧
    (address + size ≤ ADDR_MOD →
      (address_base address + k * 16) % ADDR_MOD = address - address % 16 + 16 * k) := by
  rw [dump_rows_eq address size ha] at hk
  rw [address_base_eq address ha]
  rw [ADDR_MOD_eq] at *
  refine ⟨by rw [Nat.mul_comm k 16], by omega, fun h => ?_⟩
  have : (size + address % 16 + 15) % 18446744073709551616 ≤ size + address % 16 + 15 :=
    Nat.mod_le _ _
  omega

/-- Address of column `i` of a row: adding the column index never wraps. -/
theorem dump_column_address (row_address i : Nat) (hr : row_address < ADDR_MOD)
    (h16 : row_address % 16 = 0) (hi : i < 16) :
    (row_address + i) % ADDR_MOD = row_address + i := by
  rw [ADDR_MOD_eq] at *
  omega

theorem dump_memory_row_address (mem : Nat → Nat) (address end_address row_address : Nat) :
    (dump_memory_row mem address end_address row_address).row_address = row_address := rfl

/-- With an empty window every column of a row is blank and nothing is read. -/
theorem dump_memory_row_empty_window (mem : Nat → Nat) (address row_address : Nat) :
    dump_memory_row mem address address row_address = blank_row row_address := by
  have hh : ∀ u, hex_column mem address address u = ("   ", []) := by
    intro u
    unfold hex_column
    rw [if_neg (by omega)]
  have ha : ∀ u, ascii_column mem address address u = (' ', []) := by
    intro u
    unfold ascii_column
    rw [if_neg (by omega)]
  simp only [dump_memory_row, hh, ha, blank_row]
  rfl

/-- Facts shared by the statements about a row `k` of a dump: which row it
is, that its address is aligned, and that column addresses do not wrap. -/
theorem dump_memory_row_spec (mem : Nat → Nat) (address size k : Nat) (row : dump_row)
    (ha : address < ADDR_MOD) (h : (dump_memory mem address size)[k]? = some row) :
    row = dump_memory_row mem address ((address + size) % ADDR_MOD) row.row_address ∧
    row.row_address = (address_base address + k * 16) % ADDR_MOD ∧
    row.row_address % 16 = 0 ∧
    ∀ i, i < 16 → (row.row_address + i) % ADDR_MOD = row.row_address + i := by
  have hk := dump_memory_getElem?_lt mem address size k row h
  rw [dump_memory_getElem? mem address size k hk] at h
  have hrow := (Option.some.inj h).symm
  have h16 := (dump_row_address address size k ha hk).2.1
  have hlt : (address_base address + k * 16) % ADDR_MOD < ADDR_MOD :=
    Nat.mod_lt _ (by rw [ADDR_MOD_eq]; decide)
  subst hrow
  exact ⟨rfl, rfl, h16, fun i hi => dump_column_address _ i hlt h16 hi⟩

/-! ## Properties of `dump_memory` -/

/-- C3 (as amended): a dump of length 0 from a start address that is not
16-byte aligned consists of exactly one row, whose 16 hex columns and 16 ASCII
columns are all blank; from a 16-byte aligned start address it has no row. -/
theorem dump_memory_zero_length (mem : Nat → Nat) (address : Nat) (ha : address < ADDR_MOD) :
    (address % 16 ≠ 0 →
      dump_memory mem address 0 = [blank_row (address - address % 16)]) ∧
    (address % 16 = 0 → dump_memory mem address 0 = []) := by
  have hend : (address + 0) % ADDR_MOD = address := Nat.mod_eq_of_lt ha
  have hrows := dump_rows_eq address 0 ha
  constructor
  · intro hne
    have h1 : dump_rows address 0 = 1 := by
      rw [hrows, ADDR_MOD_eq]
      omega
    have hb : (address_base address + 0 * 16) % ADDR_MOD = address - address % 16 := by
      rw [address_base_eq address ha, ADDR_MOD_eq]
      rw [ADDR_MOD_eq] at ha
      omega
    unfold dump_memory
    rw [h1, hend]
    simp only [List.range_succ, List.range_zero, List.nil_append, List.map_cons, List.map_nil]
    rw [hb, dump_memory_row_empty_window]
  · intro h0
    have h1 : dump_rows address 0 = 0 := by
      rw [hrows, ADDR_MOD_eq]
      omega
    unfold dump_memory
    rw [h1]
    rfl

/-- Witness of C3 as amended: a zero-length dump at `0x1003` is one blank row
at `0x1000`. -/
theorem dump_memory_zero_length_witness :
    dump_memory (counting_memory 0) 0x1003 0 = [blank_row 0x1000] :=
  (dump_memory_zero_length (counting_memory 0) 0x1003 (by decide)).1 (by decide)

/-- Counterexample to C3 as stated: a zero-length dump at the 16-byte aligned
address `0x1000` has no row at all. -/
theorem dump_memory_zero_length_counterexample :
    dump_memory (counting_memory 0) 0x1000 0 = [] ∧
    (dump_memory (counting_memory 0) 0x1000 0).length ≠ 1 := by
  decide

/-- C4: every address dereferenced by a dump lies in `[start, start + length)`,
and every column of a row whose address is outside that window (before the
start in the first row, at or after the end in the last row) is blank in the
hex part and in the ASCII part, and its byte is not read. -/
theorem dump_memory_clipping (mem : Nat → Nat) (address size : Nat)
    (ha : address < ADDR_MOD) :
    (∀ row ∈ dump_memory mem address size, ∀ u ∈ row.reads,
      address ≤ u ∧ u < address + size) ∧
    (∀ (k i : Nat) (row : dump_row), (dump_memory mem address size)[k]? = some row → i < 16 →
      ¬ (address ≤ row.row_address + i ∧ row.row_address + i < address + size) →
      row.hex[i]? = some "   " ∧ row.ascii[i]? = some ' ' ∧
        row.row_address + i ∉ row.reads) := by
  have hend : (address + size) % ADDR_MOD ≤ address + size := Nat.mod_le _ _
  have hreads : ∀ (k : Nat) (row : dump_row),
      (dump_memory mem address size)[k]? = some row → ∀ u ∈ row.reads,
      address ≤ u ∧ u < address + size := by
    intro k row hrow u hu
    have hspec := (dump_memory_row_spec mem address size k row ha hrow).1
    rw [hspec] at hu
    have := dump_memory_row_reads _ _ _ _ _ hu
    omega
  constructor
  · intro row hmem u hu
    obtain ⟨k, hk⟩ := List.getElem?_of_mem hmem
    exact hreads k row hk u hu
  · intro k i row hrow hi hout
    obtain ⟨hspec, _, _, hcol⟩ := dump_memory_row_spec mem address size k row ha hrow
    have hwin : ¬ (address ≤ row.row_address + i ∧
        row.row_address + i < (address + size) % ADDR_MOD) := by omega
    refine ⟨?_, ?_, fun hmem => hout (hreads k row hrow _ hmem)⟩
    · rw [hspec, dump_memory_row_hex _ _ _ _ _ hi, hcol i hi]
      unfold hex_column
      rw [if_neg hwin]
    · rw [hspec, dump_memory_row_ascii _ _ _ _ _ hi, hcol i hi]
      unfold ascii_column
      rw [if_neg hwin]

/-- Witness of C4: in the dump of 20 bytes at `0x1004`, column 3 of row 0
(address `0x1003`) is blank and unread. -/
theorem dump_memory_clipping_witness :
    (dump_memory_row (counting_memory 0x1004) 0x1004 0x1018 0x1000).hex[3]? = some "   " ∧
    (dump_memory_row (counting_memory 0x1004) 0x1004 0x1018 0x1000).ascii[3]? = some ' ' ∧
    0x1000 + 3 ∉ (dump_memory_row (counting_memory 0x1004) 0x1004 0x1018 0x1000).reads :=
  (dump_memory_clipping (counting_memory 0x1004) 0x1004 20 (by decide)).2 0 3
    (dump_memory_row (counting_memory 0x1004) 0x1004 0x1018 0x1000)
    (by decide) (by decide) (by decide)

/-- C6: the address printed for row `k` is a multiple of 16 and equals the
start address with its low four bits cleared plus `16 * k` (in 64-bit address
arithmetic; the sum is exact whenever the request ends inside the address
space), whether or not the start address is aligned. -/
theorem dump_memory_row_addresses (mem : Nat → Nat) (address size k : Nat) (row : dump_row)
    (ha : address < ADDR_MOD) (h : (dump_memory mem address size)[k]? = some row) :
    row.row_address % 16 = 0 ∧
    row.row_address = (address - address % 16 + 16 * k) % ADDR_MOD ∧
    (address + size ≤ ADDR_MOD → row.row_address = address - address % 16 + 16 * k) := by
  have hk := dump_memory_getElem?_lt mem address size k row h
  obtain ⟨_, hra, h16, _⟩ := dump_memory_row_spec mem address size k row ha h
  obtain ⟨h1, _, h3⟩ := dump_row_address address size k ha hk
  exact ⟨h16, hra.trans h1, fun hs => hra.trans (h3 hs)⟩

/-- Witness of C6: row 1 of the dump of 20 bytes at the unaligned address
`0x1004` is printed with address `0x1010`. -/
theorem dump_memory_row_addresses_witness :
    (dump_memory_row (counting_memory 0x1004) 0x1004 0x1018 0x1010).row_address % 16 = 0 ∧
    (dump_memory_row (counting_memory 0x1004) 0x1004 0x1018 0x1010).row_address
      = 0x1000 + 16 * 1 :=
  have h := dump_memory_row_addresses (counting_memory 0x1004) 0x1004 20 1
    (dump_memory_row (counting_memory 0x1004) 0x1004 0x1018 0x1010) (by decide) (by decide)
  ⟨h.1, h.2.2 (by decide)⟩

/-- C7: the ASCII column of every byte `c` inside the requested window
`[start, start + length)` shows the character `c` when `32 ≤ c < 127` and `'.'`
otherwise.  The end of the window is taken in 64-bit address arithmetic, as
the dump computes it; for a request that ends inside the address space it is
the plain sum `start + length`. -/
theorem dump_memory_ascii (mem : Nat → Nat) (address size k i : Nat) (row : dump_row)
    (ha : address < ADDR_MOD)
    (h : (dump_memory mem address size)[k]? = some row) (hi : i < 16)
    (hlo : address ≤ row.row_address + i) :
    (row.row_address + i < (address + size) % ADDR_MOD →
      row.ascii[i]? = some
        (if 32 ≤ mem (row.row_address + i) % 256 ∧ mem (row.row_address + i) % 256 < 127 then
          Char.ofNat (mem (row.row_address + i) % 256)
        else '.')) ∧
    (address + size < ADDR_MOD → row.row_address + i < address + size →
      row.ascii[i]? = some
        (if 32 ≤ mem (row.row_address + i) % 256 ∧ mem (row.row_address + i) % 256 < 127 then
          Char.ofNat (mem (row.row_address + i) % 256)
        else '.')) := by
  obtain ⟨hspec, _, _, hcol⟩ := dump_memory_row_spec mem address size k row ha h
  have key : row.row_address + i < (address + size) % ADDR_MOD →
      row.ascii[i]? = some
        (if 32 ≤ mem (row.row_address + i) % 256 ∧ mem (row.row_address + i) % 256 < 127 then
          Char.ofNat (mem (row.row_address + i) % 256)
        else '.') := by
    intro hhi
    have hwin : address ≤ row.row_address + i ∧
        row.row_address + i < (address + size) % ADDR_MOD := ⟨hlo, hhi⟩
    rw [hspec, dump_memory_row_ascii _ _ _ _ _ hi, hcol i hi]
    unfold ascii_column
    rw [if_pos hwin]
    rfl
  refine ⟨key, fun hsum hhi => key ?_⟩
  rw [Nat.mod_eq_of_lt hsum]
  exact hhi

/-- Witness of C7: in the dump of 64 bytes `0x23 ..` at `0x1003`, the byte
`0x23` at column 3 of row 0 is shown as `'#'`. -/
theorem dump_memory_ascii_witness :
    (dump_memory_row (counting_memory 0xfe0) 0x1003 0x1043 0x1000).ascii[3]? = some '#' :=
  ((dump_memory_ascii (counting_memory 0xfe0) 0x1003 64 0 3
    (dump_memory_row (counting_memory 0xfe0) 0x1003 0x1043 0x1000)
    (by decide) (by decide) (by decide) (by decide)).2 (by decide) (by decide)).trans
    (by decide)

/-! ## Lemmas on `region_name_to_address` -/

/-- When no region type equals the name, the lookup is the numeric parse. -/
theorem region_name_to_address_no_match (regions : List memory_region_t) (name : String)
    (h : ∀ r ∈ regions, r.region_type ≠ name) :
    region_name_to_address regions name = stoull name := by
  induction regions with
  | nil => rfl
  | cons it tl ih =>
    have hne : ¬ name = it.region_type := fun e => h it (List.mem_cons_self _ _) e.symm
    rw [region_name_to_address, if_neg hne]
    exact ih (fun r hr => h r (List.mem_cons_of_mem _ hr))

theorem decimal_digit_not_special (c : Char) (h : 48 ≤ c.toNat ∧ c.toNat ≤ 57) :
    isspace c = false ∧ c ≠ '-' ∧ c ≠ '+' ∧ c ≠ 'x' ∧ c ≠ 'X' := by
  refine ⟨?_, ?_, ?_, ?_, ?_⟩
  · simp only [isspace, decide_eq_false_iff_not]
    omega
  all_goals
    intro e
    subst e
    revert h
    decide

theorem literal_digit_spec (base : Nat) (c : Char) (d : Nat)
    (h : literal_digit base c = some d) :
    digit_value c = some d ∧ d < base := by
  unfold literal_digit at h
  unfold digit_value
  split at h
  · rename_i h1
    injection h with h
    subst h
    exact ⟨by rw [if_pos ⟨h1.1, h1.2.1⟩], h1.2.2⟩
  · split at h
    · rename_i h1 h2
      injection h with h
      subst h
      have h3 : ¬ (48 ≤ c.toNat ∧ c.toNat ≤ 57) := by omega
      have h4 : 97 ≤ c.toNat ∧ c.toNat ≤ 122 := by omega
      rw [if_neg h3, if_pos h4]
      exact ⟨by congr 1; omega, by omega⟩
    · split at h
      · rename_i h1 h0 h2
        injection h with h
        subst h
        have h3 : ¬ (48 ≤ c.toNat ∧ c.toNat ≤ 57) := by omega
        have h4 : ¬ (97 ≤ c.toNat ∧ c.toNat ≤ 122) := by omega
        have h5 : 65 ≤ c.toNat ∧ c.toNat ≤ 90 := by omega
        rw [if_neg h3, if_neg h4, if_pos h5]
        exact ⟨by congr 1; omega, by omega⟩
      · cases h

theorem literal_digit_is_base_digit (base : Nat) (c : Char) (d : Nat)
    (h : literal_digit base c = some d) :
    is_base_digit base c = true := by
  obtain ⟨h1, h2⟩ := literal_digit_spec base c d h
  simp [is_base_digit, h1, h2]

theorem literal_digit_decimal (base : Nat) (c : Char) (d : Nat)
    (hb : base = 8 ∨ base = 10) (h : literal_digit base c = some d) :
    48 ≤ c.toNat ∧ c.toNat ≤ 57 := by
  unfold literal_digit at h
  split at h
  · rename_i h1
    exact ⟨h1.1, h1.2.1⟩
  · split at h
    · omega
    · split at h
      · omega
      · cases h

/-- On a sequence made of digits of the base only, the scan of `strtoull`
consumes the whole sequence and computes its positional value. -/
theorem scan_digits_literal (base : Nat) (cs : List Char) (acc v : Nat)
    (h : literal_value base acc cs = some v) :
    scan_digits base acc cs = v := by
  induction cs generalizing acc with
  | nil =>
    simp only [literal_value] at h
    injection h
  | cons c cs ih =>
    unfold literal_value at h
    cases hd : literal_digit base c with
    | none => rw [hd] at h; cases h
    | some d =>
      rw [hd] at h
      obtain ⟨h1, h2⟩ := literal_digit_spec base c d hd
      unfold scan_digits
      simp only [h1, h2, if_true]
      exact ih _ h

theorem literal_value_head (base : Nat) (acc v : Nat) (c : Char) (cs : List Char)
    (h : literal_value base acc (c :: cs) = some v) : ∃ d, literal_digit base c = some d := by
  unfold literal_value at h
  cases hd : literal_digit base c with
  | none => rw [hd] at h; cases h
  | some d => exact ⟨d, rfl⟩

/-- The parse once white space, sign and base are known. -/
theorem stoull_of_scan (str : String) (negative : Bool) (s : List Char) (base : Nat)
    (c : Char) (cs : List Char)
    (hsign : scan_sign (str.toList.dropWhile isspace) = (negative, s))
    (hbase : scan_base s = (base, c :: cs)) (hdig : is_base_digit base c = true) :
    stoull str =
      if ADDR_MOD ≤ scan_digits base 0 (c :: cs) then .error .out_of_range
      else .ok (if negative then (ADDR_MOD - scan_digits base 0 (c :: cs)) % ADDR_MOD
        else scan_digits base 0 (c :: cs)) := by
  unfold stoull
  simp only [hsign, hbase, hdig, if_true]

theorem dropWhile_isspace_digit (c : Char) (cs : List Char)
    (h : 48 ≤ c.toNat ∧ c.toNat ≤ 57) : (c :: cs).dropWhile isspace = c :: cs := by
  rw [List.dropWhile_cons, (decimal_digit_not_special c h).1]
  rfl

theorem scan_sign_digit (c : Char) (cs : List Char)
    (h : 48 ≤ c.toNat ∧ c.toNat ≤ 57) : scan_sign (c :: cs) = (false, c :: cs) := by
  obtain ⟨_, h1, h2, _⟩ := decimal_digit_not_special c h
  unfold scan_sign
  split
  · rename_i e
    injection e with e _
    exact absurd e h1
  · rename_i e
    injection e with e _
    exact absurd e h2
  · rfl

theorem stoull_literal_hex (str : String) (x d : Char) (ds : List Char) (v : Nat)
    (hx : x = 'x' ∨ x = 'X') (hstr : str.toList = '0' :: x :: d :: ds)
    (hv : literal_value 16 0 (d :: ds) = some v) (hlt : v < ADDR_MOD) :
    stoull str = .ok v := by
  obtain ⟨dv, hd⟩ := literal_value_head 16 0 v d ds hv
  have hdig := literal_digit_is_base_digit 16 d dv hd
  have h0 : (48 : Nat) ≤ ('0' : Char).toNat ∧ ('0' : Char).toNat ≤ 57 := by decide
  have hsign : scan_sign (str.toList.dropWhile isspace) = (false, '0' :: x :: d :: ds) := by
    rw [hstr, dropWhile_isspace_digit _ _ h0, scan_sign_digit _ _ h0]
  have hbase : scan_base ('0' :: x :: d :: ds) = (16, d :: ds) := by
    simp only [scan_base, hx, hdig, and_self, if_true]
  rw [stoull_of_scan str false _ 16 d ds hsign hbase hdig, scan_digits_literal 16 _ 0 v hv,
    if_neg (Nat.not_le.mpr hlt)]
  rfl

theorem stoull_literal_octal (str : String) (ds : List Char) (v : Nat)
    (hstr : str.toList = '0' :: ds) (hv : literal_value 8 0 ds = some v)
    (hlt : v < ADDR_MOD) : stoull str = .ok v := by
  have h0 : (48 : Nat) ≤ ('0' : Char).toNat ∧ ('0' : Char).toNat ≤ 57 := by decide
  have hsign : scan_sign (str.toList.dropWhile isspace) = (false, '0' :: ds) := by
    rw [hstr, dropWhile_isspace_digit _ _ h0, scan_sign_digit _ _ h0]
  have hbase : scan_base ('0' :: ds) = (8, '0' :: ds) := by
    unfold scan_base
    split
    · rename_i x d t e
      injection e with _ e
      subst e
      obtain ⟨dv, hd⟩ := literal_value_head 8 0 v x (d :: t) hv
      have hx := decimal_digit_not_special x (literal_digit_decimal 8 x dv (Or.inl rfl) hd)
      have : ¬ ((x = 'x' ∨ x = 'X') ∧ is_base_digit 16 d = true) := by
        rintro ⟨h1 | h1, _⟩
        · exact hx.2.2.2.1 h1
        · exact hx.2.2.2.2 h1
      rw [if_neg this]
    · rename_i e
      injection e with _ e
      subst e
      rfl
    · rename_i h1 h2
      exact absurd rfl (h2 ds)
  have hdig : is_base_digit 8 '0' = true := by decide
  have hscan : scan_digits 8 0 ('0' :: ds) = v := by
    have : scan_digits 8 0 ('0' :: ds) = scan_digits 8 0 ds := by
      rw [scan_digits]
      rfl
    rw [this]
    exact scan_digits_literal 8 _ 0 v hv
  rw [stoull_of_scan str false _ 8 '0' ds hsign hbase hdig, hscan, if_neg (Nat.not_le.mpr hlt)]
  rfl

theorem stoull_literal_decimal (str : String) (d : Char) (ds : List Char) (v : Nat)
    (hstr : str.toList = d :: ds) (hd0 : d ≠ '0')
    (hv : literal_value 10 0 (d :: ds) = some v) (hlt : v < ADDR_MOD) :
    stoull str = .ok v := by
  obtain ⟨dv, hd⟩ := literal_value_head 10 0 v d ds hv
  have hdec := literal_digit_decimal 10 d dv (Or.inr rfl) hd
  have hdig := literal_digit_is_base_digit 10 d dv hd
  have hsign : scan_sign (str.toList.dropWhile isspace) = (false, d :: ds) := by
    rw [hstr, dropWhile_isspace_digit _ _ hdec, scan_sign_digit _ _ hdec]
  have hbase : scan_base (d :: ds) = (10, d :: ds) := by
    unfold scan_base
    split
    · rename_i e
      injection e with e _
      exact absurd e hd0
    · rename_i e
      injection e with e _
      exact absurd e hd0
    · rfl
  rw [stoull_of_scan str false _ 10 d ds hsign hbase hdig, scan_digits_literal 10 _ 0 v hv,
    if_neg (Nat.not_le.mpr hlt)]
  rfl

/-- A name that is in its entirety a numeric literal within the 64-bit range
is parsed to the value of the literal. -/
theorem stoull_numeric_literal (name : String) (v : Nat)
    (hlit : numeric_literal name = some v) (hlt : v < ADDR_MOD) : stoull name = .ok v := by
  unfold numeric_literal at hlit
  split at hlit
  · rename_i d ds e
    exact stoull_literal_hex name 'x' d ds v (Or.inl rfl) e hlit hlt
  · rename_i d ds e
    exact stoull_literal_hex name 'X' d ds v (Or.inr rfl) e hlit hlt
  · rename_i ds _ _ e
    exact stoull_literal_octal name ds v e hlit hlt
  · rename_i d ds _ _ h0 e
    exact stoull_literal_decimal name d ds v e h0 hlit hlt
  · cases hlit

theorem scan_base_of_digit (c : Char) (t : List Char) (hc : 48 ≤ c.toNat ∧ c.toNat ≤ 57) :
    ∃ base c₁ cs, scan_base (c :: t) = (base, c₁ :: cs) ∧ is_base_digit base c₁ = true := by
  have hc10 : is_base_digit 10 c = true := by
    have h3 : c.toNat - 48 < 10 := by omega
    simp [is_base_digit, digit_value, hc, h3]
  have h08 : is_base_digit 8 '0' = true := by decide
  unfold scan_base
  split
  · rename_i x d t₁ e
    by_cases hx : (x = 'x' ∨ x = 'X') ∧ is_base_digit 16 d = true
    · rw [if_pos hx]
      exact ⟨16, d, t₁, rfl, hx.2⟩
    · rw [if_neg hx]
      exact ⟨8, '0', x :: d :: t₁, rfl, h08⟩
  · rename_i t₁ _ e
    exact ⟨8, '0', t₁, rfl, h08⟩
  · exact ⟨10, c, t, rfl, hc10⟩

theorem scan_base_of_non_digit (c : Char) (t : List Char)
    (hc : ¬ (48 ≤ c.toNat ∧ c.toNat ≤ 57)) :
    scan_base (c :: t) = (10, c :: t) ∧ is_base_digit 10 c = false := by
  have h0 : c ≠ '0' := by
    intro e
    subst e
    exact hc (by decide)
  constructor
  · unfold scan_base
    split
    · rename_i e
      injection e with e _
      exact absurd e h0
    · rename_i e
      injection e with e _
      exact absurd e h0
    · rfl
  · unfold is_base_digit digit_value
    rw [if_neg hc]
    by_cases h1 : 97 ≤ c.toNat ∧ c.toNat ≤ 122
    · rw [if_pos h1]
      simp
    · rw [if_neg h1]
      by_cases h2 : 65 ≤ c.toNat ∧ c.toNat ≤ 90
      · rw [if_pos h2]
        simp
      · rw [if_neg h2]

/-- The parse throws `std::invalid_argument` exactly when the name does not
begin, after white space and an optional sign, with a decimal digit. -/
theorem stoull_invalid_argument_iff (name : String) :
    stoull name = .error .invalid_argument ↔ begins_with_digit name = false := by
  cases hp : scan_sign (name.toList.dropWhile isspace) with
  | mk negative s =>
    cases s with
    | nil =>
      have h1 : stoull name = .error .invalid_argument := by
        unfold stoull
        simp only [hp]
        rfl
      have h2 : begins_with_digit name = false := by
        unfold begins_with_digit
        rw [hp]
      exact ⟨fun _ => h2, fun _ => h1⟩
    | cons c t =>
      by_cases hc : 48 ≤ c.toNat ∧ c.toNat ≤ 57
      · obtain ⟨base, c₁, cs, hbase, hdig⟩ := scan_base_of_digit c t hc
        have h2 : begins_with_digit name = true := by
          unfold begins_with_digit
          rw [hp]
          simp [hc]
        rw [stoull_of_scan name negative _ base c₁ cs hp hbase hdig, h2]
        constructor
        · intro h
          split at h <;> cases h
        · intro h
          cases h
      · obtain ⟨hbase, hdig⟩ := scan_base_of_non_digit c t hc
        have h1 : stoull name = .error .invalid_argument := by
          unfold stoull
          simp only [hp, hbase, hdig]
          rfl
        have h2 : begins_with_digit name = false := by
          unfold begins_with_digit
          rw [hp]
          simp only [decide_eq_false_iff_not]
          exact hc
        exact ⟨fun _ => h2, fun _ => h1⟩

/-! ## The leading literal of a name -/

theorem literal_value_snoc (base : Nat) (ds : List Char) (c : Char) (acc v d : Nat)
    (h : literal_value base acc ds = some v) (hc : literal_digit base c = some d) :
    literal_value base acc (ds ++ [c]) = some (v * base + d) := by
  induction ds generalizing acc with
  | nil =>
    simp only [literal_value] at h
    injection h with h
    subst h
    simp only [List.nil_append, literal_value, hc]
  | cons e es ih =>
    unfold literal_value at h
    cases he : literal_digit base e with
    | none => rw [he] at h; cases h
    | some k =>
      rw [he] at h
      simp only [List.cons_append, literal_value, he]
      exact ih _ h

theorem literal_digit_of_base_digit (base : Nat) (c : Char)
    (hb : base = 8 ∨ base = 10 ∨ base = 16) (h : is_base_digit base c = true) :
    ∃ d, literal_digit base c = some d := by
  unfold is_base_digit digit_value at h
  unfold literal_digit
  by_cases h1 : 48 ≤ c.toNat ∧ c.toNat ≤ 57
  · rw [if_pos h1] at h
    simp only [decide_eq_true_eq] at h
    exact ⟨c.toNat - 48, by rw [if_pos ⟨h1.1, h1.2, h⟩]⟩
  · rw [if_neg h1] at h
    have h1n : ¬ (48 ≤ c.toNat ∧ c.toNat ≤ 57 ∧ c.toNat - 48 < base) := fun e => h1 ⟨e.1, e.2.1⟩
    rw [if_neg h1n]
    by_cases h2 : 97 ≤ c.toNat ∧ c.toNat ≤ 122
    · rw [if_pos h2] at h
      simp only [decide_eq_true_eq] at h
      have : base = 16 ∧ 97 ≤ c.toNat ∧ c.toNat ≤ 102 := by omega
      exact ⟨c.toNat - 87, by rw [if_pos this]⟩
    · rw [if_neg h2] at h
      have h2n : ¬ (base = 16 ∧ 97 ≤ c.toNat ∧ c.toNat ≤ 102) := by omega
      rw [if_neg h2n]
      by_cases h3 : 65 ≤ c.toNat ∧ c.toNat ≤ 90
      · rw [if_pos h3] at h
        simp only [decide_eq_true_eq] at h
        have : base = 16 ∧ 65 ≤ c.toNat ∧ c.toNat ≤ 70 := by omega
        exact ⟨c.toNat - 55, by rw [if_pos this]⟩
      · rw [if_neg h3] at h
        cases h

/-- On a run of digits followed by a character that is no digit of the base,
or by nothing, the scan of `strtoull` computes the value of the run. -/
theorem scan_digits_stop (base : Nat) (ds tail : List Char) (acc v : Nat)
    (h : literal_value base acc ds = some v)
    (htail : ∀ c t, tail = c :: t → is_base_digit base c = false) :
    scan_digits base acc (ds ++ tail) = v := by
  induction ds generalizing acc with
  | nil =>
    simp only [literal_value] at h
    injection h with h
    subst h
    cases tail with
    | nil => rfl
    | cons c t =>
      have hc := htail c t rfl
      unfold is_base_digit at hc
      simp only [List.nil_append]
      unfold scan_digits
      cases hd : digit_value c with
      | none => rfl
      | some d =>
        rw [hd] at hc
        simp only [decide_eq_false_iff_not] at hc
        simp only [if_neg hc]
  | cons e es ih =>
    unfold literal_value at h
    cases he : literal_digit base e with
    | none => rw [he] at h; cases h
    | some k =>
      rw [he] at h
      obtain ⟨h1, h2⟩ := literal_digit_spec base e k he
      simp only [List.cons_append]
      unfold scan_digits
      simp only [h1, h2, if_true]
      exact ih _ h

/-- The parse of a name that starts with a digit, once the base is known. -/
theorem stoull_of_digits (name : String) (c₀ : Char) (s : List Char) (base : Nat) (c : Char)
    (cs : List Char) (v : Nat) (hname : name.toList = c₀ :: s)
    (hc₀ : 48 ≤ c₀.toNat ∧ c₀.toNat ≤ 57)
    (hbase : scan_base (c₀ :: s) = (base, c :: cs)) (hdig : is_base_digit base c = true)
    (hv : scan_digits base 0 (c :: cs) = v) :
    stoull name = if v < ADDR_MOD then .ok v else .error .out_of_range := by
  have hsign : scan_sign (name.toList.dropWhile isspace) = (false, c₀ :: s) := by
    rw [hname, dropWhile_isspace_digit _ _ hc₀, scan_sign_digit _ _ hc₀]
  rw [stoull_of_scan name false _ base c cs hsign hbase hdig, hv]
  by_cases hlt : v < ADDR_MOD
  · rw [if_neg (Nat.not_le.mpr hlt), if_pos hlt]
    rfl
  · rw [if_pos (Nat.not_lt.mp hlt), if_neg hlt]

theorem numeric_literal_mk (l : List Char) :
    numeric_literal (String.mk l) =
      match l with
      | '0' :: 'x' :: d :: ds => literal_value 16 0 (d :: ds)
      | '0' :: 'X' :: d :: ds => literal_value 16 0 (d :: ds)
      | '0' :: ds => literal_value 8 0 ds
      | d :: ds => literal_value 10 0 (d :: ds)
      | [] => none := rfl

theorem literal_value_letter_x (base : Nat) (hb : base = 8 ∨ base = 10) (x : Char)
    (hx : x = 'x' ∨ x = 'X') (acc : Nat) (t : List Char) :
    literal_value base acc (x :: t) = none := by
  have h : literal_digit base x = none := by
    rcases hb with rfl | rfl <;> rcases hx with rfl | rfl <;> decide
  simp only [literal_value, h]

theorem stoull_leading_hex (name : String) (x d : Char) (ds tail : List Char) (v : Nat)
    (hx : x = 'x' ∨ x = 'X') (hname : name.toList = '0' :: x :: d :: (ds ++ tail))
    (hv : literal_value 16 0 (d :: ds) = some v)
    (hstop : ∀ c t, tail = c :: t → is_base_digit 16 c = false) :
    stoull name = if v < ADDR_MOD then .ok v else .error .out_of_range := by
  obtain ⟨dv, hd⟩ := literal_value_head 16 0 v d ds hv
  have hdig := literal_digit_is_base_digit 16 d dv hd
  have hbase : scan_base ('0' :: x :: d :: (ds ++ tail)) = (16, d :: (ds ++ tail)) := by
    simp only [scan_base, hx, hdig, and_self, if_true]
  exact stoull_of_digits name '0' _ 16 d _ v hname (by decide) hbase hdig
    (scan_digits_stop 16 (d :: ds) tail 0 v hv hstop)

theorem stoull_leading_octal (name : String) (ds tail : List Char) (v : Nat)
    (hname : name.toList = '0' :: (ds ++ tail)) (hv : literal_value 8 0 ds = some v)
    (hstop : ∀ c t, tail = c :: t → is_base_digit 8 c = false)
    (hnohex : ds = [] → ∀ x d t, tail = x :: d :: t →
      ¬ ((x = 'x' ∨ x = 'X') ∧ is_base_digit 16 d = true)) :
    stoull name = if v < ADDR_MOD then .ok v else .error .out_of_range := by
  have hbase : scan_base ('0' :: (ds ++ tail)) = (8, '0' :: (ds ++ tail)) := by
    generalize hs : ds ++ tail = s
    unfold scan_base
    split
    · rename_i x d t e
      injection e with _ e
      subst e
      have hcond : ¬ ((x = 'x' ∨ x = 'X') ∧ is_base_digit 16 d = true) := by
        cases ds with
        | nil => exact hnohex rfl x d t hs
        | cons e es =>
          injection hs with he _
          subst he
          intro hc
          rw [literal_value_letter_x 8 (Or.inl rfl) e hc.1 0 es] at hv
          cases hv
      rw [if_neg hcond]
    · rename_i e
      injection e with _ e
      subst e
      rfl
    · rename_i h1 h2
      exact absurd rfl (h2 s)
  have hscan : scan_digits 8 0 ('0' :: (ds ++ tail)) = v := by
    have : scan_digits 8 0 ('0' :: (ds ++ tail)) = scan_digits 8 0 (ds ++ tail) := by
      rw [scan_digits]
      rfl
    rw [this]
    exact scan_digits_stop 8 ds tail 0 v hv hstop
  exact stoull_of_digits name '0' _ 8 '0' _ v hname (by decide) hbase (by decide) hscan

theorem stoull_leading_decimal (name : String) (d : Char) (ds tail : List Char) (v : Nat)
    (hname : name.toList = d :: (ds ++ tail)) (hd0 : d ≠ '0')
    (hv : literal_value 10 0 (d :: ds) = some v)
    (hstop : ∀ c t, tail = c :: t → is_base_digit 10 c = false) :
    stoull name = if v < ADDR_MOD then .ok v else .error .out_of_range := by
  obtain ⟨dv, hd⟩ := literal_value_head 10 0 v d ds hv
  have hdec := literal_digit_decimal 10 d dv (Or.inr rfl) hd
  have hdig := literal_digit_is_base_digit 10 d dv hd
  have hbase : scan_base (d :: (ds ++ tail)) = (10, d :: (ds ++ tail)) := by
    unfold scan_base
    split
    · rename_i e
      injection e with e _
      exact absurd e hd0
    · rename_i e
      injection e with e _
      exact absurd e hd0
    · rfl
  exact stoull_of_digits name d _ 10 d _ v hname hdec hbase hdig
    (scan_digits_stop 10 (d :: ds) tail 0 v hv hstop)

theorem numeric_literal_octal (ds : List Char) (w : Nat) (h : literal_value 8 0 ds = some w) :
    numeric_literal (String.mk ('0' :: ds)) = some w := by
  rw [numeric_literal_mk]
  generalize hl : '0' :: ds = l
  split
  · injection hl with _ hl
    rw [hl, literal_value_letter_x 8 (Or.inl rfl) 'x' (Or.inl rfl)] at h
    cases h
  · injection hl with _ hl
    rw [hl, literal_value_letter_x 8 (Or.inl rfl) 'X' (Or.inr rfl)] at h
    cases h
  · injection hl with _ hl
    rw [← hl]
    exact h
  · rename_i hd0
    injection hl with hl _
    exact absurd hl.symm hd0
  · cases hl

theorem numeric_literal_decimal (d : Char) (ds : List Char) (w : Nat) (hd0 : d ≠ '0')
    (h : literal_value 10 0 (d :: ds) = some w) :
    numeric_literal (String.mk (d :: ds)) = some w := by
  rw [numeric_literal_mk]
  generalize hl : d :: ds = l at h ⊢
  split
  · injection hl with hl _
    exact absurd hl hd0
  · injection hl with hl _
    exact absurd hl hd0
  · injection hl with hl _
    exact absurd hl hd0
  · exact h
  · cases hl

/-- The parse of a name is determined by its longest prefix that is a numeric
literal: it is the value of that literal when it is below `2^64`, and
`std::out_of_range` otherwise. -/
theorem stoull_leading_literal (name : String) (lit : List Char) (v : Nat)
    (h : leading_literal name lit v) :
    stoull name = if v < ADDR_MOD then .ok v else .error .out_of_range := by
  obtain ⟨hpre, hlit, hmax⟩ := h
  obtain ⟨tail, htail⟩ := (List.mem_inits _ _).mp hpre
  have hext : ∀ c t, tail = c :: t → numeric_literal (String.mk (lit ++ [c])) = none := by
    intro c t ht
    apply hmax
    · rw [List.mem_inits, ← htail, ht]
      exact ⟨t, by simp⟩
    · simp
  have hext₂ : ∀ x d t, tail = x :: d :: t →
      numeric_literal (String.mk (lit ++ [x, d])) = none := by
    intro x d t ht
    apply hmax
    · rw [List.mem_inits, ← htail, ht]
      exact ⟨t, by simp⟩
    · simp
  rw [numeric_literal_mk] at hlit
  split at hlit
  · rename_i d ds
    refine stoull_leading_hex name 'x' d ds tail v (Or.inl rfl) htail.symm hlit ?_
    intro c t ht
    by_contra hc
    obtain ⟨dv, hdv⟩ := literal_digit_of_base_digit 16 c (Or.inr (Or.inr rfl))
      (by simpa using hc)
    have h1 := hext c t ht
    have h2 := literal_value_snoc 16 (d :: ds) c 0 v dv hlit hdv
    rw [numeric_literal_mk] at h1
    simp only [List.cons_append] at h1 h2
    rw [h1] at h2
    cases h2
  · rename_i d ds
    refine stoull_leading_hex name 'X' d ds tail v (Or.inr rfl) htail.symm hlit ?_
    intro c t ht
    by_contra hc
    obtain ⟨dv, hdv⟩ := literal_digit_of_base_digit 16 c (Or.inr (Or.inr rfl))
      (by simpa using hc)
    have h1 := hext c t ht
    have h2 := literal_value_snoc 16 (d :: ds) c 0 v dv hlit hdv
    rw [numeric_literal_mk] at h1
    simp only [List.cons_append] at h1 h2
    rw [h1] at h2
    cases h2
  · rename_i ds hnx hnX
    refine stoull_leading_octal name ds tail v htail.symm hlit ?_ ?_
    · intro c t ht
      by_contra hc
      obtain ⟨dv, hdv⟩ := literal_digit_of_base_digit 8 c (Or.inl rfl) (by simpa using hc)
      have h1 := hext c t ht
      have h2 := numeric_literal_octal _ _ (literal_value_snoc 8 ds c 0 v dv hlit hdv)
      rw [List.cons_append, h2] at h1
      cases h1
    · intro hds x d t ht hc
      subst hds
      obtain ⟨dv, hdv⟩ := literal_digit_of_base_digit 16 d (Or.inr (Or.inr rfl)) hc.2
      have h1 := hext₂ x d t ht
      have h2 : literal_value 16 0 [d] = some (0 * 16 + dv) :=
        literal_value_snoc 16 [] d 0 0 dv rfl hdv
      rw [numeric_literal_mk] at h1
      rcases hc.1 with hx | hx
      · subst hx
        simp only [List.cons_append, List.nil_append] at h1
        rw [h1] at h2
        cases h2
      · subst hx
        simp only [List.cons_append, List.nil_append] at h1
        rw [h1] at h2
        cases h2
  · rename_i d ds _ _ hd0
    refine stoull_leading_decimal name d ds tail v htail.symm hd0 hlit ?_
    intro c t ht
    by_contra hc
    obtain ⟨dv, hdv⟩ := literal_digit_of_base_digit 10 c (Or.inr (Or.inl rfl))
      (by simpa using hc)
    have h1 := hext c t ht
    have h2 := numeric_literal_decimal d (ds ++ [c]) _ hd0
      (literal_value_snoc 10 (d :: ds) c 0 v dv hlit hdv)
    rw [List.cons_append, h2] at h1
    cases h1
  · cases hlit

/-- A name whose first character is a decimal digit has a longest prefix that
is a numeric literal. -/
theorem leading_literal_exists (name : String) (c : Char) (cs : List Char)
    (hname : name.toList = c :: cs) (hc : 48 ≤ c.toNat ∧ c.toNat ≤ 57) :
    ∃ lit v, leading_literal name lit v := by
  have hone : ∃ w, numeric_literal (String.mk [c]) = some w := by
    by_cases h0 : c = '0'
    · subst h0
      exact ⟨0, numeric_literal_octal [] 0 rfl⟩
    · refine ⟨c.toNat - 48, numeric_literal_decimal c [] _ h0 ?_⟩
      have hd : literal_digit 10 c = some (c.toNat - 48) := by
        unfold literal_digit
        rw [if_pos ⟨hc.1, hc.2, by omega⟩]
      simp only [literal_value, hd, Nat.zero_mul, Nat.zero_add]
  obtain ⟨w, hw⟩ := hone
  have hmem : [c] ∈ (name.toList.inits.filter
      fun p => (numeric_literal (String.mk p)).isSome).toFinset := by
    rw [List.mem_toFinset, List.mem_filter, List.mem_inits, hname]
    exact ⟨⟨cs, rfl⟩, by rw [hw]; rfl⟩
  obtain ⟨lit, hlit, hmax⟩ := Finset.exists_max_image _ List.length ⟨[c], hmem⟩
  rw [List.mem_toFinset, List.mem_filter] at hlit
  obtain ⟨v, hv⟩ := Option.isSome_iff_exists.mp hlit.2
  refine ⟨lit, v, hlit.1, hv, ?_⟩
  intro p hp hlen
  cases hnum : numeric_literal (String.mk p) with
  | none => rfl
  | some u =>
    have hp₁ : p ∈ (name.toList.inits.filter
        fun p => (numeric_literal (String.mk p)).isSome).toFinset := by
      rw [List.mem_toFinset, List.mem_filter]
      exact ⟨hp, by rw [hnum]; rfl⟩
    have := hmax p hp₁
    omega

/-! ## Properties of `region_name_to_address` -/

/-- C8: when the name equals the type of at least one region, the lookup
returns the start address of the first such region in snapshot order,
whatever the name would have parsed to as a number. -/
theorem region_name_to_address_first_match (regions : List memory_region_t) (name : String)
    (h : ∃ r ∈ regions, r.region_type = name) :
    ∃ pre r post, regions = pre ++ r :: post ∧ (∀ x ∈ pre, x.region_type ≠ name) ∧
      r.region_type = name ∧ region_name_to_address regions name = .ok r.start_address := by
  induction regions with
  | nil =>
    obtain ⟨r, hr, _⟩ := h
    cases hr
  | cons it tl ih =>
    by_cases hit : name = it.region_type
    · refine ⟨[], it, tl, rfl, fun x hx => absurd hx (List.not_mem_nil x), hit.symm, ?_⟩
      rw [region_name_to_address, if_pos hit]
    · obtain ⟨r, hr, hrn⟩ := h
      have hr₁ : r ∈ tl := by
        rcases List.mem_cons.mp hr with e | e
        · subst e
          exact absurd hrn.symm hit
        · exact e
      obtain ⟨pre, r₁, post, hsplit, hpre, hr₁n, hres⟩ := ih ⟨r, hr₁, hrn⟩
      refine ⟨it :: pre, r₁, post, by rw [hsplit]; rfl, ?_, hr₁n, ?_⟩
      · intro x hx
        rcases List.mem_cons.mp hx with e | e
        · subst e
          exact fun e₁ => hit e₁.symm
        · exact hpre x e
      · rw [region_name_to_address, if_neg hit]
        exact hres

/-- Witness of C8: in the demo snapshot `"stack"` resolves to the start of the
stack region, `0x7000`. -/
theorem region_name_to_address_first_match_witness :
    ∃ pre r post, demo_snapshot = pre ++ r :: post ∧
      (∀ x ∈ pre, x.region_type ≠ "stack") ∧ r.region_type = "stack" ∧
      region_name_to_address demo_snapshot "stack" = .ok r.start_address :=
  region_name_to_address_first_match demo_snapshot "stack" (by decide)

/-- C9: a name that equals no region type and is a numeric literal within the
64-bit range (hexadecimal with prefix `0x`/`0X`, octal with prefix `0`,
decimal otherwise) is looked up to the value of the literal. -/
theorem region_name_to_address_numeric (regions : List memory_region_t) (name : String)
    (v : Nat) (hno : ∀ r ∈ regions, r.region_type ≠ name)
    (hlit : numeric_literal name = some v) (hlt : v < ADDR_MOD) :
    region_name_to_address regions name = .ok v := by
  rw [region_name_to_address_no_match regions name hno]
  exact stoull_numeric_literal name v hlit hlt

/-- Witness of C9: `"0x10"`, `"010"` and `"10"` are looked up to 16, 8 and 10. -/
theorem region_name_to_address_numeric_witness :
    region_name_to_address demo_snapshot "0x10" = .ok 16 ∧
    region_name_to_address demo_snapshot "010" = .ok 8 ∧
    region_name_to_address demo_snapshot "10" = .ok 10 :=
  ⟨region_name_to_address_numeric demo_snapshot "0x10" 16 (by decide) (by decide) (by decide),
   region_name_to_address_numeric demo_snapshot "010" 8 (by decide) (by decide) (by decide),
   region_name_to_address_numeric demo_snapshot "10" 10 (by decide) (by decide) (by decide)⟩

/-- C10 (as amended): for a name that equals no region type, the lookup throws
`std::invalid_argument` (and returns no value) exactly when the name does not
begin, after white space and an optional sign, with a decimal digit; a name
that begins with a digit is never rejected in this way, even when other
characters follow the digits.  A name whose first character is a digit has a
longest prefix that is a numeric literal, and the lookup returns the value of
that literal when it is below `2^64` and throws `std::out_of_range`
otherwise. -/
theorem region_name_to_address_rejects (regions : List memory_region_t) (name : String)
    (hno : ∀ r ∈ regions, r.region_type ≠ name) :
    (begins_with_digit name = false →
      region_name_to_address regions name = .error .invalid_argument) ∧
    (begins_with_digit name = true →
      region_name_to_address regions name ≠ .error .invalid_argument) ∧
    (∀ (c : Char) (cs : List Char), name.toList = c :: cs → 48 ≤ c.toNat ∧ c.toNat ≤ 57 →
      ∃ lit v, leading_literal name lit v) ∧
    (∀ (lit : List Char) (v : Nat), leading_literal name lit v →
      region_name_to_address regions name =
        if v < ADDR_MOD then .ok v else .error .out_of_range) := by
  rw [region_name_to_address_no_match regions name hno]
  have h := stoull_invalid_argument_iff name
  refine ⟨h.mpr, ?_, leading_literal_exists name, stoull_leading_literal name⟩
  intro hb he
  rw [h.mp he] at hb
  cases hb

/-- Witness of C10 as amended: `"xyz"` names no region of the demo snapshot
and does not begin with a digit, so the lookup throws; `"12abc"` has the
leading literal `12` and is looked up to 12; the leading literal of
`"99999999999999999999abc"` is not below `2^64` and the lookup throws
`std::out_of_range`. -/
theorem region_name_to_address_rejects_witness :
    region_name_to_address demo_snapshot "xyz" = .error .invalid_argument ∧
    region_name_to_address demo_snapshot "12abc" = .ok 12 ∧
    region_name_to_address demo_snapshot "99999999999999999999abc" = .error .out_of_range :=
  ⟨(region_name_to_address_rejects demo_snapshot "xyz" (by decide)).1 (by decide),
   ((region_name_to_address_rejects demo_snapshot "12abc" (by decide)).2.2.2
      "12".toList 12 (by decide)).trans (by decide),
   ((region_name_to_address_rejects demo_snapshot "99999999999999999999abc"
      (by decide)).2.2.2 "99999999999999999999".toList 99999999999999999999
      (by decide)).trans (by decide)⟩

/-- Counterexample to C10 as stated: `"12abc"`, `"0x"` and `"0zz"` equal no
region type and are not numeric literals, yet the lookup returns 12, 0 and 0. -/
theorem region_name_to_address_rejects_counterexample :
    (∀ r ∈ demo_snapshot, r.region_type ≠ "12abc") ∧ numeric_literal "12abc" = none ∧
    region_name_to_address demo_snapshot "12abc" = .ok 12 ∧
    (∀ r ∈ demo_snapshot, r.region_type ≠ "0x") ∧ numeric_literal "0x" = none ∧
    region_name_to_address demo_snapshot "0x" = .ok 0 ∧
    (∀ r ∈ demo_snapshot, r.region_type ≠ "0zz") ∧ numeric_literal "0zz" = none ∧
    region_name_to_address demo_snapshot "0zz" = .ok 0 := by
  decide

/-! ## Coverage of `dump_memory` -/

set_option maxRecDepth 100000 in
/-- A byte is written as exactly two hexadecimal digits. -/
theorem hex2_byte (b : Nat) (hb : b < 256) :
    hex2 b = String.mk [Nat.digitChar (b / 16), Nat.digitChar (b % 16)] := by
  revert b
  decide

/-- Away from the wrap-around of the row count: for `size ≥ 1`, with
`address + size` and `size + address % 16 + 15` inside the 64-bit range, the
dump has `⌈(size + offset) / 16⌉` rows; every byte of the window is written as
two hexadecimal digits in row `(a - base) / 16`, column `a % 16`, and in no
other cell; and the first row is `offset` blank columns followed by the first
`min size (16 - offset)` bytes of the window. -/
theorem dump_memory_coverage (mem : Nat → Nat) (address size : Nat) (hn : 1 ≤ size)
    (hsum : address + size < ADDR_MOD) (hrows : size + address % 16 + 15 < ADDR_MOD) :
    (dump_memory mem address size).length = (size + address % 16 + 15) / 16 ∧
    (∀ a, address ≤ a → a < address + size →
      ∃ row, (dump_memory mem address size)[(a - (address - address % 16)) / 16]? = some row ∧
        row.hex[a % 16]? = some (hex2 (mem a % 256) ++ " ") ∧
        hex2 (mem a % 256) =
          String.mk [Nat.digitChar (mem a % 256 / 16), Nat.digitChar (mem a % 256 % 16)] ∧
        ∀ (k i : Nat) (row₁ : dump_row), (dump_memory mem address size)[k]? = some row₁ →
          i < 16 → row₁.row_address + i = a →
          k = (a - (address - address % 16)) / 16 ∧ i = a % 16) ∧
    (∃ row, (dump_memory mem address size)[0]? = some row ∧
      ∀ i, i < 16 → row.hex[i]? = some
        (if address % 16 ≤ i ∧ i < address % 16 + min size (16 - address % 16) then
          hex2 (mem (address + (i - address % 16)) % 256) ++ " "
        else "   ")) := by
  have ha : address < ADDR_MOD := by omega
  have hlen : dump_rows address size = (size + address % 16 + 15) / 16 := by
    rw [dump_rows_eq address size ha, Nat.mod_eq_of_lt hrows]
  have hendeq : (address + size) % ADDR_MOD = address + size := Nat.mod_eq_of_lt hsum
  have hrowaddr : ∀ (k : Nat) (row : dump_row),
      (dump_memory mem address size)[k]? = some row →
      row.row_address = address - address % 16 + 16 * k := by
    intro k row h
    have hk := dump_memory_getElem?_lt mem address size k row h
    obtain ⟨_, hra, _, _⟩ := dump_memory_row_spec mem address size k row ha h
    exact hra.trans ((dump_row_address address size k ha hk).2.2 (le_of_lt hsum))
  refine ⟨by rw [dump_memory_length, hlen], ?_, ?_⟩
  · intro a hlo hhi
    have hk : (a - (address - address % 16)) / 16 < dump_rows address size := by
      rw [hlen]
      omega
    have hget := dump_memory_getElem? mem address size _ hk
    refine ⟨_, hget, ?_, hex2_byte _ (Nat.mod_lt _ (by decide)), ?_⟩
    · have hi : a % 16 < 16 := Nat.mod_lt _ (by decide)
      obtain ⟨_, _, _, hcol⟩ := dump_memory_row_spec mem address size _ _ ha hget
      have hra := hrowaddr _ _ hget
      rw [dump_memory_row_address] at hra hcol
      have hu : (address_base address + (a - (address - address % 16)) / 16 * 16) % ADDR_MOD
          + a % 16 = a := by
        rw [hra]
        omega
      rw [dump_memory_row_hex _ _ _ _ _ hi, hcol _ hi, hu, hendeq]
      unfold hex_column
      rw [if_pos ⟨hlo, hhi⟩]
    · intro k i row₁ h₁ hi hai
      have := hrowaddr k row₁ h₁
      omega
  · have hk : 0 < dump_rows address size := by
      rw [hlen]
      omega
    have hget := dump_memory_getElem? mem address size 0 hk
    refine ⟨_, hget, ?_⟩
    intro i hi
    obtain ⟨_, _, _, hcol⟩ := dump_memory_row_spec mem address size _ _ ha hget
    have hra := hrowaddr _ _ hget
    rw [dump_memory_row_address] at hra hcol
    rw [dump_memory_row_hex _ _ _ _ _ hi, hcol _ hi, hra, hendeq]
    unfold hex_column
    by_cases hw : address % 16 ≤ i ∧ i < address % 16 + min size (16 - address % 16)
    · have hw₁ : address ≤ address - address % 16 + 16 * 0 + i ∧
          address - address % 16 + 16 * 0 + i < address + size := by omega
      have hu : address - address % 16 + 16 * 0 + i = address + (i - address % 16) := by omega
      rw [if_pos hw₁, if_pos hw, hu]
    · have hw₁ : ¬ (address ≤ address - address % 16 + 16 * 0 + i ∧
          address - address % 16 + 16 * 0 + i < address + size) := by omega
      rw [if_neg hw₁, if_neg hw]

/-- The scenario of 20 bytes `00 .. 13` at offset 4: two rows, the first
showing four blank columns and then `00 .. 0b`. -/
theorem dump_memory_coverage_witness :
    (dump_memory (counting_memory 0x1004) 0x1004 20).length = 2 ∧
    dump_text (counting_memory 0x1004) 0x1004 20 =
      "1000              00 01 02 03 04 05 06 07 08 09 0a 0b   |    ............|\n" ++
      "1010  0c 0d 0e 0f 10 11 12 13                           |........        |\n\n" :=
  ⟨(dump_memory_coverage (counting_memory 0x1004) 0x1004 20 (by decide) (by decide)
      (by decide)).1.trans (by decide), by decide⟩

/-- C5 at the failing input: a dump of `2^64 - 1` bytes from address 0 does
not overflow `start + length`, and the claim asks for `2^60` rows, but
`size + offset + 15` wraps to 14 and the dump has no row. -/
theorem dump_memory_rows_wrap :
    0 + (2 ^ 64 - 1) < ADDR_MOD ∧
    (2 ^ 64 - 1 + 0 % 16 + 15) / 16 = 2 ^ 60 ∧
    dump_rows 0 (2 ^ 64 - 1) = 0 ∧
    dump_memory (counting_memory 0) 0 (2 ^ 64 - 1) = [] := by
  decide

/-! ## Requests that wrap around the address space -/

/-- When the end of the window is not above its start, every column of a row
is blank and nothing is read. -/
theorem dump_memory_row_no_window (mem : Nat → Nat) (address end_address row_address : Nat)
    (h : end_address ≤ address) :
    dump_memory_row mem address end_address row_address = blank_row row_address := by
  have hh : ∀ u, hex_column mem address end_address u = ("   ", []) := by
    intro u
    unfold hex_column
    rw [if_neg (by omega)]
  have ha : ∀ u, ascii_column mem address end_address u = (' ', []) := by
    intro u
    unfold ascii_column
    rw [if_neg (by omega)]
  simp only [dump_memory_row, hh, ha, blank_row]
  rfl

/-- C11 (as amended): a dump whose `start + length` wraps modulo `2^64` is not
rejected; it consists of `dump_rows` rows, that is
`((size + offset + 15) mod 2^64) / 16`, and in each of them every hex column
and every ASCII column is blank and no byte is read. -/
theorem dump_memory_overflow (mem : Nat → Nat) (address size : Nat)
    (ha : address < ADDR_MOD) (hs : size < ADDR_MOD) (hov : ADDR_MOD ≤ address + size) :
    (dump_memory mem address size).length = dump_rows address size ∧
    ∀ row ∈ dump_memory mem address size, row = blank_row row.row_address := by
  refine ⟨dump_memory_length mem address size, ?_⟩
  intro row hrow
  have hend : (address + size) % ADDR_MOD ≤ address := by
    rw [ADDR_MOD_eq] at *
    omega
  unfold dump_memory at hrow
  simp only [List.mem_map] at hrow
  obtain ⟨k, _, rfl⟩ := hrow
  rw [dump_memory_row_no_window mem address _ _ hend]
  rfl

/-- Witness of C11 as amended: the dump of 32 bytes at `2^64 - 16` has two
rows, both blank. -/
theorem dump_memory_overflow_witness :
    (dump_memory (counting_memory 0) 0xfffffffffffffff0 32).length = 2 ∧
    ∀ row ∈ dump_memory (counting_memory 0) 0xfffffffffffffff0 32,
      row = blank_row row.row_address :=
  have h := dump_memory_overflow (counting_memory 0) 0xfffffffffffffff0 32
    (by decide) (by decide) (by decide)
  ⟨h.1.trans (by decide), h.2⟩

/-- Counterexample to C11 as stated: `memlens dump 0xfffffffffffffff0 32` asks
for a window that wraps around `2^64`; no exception reaches `main`, and two
blank rows are dumped. -/
theorem dump_memory_overflow_counterexample :
    ADDR_MOD ≤ 0xfffffffffffffff0 + 32 ∧
    region_name_to_address demo_snapshot "0xfffffffffffffff0" = .ok 0xfffffffffffffff0 ∧
    main_dump (counting_memory 0) 0xfffffffffffffff0 ["0xfffffffffffffff0", "32"] =
      .ok [blank_row 0xfffffffffffffff0, blank_row 0] := by
  decide

/-! ## Snapshot refresh -/

/-- C12: after a refresh the collection is what the enumerator produces when
started from an empty collection, whatever the collection held before. -/
theorem update_memory_layout_replaces
    (load_memory_layout : List memory_region_t → List memory_region_t)
    (prior other : List memory_region_t) :
    update_memory_layout load_memory_layout prior = load_memory_layout [] ∧
    update_memory_layout load_memory_layout prior =
      update_memory_layout load_memory_layout other :=
  ⟨rfl, rfl⟩

/-! ## Linux enumerator: classification of a line -/

theorem maps_region_type_detail (f : maps_fields) :
    (maps_region f).region_type =
      (maps_classify f.detail f.file_offset (maps_region f).permissions).1 ∧
    (maps_region f).region_detail =
      (maps_classify f.detail f.file_offset (maps_region f).permissions).2 :=
  ⟨rfl, rfl⟩

theorem maps_classify_path (detail : String) (rest : List Char) (file_offset permissions : Nat)
    (hpath : detail.toList = '/' :: rest) :
    maps_classify detail file_offset permissions =
      if file_offset = 0 then
        if has_substring "/memlens".toList detail.toList then ("loader", detail)
        else ("-", detail ++ " (loader)")
      else if permissions &&& PERM_EXEC ≠ 0 then
        if has_substring "/memlens".toList detail.toList then ("code", detail)
        else ("-", detail ++ " (code)")
      else if permissions &&& PERM_WRIT ≠ 0 then
        if has_substring "/memlens".toList detail.toList then ("data", detail)
        else ("-", detail ++ " (data)")
      else if permissions &&& PERM_READ ≠ 0 then
        if has_substring "/memlens".toList detail.toList then ("const", detail)
        else ("-", detail ++ " (const)")
      else ("-", detail) := by
  unfold maps_classify
  split
  · rfl
  · rename_i h
    rw [hpath] at h
    cases h
  · rename_i h _
    exact absurd hpath (h rest)

/-- Classification of the values extracted from a line whose `detail` token
starts with `/` and contains `/memlens`: the region type is `loader` when the
file offset is 0, otherwise `code` when the execute bit is set, otherwise
`data` when the write bit is set, otherwise `const` when the read bit is set,
and the region detail is the token unchanged. -/
theorem maps_self_image_fields (f : maps_fields) (rest : List Char)
    (hpath : f.detail.toList = '/' :: rest)
    (hself : has_substring "/memlens".toList f.detail.toList = true) :
    (maps_region f).region_detail = f.detail ∧
    (f.file_offset = 0 → (maps_region f).region_type = "loader") ∧
    (f.file_offset ≠ 0 → (maps_region f).permissions &&& PERM_EXEC ≠ 0 →
      (maps_region f).region_type = "code") ∧
    (f.file_offset ≠ 0 → (maps_region f).permissions &&& PERM_EXEC = 0 →
      (maps_region f).permissions &&& PERM_WRIT ≠ 0 →
      (maps_region f).region_type = "data") ∧
    (f.file_offset ≠ 0 → (maps_region f).permissions &&& PERM_EXEC = 0 →
      (maps_region f).permissions &&& PERM_WRIT = 0 →
      (maps_region f).permissions &&& PERM_READ ≠ 0 →
      (maps_region f).region_type = "const") := by
  obtain ⟨ht, hd⟩ := maps_region_type_detail f
  rw [ht, hd, maps_classify_path f.detail rest _ _ hpath, hself]
  simp only [↓reduceIte]
  refine ⟨?_, ?_, ?_, ?_, ?_⟩
  · split_ifs <;> rfl
  · intro h0
    rw [if_pos h0]
  · intro h0 hx
    rw [if_neg h0, if_pos hx]
  · intro h0 hx hw
    rw [if_neg h0, if_neg (not_not.mpr hx), if_pos hw]
  · intro h0 hx hw hr
    rw [if_neg h0, if_neg (not_not.mpr hx), if_neg (not_not.mpr hw), if_pos hr]

/-- Classification of the values extracted from a line whose `detail` token
starts with `/` and does not contain `/memlens`: the region type is `-`, and
the region detail is the token followed by ` (loader)` when the file offset is
0, else by ` (code)` when the execute bit is set, else by ` (data)` when the
write bit is set, else by ` (const)` when the read bit is set; when the file
offset is not 0 and no permission bit is set, the detail is the token without
annotation. -/
theorem maps_foreign_image_fields (f : maps_fields) (rest : List Char)
    (hpath : f.detail.toList = '/' :: rest)
    (hforeign : has_substring "/memlens".toList f.detail.toList = false) :
    (maps_region f).region_type = "-" ∧
    (f.file_offset = 0 → (maps_region f).region_detail = f.detail ++ " (loader)") ∧
    (f.file_offset ≠ 0 → (maps_region f).permissions &&& PERM_EXEC ≠ 0 →
      (maps_region f).region_detail = f.detail ++ " (code)") ∧
    (f.file_offset ≠ 0 → (maps_region f).permissions &&& PERM_EXEC = 0 →
      (maps_region f).permissions &&& PERM_WRIT ≠ 0 →
      (maps_region f).region_detail = f.detail ++ " (data)") ∧
    (f.file_offset ≠ 0 → (maps_region f).permissions &&& PERM_EXEC = 0 →
      (maps_region f).permissions &&& PERM_WRIT = 0 →
      (maps_region f).permissions &&& PERM_READ ≠ 0 →
      (maps_region f).region_detail = f.detail ++ " (const)") ∧
    (f.file_offset ≠ 0 → (maps_region f).permissions &&& PERM_EXEC = 0 →
      (maps_region f).permissions &&& PERM_WRIT = 0 →
      (maps_region f).permissions &&& PERM_READ = 0 →
      (maps_region f).region_detail = f.detail) := by
  obtain ⟨ht, hd⟩ := maps_region_type_detail f
  rw [ht, hd, maps_classify_path f.detail rest _ _ hpath, hforeign]
  simp only [Bool.false_eq_true, ↓reduceIte]
  refine ⟨?_, ?_, ?_, ?_, ?_, ?_⟩
  · split_ifs <;> rfl
  · intro h0
    rw [if_pos h0]
  · intro h0 hx
    rw [if_neg h0, if_pos hx]
  · intro h0 hx hw
    rw [if_neg h0, if_neg (not_not.mpr hx), if_pos hw]
  · intro h0 hx hw hr
    rw [if_neg h0, if_neg (not_not.mpr hx), if_neg (not_not.mpr hw), if_pos hr]
  · intro h0 hx hw hr
    rw [if_neg h0, if_neg (not_not.mpr hx), if_neg (not_not.mpr hw), if_neg (not_not.mpr hr)]

theorem strip_brackets_bracketed (name : String) (hlen : ("[" ++ name ++ "]").length < ADDR_MOD) :
    strip_brackets ("[" ++ name ++ "]") = name := by
  have hl : ("[" ++ name ++ "]").length = name.length + 2 := by
    simp only [String.length_append]
    change 1 + name.length + 1 = name.length + 2
    omega
  have hdata : ("[" ++ name ++ "]").toList = '[' :: (name.toList ++ [']']) := by
    simp [String.toList, String.data_append]
  unfold strip_brackets
  rw [hl] at hlen
  rw [hl, hdata]
  have hn : (name.length + 2 + ADDR_MOD - 2) % ADDR_MOD = name.toList.length := by
    have : name.length + 2 + ADDR_MOD - 2 = name.length + ADDR_MOD := by omega
    rw [this, Nat.add_mod_right, Nat.mod_eq_of_lt (by omega)]
    rfl
  rw [hn, List.drop_one, List.tail_cons, List.take_left]
  rfl

/-- Classification of the values extracted from a line whose `detail` token
is `[name]`: the region type is `name` and the region detail is `-`. -/
theorem maps_pseudo_name_fields (f : maps_fields) (name : String)
    (hname : f.detail = "[" ++ name ++ "]") (hlen : f.detail.length < ADDR_MOD) :
    (maps_region f).region_type = name ∧ (maps_region f).region_detail = "-" := by
  obtain ⟨ht, hd⟩ := maps_region_type_detail f
  have hdata : f.detail.toList = '[' :: (name.toList ++ [']']) := by
    rw [hname]
    simp [String.toList, String.data_append]
  have hcls : maps_classify f.detail f.file_offset (maps_region f).permissions
      = (strip_brackets f.detail, "-") := by
    unfold maps_classify
    split
    · rename_i h
      rw [hdata] at h
      cases h
    · rfl
    · rename_i _ h
      exact absurd hdata (h _)
  rw [ht, hd, hcls]
  rw [hname] at hlen
  exact ⟨by rw [hname]; exact strip_brackets_bracketed name hlen, rfl⟩

/-! ## Linux enumerator: the name field of a line -/

theorem skip_field_of_blank (b : List Char) (h : b.dropWhile isspace = []) :
    skip_field b = [] := by
  unfold skip_field
  rw [h]
  rfl

theorem extract_token_good (b : List Char) (h : b.dropWhile isspace ≠ []) :
    extract_token { buf := b, failed := false } =
      ({ buf := skip_field b, failed := false },
       some (String.mk ((b.dropWhile isspace).takeWhile fun x => !isspace x))) := by
  unfold extract_token skip_field
  simp only [Bool.false_eq_true, ↓reduceIte]
  cases hb : b.dropWhile isspace with
  | nil => exact absurd hb h
  | cons c cs => rfl

theorem extract_token_eof (b : List Char) (h : b.dropWhile isspace = []) :
    extract_token { buf := b, failed := false } = ({ buf := [], failed := true }, none) := by
  unfold extract_token
  simp only [Bool.false_eq_true, ↓reduceIte, h]

theorem extract_token_failed (b : List Char) :
    extract_token { buf := b, failed := true } = ({ buf := b, failed := true }, none) := by
  unfold extract_token
  simp only [↓reduceIte]

theorem parse_maps_line_detail (hex_get : List Char → Nat × List Char × Bool)
    (indet : indeterminate) (line : String) :
    (parse_maps_line hex_get indet line).detail =
      ((extract_token (extract_token (extract_token
        (maps_stream_at_device hex_get line)).1).1).2).getD "" := rfl

/-- On a line whose numeric fields are read as fields, the token stored by
`iss >> detail` is the name field of the line up to its first white space. -/
theorem parse_maps_line_pathname (hex_get : List Char → Nat × List Char × Bool)
    (indet : indeterminate) (line : String) (hfields : maps_numbers_read hex_get line) :
    (parse_maps_line hex_get indet line).detail = first_word (maps_pathname line) := by
  unfold maps_numbers_read at hfields
  rw [parse_maps_line_detail, hfields]
  unfold maps_pathname first_word
  generalize skip_field (skip_field (skip_field line.toList)) = b3
  by_cases h1 : b3.dropWhile isspace = []
  · rw [extract_token_eof b3 h1, extract_token_failed, extract_token_failed,
      skip_field_of_blank b3 h1]
    rfl
  · rw [extract_token_good b3 h1]
    by_cases h2 : (skip_field b3).dropWhile isspace = []
    · rw [extract_token_eof _ h2, extract_token_failed, skip_field_of_blank _ h2]
      rfl
    · rw [extract_token_good _ h2]
      by_cases h3 : (skip_field (skip_field b3)).dropWhile isspace = []
      · rw [extract_token_eof _ h3, h3]
        rfl
      · rw [extract_token_good _ h3]
        rfl

theorem first_word_cons (name : String) (c : Char) (rest : List Char)
    (h : name.toList = c :: rest) (hc : isspace c = false) :
    (first_word name).toList = c :: rest.takeWhile fun x => !isspace x := by
  unfold first_word
  rw [h, List.takeWhile_cons, hc]
  rfl

theorem first_word_of_no_blank (name : String) (h : ∀ c ∈ name.toList, isspace c = false) :
    first_word name = name := by
  unfold first_word
  have : (name.toList.takeWhile fun x => !isspace x) = name.toList := by
    rw [List.takeWhile_eq_self_iff]
    intro c hc
    rw [h c hc]
    rfl
  rw [this]
  rfl

theorem maps_classify_bracket (detail : String) (rest : List Char) (file_offset permissions : Nat)
    (h : detail.toList = '[' :: rest) :
    maps_classify detail file_offset permissions = (strip_brackets detail, "-") := by
  unfold maps_classify
  split
  · rename_i h1
    rw [h] at h1
    cases h1
  · rfl
  · rename_i _ h2
    exact absurd h (h2 rest)

theorem mach_step_fields (read_u32 : Nat → Nat) (getsegmentdata : Nat → String → Nat)
    (page_size indet_pages : Nat) (seg : image_segments) (q : mach_region) :
    (mach_step read_u32 getsegmentdata page_size indet_pages seg q).segments
      = (mach_classify read_u32 getsegmentdata seg q).1 ∧
    (mach_step read_u32 getsegmentdata page_size indet_pages seg q).region.region_type
      = (mach_classify read_u32 getsegmentdata seg q).2.1 ∧
    (mach_step read_u32 getsegmentdata page_size indet_pages seg q).region.region_detail
      = (mach_classify read_u32 getsegmentdata seg q).2.2.1 ∧
    (mach_step read_u32 getsegmentdata page_size indet_pages seg q).probed
      = (mach_classify read_u32 getsegmentdata seg q).2.2.2 :=
  ⟨rfl, rfl, rfl, rfl⟩

/-- The switch on a listed vendor tag. -/
theorem mach_classify_listed (read_u32 : Nat → Nat) (getsegmentdata : Nat → String → Nat)
    (seg : image_segments) (q : mach_region) (t d : String)
    (h : vendor_tag_class (mach_user_tag q) (q.protection = VM_PROT_NONE) = some (t, d)) :
    mach_classify read_u32 getsegmentdata seg q = (seg, t, d, []) := by
  unfold vendor_tag_class at h
  unfold mach_classify
  generalize mach_user_tag q = tag at h ⊢
  simp only [vendor_tag_table, List.lookup, VM_MEMORY_MALLOC, VM_MEMORY_STACK,
    VM_MEMORY_MALLOC_SMALL, VM_MEMORY_MALLOC_LARGE, VM_MEMORY_MALLOC_LARGE_REUSED,
    VM_MEMORY_MALLOC_LARGE_REUSABLE, VM_MEMORY_MALLOC_HUGE, VM_MEMORY_MALLOC_TINY,
    VM_MEMORY_MALLOC_MEDIUM, VM_MEMORY_MALLOC_NANO, VM_MEMORY_REALLOC, VM_MEMORY_SBRK,
    VM_MEMORY_OS_ALLOC_ONCE, VM_MEMORY_DYLD, VM_MEMORY_DYLD_MALLOC] at h ⊢
  by_cases h1 : tag = 1
  · subst h1
    by_cases hp : q.protection = VM_PROT_NONE
    · simp [hp] at h
      obtain ⟨rfl, rfl⟩ := h
      simp [hp]
    · simp [hp] at h
      obtain ⟨rfl, rfl⟩ := h
      simp [hp]
  by_cases h30 : tag = 30
  · subst h30
    by_cases hp : q.protection = VM_PROT_NONE
    · simp [hp] at h
      obtain ⟨rfl, rfl⟩ := h
      simp [hp]
    · simp [hp] at h
      obtain ⟨rfl, rfl⟩ := h
      simp [hp]
  rw [if_neg h1, if_neg h30] at h
  rw [if_neg h1, if_neg h30]
  by_cases h2 : tag = 2
  · subst h2
    simp at h
    obtain ⟨rfl, rfl⟩ := h
    simp
  by_cases h3 : tag = 3
  · subst h3
    simp at h
    obtain ⟨rfl, rfl⟩ := h
    simp
  by_cases h9 : tag = 9
  · subst h9
    simp at h
    obtain ⟨rfl, rfl⟩ := h
    simp
  by_cases h8 : tag = 8
  · subst h8
    simp at h
    obtain ⟨rfl, rfl⟩ := h
    simp
  by_cases h4 : tag = 4
  · subst h4
    simp at h
    obtain ⟨rfl, rfl⟩ := h
    simp
  by_cases h7 : tag = 7
  · subst h7
    simp at h
    obtain ⟨rfl, rfl⟩ := h
    simp
  by_cases h12 : tag = 12
  · subst h12
    simp at h
    obtain ⟨rfl, rfl⟩ := h
    simp
  by_cases h11 : tag = 11
  · subst h11
    simp at h
    obtain ⟨rfl, rfl⟩ := h
    simp
  by_cases h6 : tag = 6
  · subst h6
    simp at h
    obtain ⟨rfl, rfl⟩ := h
    simp
  by_cases h5 : tag = 5
  · subst h5
    simp at h
    obtain ⟨rfl, rfl⟩ := h
    simp
  by_cases h73 : tag = 73
  · subst h73
    simp at h
    obtain ⟨rfl, rfl⟩ := h
    simp
  by_cases h60 : tag = 60
  · subst h60
    simp at h
    obtain ⟨rfl, rfl⟩ := h
    simp
  by_cases h61 : tag = 61
  · subst h61
    simp at h
    obtain ⟨rfl, rfl⟩ := h
    simp
  exfalso
  have e : ∀ k : Nat, ¬ tag = k → (tag == k) = false := fun k hk => by simp [hk]
  simp [e _ h2, e _ h3, e _ h9, e _ h8, e _ h4, e _ h7, e _ h12, e _ h11, e _ h6, e _ h5,
    e _ h73, e _ h60, e _ h61] at h

/-- The switch on a vendor tag that is not listed goes to `default:`. -/
theorem mach_classify_unlisted (read_u32 : Nat → Nat) (getsegmentdata : Nat → String → Nat)
    (seg : image_segments) (q : mach_region) (h : mach_unlisted q = true) :
    mach_classify read_u32 getsegmentdata seg q
      = mach_default_case read_u32 getsegmentdata seg q := by
  unfold mach_unlisted vendor_tag_class at h
  unfold mach_classify
  generalize mach_user_tag q = tag at h ⊢
  simp only [vendor_tag_table, List.lookup, VM_MEMORY_MALLOC, VM_MEMORY_STACK,
    VM_MEMORY_MALLOC_SMALL, VM_MEMORY_MALLOC_LARGE, VM_MEMORY_MALLOC_LARGE_REUSED,
    VM_MEMORY_MALLOC_LARGE_REUSABLE, VM_MEMORY_MALLOC_HUGE, VM_MEMORY_MALLOC_TINY,
    VM_MEMORY_MALLOC_MEDIUM, VM_MEMORY_MALLOC_NANO, VM_MEMORY_REALLOC, VM_MEMORY_SBRK,
    VM_MEMORY_OS_ALLOC_ONCE, VM_MEMORY_DYLD, VM_MEMORY_DYLD_MALLOC] at h ⊢
  have key : ∀ k : Nat, tag = k → (tag == k) = true := fun k hk => by simp [hk]
  have h1 : ¬ tag = 1 := fun e => by simp [e] at h
  have h30 : ¬ tag = 30 := fun e => by simp [e] at h
  rw [if_neg h1, if_neg h30] at h
  have h2 : ¬ tag = 2 := fun e => by simp [e] at h
  have h3 : ¬ tag = 3 := fun e => by simp [e] at h
  have h9 : ¬ tag = 9 := fun e => by simp [e] at h
  have h8 : ¬ tag = 8 := fun e => by simp [e] at h
  have h4 : ¬ tag = 4 := fun e => by simp [e] at h
  have h7 : ¬ tag = 7 := fun e => by simp [e] at h
  have h12 : ¬ tag = 12 := fun e => by simp [e] at h
  have h11 : ¬ tag = 11 := fun e => by simp [e] at h
  have h6 : ¬ tag = 6 := fun e => by simp [e] at h
  have h5 : ¬ tag = 5 := fun e => by simp [e] at h
  have h73 : ¬ tag = 73 := fun e => by simp [e] at h
  have h60 : ¬ tag = 60 := fun e => by simp [e] at h
  have h61 : ¬ tag = 61 := fun e => by simp [e] at h
  simp only [h1, h30, h2, h3, h9, h8, h4, h7, h12, h11, h6, h5, h73, h60, h61, if_false,
    or_self]

theorem mach_unlisted_of_tag_zero (q : mach_region) (h : mach_user_tag q = 0) :
    mach_unlisted q = true := by
  unfold mach_unlisted
  rw [h]
  cases decide (q.protection = VM_PROT_NONE) <;> rfl

theorem mach_listed_or_unlisted (q : mach_region) :
    mach_unlisted q = true ∨
    ∃ t d, vendor_tag_class (mach_user_tag q) (q.protection = VM_PROT_NONE) = some (t, d) := by
  unfold mach_unlisted
  cases h : vendor_tag_class (mach_user_tag q) (decide (q.protection = VM_PROT_NONE)) with
  | none => exact Or.inl rfl
  | some p => exact Or.inr ⟨p.1, p.2, rfl⟩

/-- The `default:` label on an image header: the segment addresses of the
image are remembered and the region is typed `code`. -/
theorem mach_default_case_header (read_u32 : Nat → Nat) (getsegmentdata : Nat → String → Nat)
    (seg : image_segments) (q : mach_region) (h : mach_is_header read_u32 q = true) :
    (mach_default_case read_u32 getsegmentdata seg q).1 =
      { data_addr := getsegmentdata q.address "__DATA",
        const_addr := getsegmentdata q.address "__DATA_CONST",
        linksh_addr := getsegmentdata q.address "__LINKEDIT" } ∧
    (mach_default_case read_u32 getsegmentdata seg q).2.1 = "code" := by
  unfold mach_is_header at h
  simp only [decide_eq_true_eq, Bool.decide_and, Bool.and_eq_true] at h
  obtain ⟨htag, hfile, hsize, hread, hmagic⟩ := h
  obtain ⟨filename, hfn⟩ := Option.isSome_iff_exists.mp hfile
  unfold mach_default_case
  simp only [hfn, htag, hsize, hread, hmagic, ne_eq, not_false_eq_true, and_self,
    decide_True, if_true]

/-- The `default:` label on a file-backed region that is not an image header:
the remembered addresses are kept and the type is found by comparing the
start address with them, in the order data, const, link metadata. -/
theorem mach_default_case_segment (read_u32 : Nat → Nat)
    (getsegmentdata : Nat → String → Nat) (seg : image_segments) (q : mach_region)
    (filename : String) (hfn : q.filename = some filename)
    (h : mach_is_header read_u32 q = false) :
    (mach_default_case read_u32 getsegmentdata seg q).1 = seg ∧
    (mach_default_case read_u32 getsegmentdata seg q).2.1 =
      (if q.address = seg.data_addr then "data"
       else if q.address = seg.const_addr then "const"
       else if q.address = seg.linksh_addr then "linkd"
       else "-") ∧
    (mach_default_case read_u32 getsegmentdata seg q).2.2.1 = filename := by
  have hne : ¬ ((if (decide (4 ≤ q.size ∧ q.protection &&& VM_PROT_READ ≠ 0 ∧
      mach_user_tag q = 0)) = true then read_u32 q.address % 2 ^ 32 else 0) = MH_MAGIC_64) := by
    intro e
    split at e
    · rename_i hp
      simp only [decide_eq_true_eq] at hp
      have : mach_is_header read_u32 q = true := by
        unfold mach_is_header
        simp only [decide_eq_true_eq, Bool.decide_and, Bool.and_eq_true]
        exact ⟨hp.2.2, by rw [hfn]; rfl, hp.1, hp.2.1, e⟩
      rw [this] at h
      cases h
    · revert e
      decide
  unfold mach_default_case
  simp only [hfn]
  rw [if_neg hne]
  split_ifs <;> exact ⟨rfl, rfl, rfl⟩

/-- A region that is not an image header leaves the remembered segment
addresses unchanged. -/
theorem mach_classify_keeps_segments (read_u32 : Nat → Nat)
    (getsegmentdata : Nat → String → Nat) (seg : image_segments) (q : mach_region)
    (h : mach_is_header read_u32 q = false) :
    (mach_classify read_u32 getsegmentdata seg q).1 = seg := by
  rcases mach_listed_or_unlisted q with hu | ⟨t, d, hl⟩
  · rw [mach_classify_unlisted _ _ _ _ hu]
    cases hfn : q.filename with
    | none =>
      unfold mach_default_case
      simp only [hfn]
    | some filename => exact (mach_default_case_segment _ _ _ _ filename hfn h).1
  · rw [mach_classify_listed _ _ _ _ t d hl]

theorem mach_segments_after_no_header (read_u32 : Nat → Nat)
    (getsegmentdata : Nat → String → Nat) (seg : image_segments) (l : List mach_region)
    (h : ∀ q ∈ l, mach_is_header read_u32 q = false) :
    mach_segments_after read_u32 getsegmentdata seg l = seg := by
  induction l with
  | nil => rfl
  | cons q qs ih =>
    rw [mach_segments_after,
      mach_classify_keeps_segments _ _ _ _ (h q (List.mem_cons_self _ _))]
    exact ih (fun x hx => h x (List.mem_cons_of_mem _ hx))

theorem mach_walk_append (read_u32 : Nat → Nat) (getsegmentdata : Nat → String → Nat)
    (page_size indet_pages : Nat) (seg : image_segments) (l₁ l₂ : List mach_region) :
    mach_walk read_u32 getsegmentdata page_size indet_pages seg (l₁ ++ l₂) =
      mach_walk read_u32 getsegmentdata page_size indet_pages seg l₁ ++
      mach_walk read_u32 getsegmentdata page_size indet_pages
        (mach_segments_after read_u32 getsegmentdata seg l₁) l₂ := by
  induction l₁ generalizing seg with
  | nil => rfl
  | cons q qs ih =>
    simp only [List.cons_append, mach_walk, mach_segments_after]
    congr 1
    exact ih _

theorem mach_walk_length (read_u32 : Nat → Nat) (getsegmentdata : Nat → String → Nat)
    (page_size indet_pages : Nat) (seg : image_segments) (l : List mach_region) :
    (mach_walk read_u32 getsegmentdata page_size indet_pages seg l).length = l.length := by
  induction l generalizing seg with
  | nil => rfl
  | cons q qs ih => simp only [mach_walk, List.length_cons, ih]

/-- The step result at position `pre.length` of a walk over `pre ++ q :: post`
is the step on `q` with the segment addresses remembered after `pre`. -/
theorem mach_walk_getElem? (read_u32 : Nat → Nat) (getsegmentdata : Nat → String → Nat)
    (page_size indet_pages : Nat) (seg : image_segments) (pre post : List mach_region)
    (q : mach_region) :
    (mach_walk read_u32 getsegmentdata page_size indet_pages seg (pre ++ q :: post))[pre.length]?
      = some (mach_step read_u32 getsegmentdata page_size indet_pages
          (mach_segments_after read_u32 getsegmentdata seg pre) q) := by
  rw [mach_walk_append, List.getElem?_append_right (by rw [mach_walk_length]),
    mach_walk_length, Nat.sub_self]
  simp only [mach_walk, List.getElem?_cons_zero]

theorem mach_segments_after_append (read_u32 : Nat → Nat)
    (getsegmentdata : Nat → String → Nat) (seg : image_segments) (l₁ l₂ : List mach_region) :
    mach_segments_after read_u32 getsegmentdata seg (l₁ ++ l₂) =
      mach_segments_after read_u32 getsegmentdata
        (mach_segments_after read_u32 getsegmentdata seg l₁) l₂ := by
  induction l₁ generalizing seg with
  | nil => rfl
  | cons q qs ih =>
    simp only [List.cons_append, mach_segments_after]
    exact ih _

theorem mach_classify_header (read_u32 : Nat → Nat) (getsegmentdata : Nat → String → Nat)
    (seg : image_segments) (q : mach_region) (h : mach_is_header read_u32 q = true) :
    (mach_classify read_u32 getsegmentdata seg q).1 =
      { data_addr := getsegmentdata q.address "__DATA",
        const_addr := getsegmentdata q.address "__DATA_CONST",
        linksh_addr := getsegmentdata q.address "__LINKEDIT" } ∧
    (mach_classify read_u32 getsegmentdata seg q).2.1 = "code" := by
  have htag : mach_user_tag q = 0 := by
    unfold mach_is_header at h
    simp only [decide_eq_true_eq, Bool.decide_and, Bool.and_eq_true] at h
    exact h.1
  rw [mach_classify_unlisted _ _ _ _ (mach_unlisted_of_tag_zero q htag)]
  exact mach_default_case_header _ _ _ _ h

/-! ## Properties of the macOS enumerator -/

/-- C18: for a region whose vendor tag is one of the listed tags, the type and
the detail are those that `vendor_tag_class` gives for the tag and for whether
the protection is empty, whatever the backing file and the remembered segment
addresses are; the remembered addresses stay as they were and no byte of the
region is read. -/
theorem mach_vendor_tag_classification (read_u32 : Nat → Nat)
    (getsegmentdata : Nat → String → Nat) (page_size indet_pages : Nat)
    (seg : image_segments) (q : mach_region) (t d : String)
    (h : vendor_tag_class (mach_user_tag q) (q.protection = VM_PROT_NONE) = some (t, d)) :
    (mach_step read_u32 getsegmentdata page_size indet_pages seg q).region.region_type = t ∧
    (mach_step read_u32 getsegmentdata page_size indet_pages seg q).region.region_detail = d ∧
    (mach_step read_u32 getsegmentdata page_size indet_pages seg q).segments = seg ∧
    (mach_step read_u32 getsegmentdata page_size indet_pages seg q).probed = [] := by
  obtain ⟨h1, h2, h3, h4⟩ :=
    mach_step_fields read_u32 getsegmentdata page_size indet_pages seg q
  rw [h1, h2, h3, h4, mach_classify_listed _ _ _ _ t d h]
  exact ⟨rfl, rfl, rfl, rfl⟩

/-- Witness of C18: a region tagged as small-allocator memory is typed `heap`
with detail `malloc small`, although it has a file name and the memory holds
the image magic. -/
theorem mach_vendor_tag_classification_witness :
    (mach_step magic_memory demo_getsegmentdata 4096 0
      { data_addr := 0x600000000000, const_addr := 0, linksh_addr := 0 }
      demo_malloc_small).region.region_type = "heap" ∧
    (mach_step magic_memory demo_getsegmentdata 4096 0
      { data_addr := 0x600000000000, const_addr := 0, linksh_addr := 0 }
      demo_malloc_small).region.region_detail = "malloc small" :=
  have h := mach_vendor_tag_classification magic_memory demo_getsegmentdata 4096 0
    { data_addr := 0x600000000000, const_addr := 0, linksh_addr := 0 }
    demo_malloc_small "heap" "malloc small" (by decide)
  ⟨h.1, h.2.1⟩

/-- C19: in one pass over `pre ++ h :: mid ++ r :: post`, where `h` is an
image header, no region of `mid` is an image header, and `r` is a file-backed
region with an unspecific vendor tag that is not an image header: `h` is typed
`code`, and `r` is typed `data`, `const` or `linkd` when its start address is
the `__DATA`, `__DATA_CONST` or `__LINKEDIT` address of `h` (compared in that
order), and `-` when it is none of them. -/
theorem mach_image_segments (read_u32 : Nat → Nat) (getsegmentdata : Nat → String → Nat)
    (page_size indet_pages : Nat) (seg : image_segments)
    (pre mid post : List mach_region) (h r : mach_region) (filename : String)
    (hh : mach_is_header read_u32 h = true)
    (hmid : ∀ m ∈ mid, mach_is_header read_u32 m = false)
    (hru : mach_unlisted r = true) (hrf : r.filename = some filename)
    (hrn : mach_is_header read_u32 r = false) :
    ∃ sh sr : mach_step_result,
      (mach_walk read_u32 getsegmentdata page_size indet_pages seg
        (pre ++ h :: (mid ++ r :: post)))[pre.length]? = some sh ∧
      sh.region.region_type = "code" ∧
      (mach_walk read_u32 getsegmentdata page_size indet_pages seg
        (pre ++ h :: (mid ++ r :: post)))[pre.length + 1 + mid.length]? = some sr ∧
      (r.address = getsegmentdata h.address "__DATA" → sr.region.region_type = "data") ∧
      (r.address ≠ getsegmentdata h.address "__DATA" →
        r.address = getsegmentdata h.address "__DATA_CONST" →
        sr.region.region_type = "const") ∧
      (r.address ≠ getsegmentdata h.address "__DATA" →
        r.address ≠ getsegmentdata h.address "__DATA_CONST" →
        r.address = getsegmentdata h.address "__LINKEDIT" →
        sr.region.region_type = "linkd") ∧
      (r.address ≠ getsegmentdata h.address "__DATA" →
        r.address ≠ getsegmentdata h.address "__DATA_CONST" →
        r.address ≠ getsegmentdata h.address "__LINKEDIT" →
        sr.region.region_type = "-") := by
  have hsplit : pre ++ h :: (mid ++ r :: post) = (pre ++ h :: mid) ++ r :: post := by
    simp
  have hlen : (pre ++ h :: mid).length = pre.length + 1 + mid.length := by
    simp
    omega
  have hseg : mach_segments_after read_u32 getsegmentdata seg (pre ++ h :: mid) =
      { data_addr := getsegmentdata h.address "__DATA",
        const_addr := getsegmentdata h.address "__DATA_CONST",
        linksh_addr := getsegmentdata h.address "__LINKEDIT" } := by
    rw [mach_segments_after_append, mach_segments_after,
      (mach_classify_header _ _ _ _ hh).1, mach_segments_after_no_header _ _ _ _ hmid]
  refine ⟨_, mach_step read_u32 getsegmentdata page_size indet_pages
    (mach_segments_after read_u32 getsegmentdata seg (pre ++ h :: mid)) r,
    mach_walk_getElem? _ _ _ _ _ pre _ h, ?_, ?_, ?_⟩
  · rw [(mach_step_fields _ _ _ _ _ _).2.1]
    exact (mach_classify_header _ _ _ _ hh).2
  · rw [hsplit, ← hlen]
    exact mach_walk_getElem? _ _ _ _ _ (pre ++ h :: mid) post r
  · rw [(mach_step_fields _ _ _ _ _ _).2.1, hseg, mach_classify_unlisted _ _ _ _ hru,
      (mach_default_case_segment _ _ _ _ filename hrf hrn).2.1]
    refine ⟨?_, ?_, ?_, ?_⟩
    · intro e
      rw [if_pos e]
    · intro e₁ e₂
      rw [if_neg e₁, if_pos e₂]
    · intro e₁ e₂ e₃
      rw [if_neg e₁, if_neg e₂, if_pos e₃]
    · intro e₁ e₂ e₃
      rw [if_neg e₁, if_neg e₂, if_neg e₃]

/-- Witness of C19: in the pass over the demo image the region at the `__DATA`
address, two places after the header, is typed `data`. -/
theorem mach_image_segments_witness :
    ∃ sr : mach_step_result,
      (mach_walk demo_image_memory demo_getsegmentdata 4096 0
        { data_addr := 0, const_addr := 0, linksh_addr := 0 } demo_image_pass)[2]? = some sr ∧
      sr.region.region_type = "data" :=
  match mach_image_segments demo_image_memory demo_getsegmentdata 4096 0
    { data_addr := 0, const_addr := 0, linksh_addr := 0 }
    [] [demo_image_region 0x100004000 0x4000 1] [demo_image_region 0x10000c000 0x4000 1]
    (demo_image_region 0x100000000 0x4000 5) (demo_image_region 0x100008000 0x4000 3)
    "/usr/local/bin/memlens" (by decide) (by decide) (by decide) (by decide) (by decide) with
  | ⟨_, sr, _, _, h3, h4, _⟩ => ⟨sr, h3, h4 (by decide)⟩

/-! ## Win32 enumerator -/

theorem win_module_step_detail_miss (mbi : MEMORY_BASIC_INFORMATION) (permissions : Nat)
    (region : String × String) (it : MODFILEINFO)
    (h : ¬ (it.lpBaseOfDll ≤ mbi.BaseAddress ∧
      (mbi.BaseAddress + mbi.RegionSize) % ADDR_MOD <
        (it.lpBaseOfDll + it.SizeOfImage) % ADDR_MOD)) :
    win_module_step mbi permissions region it = region := by
  unfold win_module_step
  rw [if_neg h]

theorem win_module_step_detail_hit (mbi : MEMORY_BASIC_INFORMATION) (permissions : Nat)
    (region : String × String) (it : MODFILEINFO)
    (h : it.lpBaseOfDll ≤ mbi.BaseAddress ∧
      (mbi.BaseAddress + mbi.RegionSize) % ADDR_MOD <
        (it.lpBaseOfDll + it.SizeOfImage) % ADDR_MOD) :
    (win_module_step mbi permissions region it).2 = it.filename := by
  unfold win_module_step
  rw [if_pos h]
  simp only
  split_ifs <;> rfl

theorem win_module_loop_miss (mbi : MEMORY_BASIC_INFORMATION) (permissions : Nat)
    (region : String × String) (l : List MODFILEINFO)
    (h : ∀ it ∈ l, ¬ (it.lpBaseOfDll ≤ mbi.BaseAddress ∧
      (mbi.BaseAddress + mbi.RegionSize) % ADDR_MOD <
        (it.lpBaseOfDll + it.SizeOfImage) % ADDR_MOD)) :
    l.foldl (win_module_step mbi permissions) region = region := by
  induction l generalizing region with
  | nil => rfl
  | cons it tl ih =>
    rw [List.foldl_cons, win_module_step_detail_miss _ _ _ _ (h it (List.mem_cons_self _ _))]
    exact ih region (fun x hx => h x (List.mem_cons_of_mem _ hx))

theorem win_region_recorded (moduleInfos : List MODFILEINFO) (mbi_ptr malloc_ptr : Nat)
    (mbi : MEMORY_BASIC_INFORMATION) (hstate : mbi.State = MEM_COMMIT ∨ mbi.State = MEM_RESERVE)
    (himage : mbi.Type_ = MEM_IMAGE) :
    ∃ region, win_region moduleInfos mbi_ptr malloc_ptr mbi = some region ∧
      (region.region_type, region.region_detail) =
        moduleInfos.foldl (win_module_step mbi (win_permissions mbi.Protect))
          (if mbi.State = MEM_COMMIT then
            (if win_points_into mbi_ptr mbi then ("stack", "-")
             else if win_points_into malloc_ptr mbi then ("heap", "-") else ("", ""))
           else ("reserved",
            (if win_points_into mbi_ptr mbi then (("stack", "-") : String × String)
             else if win_points_into malloc_ptr mbi then ("heap", "-") else ("", "")).2)) := by
  have hs : ¬ (mbi.State ≠ MEM_COMMIT ∧ mbi.State ≠ MEM_RESERVE) := by
    rintro ⟨h1, h2⟩
    rcases hstate with h | h
    · exact h1 h
    · exact h2 h
  unfold win_region
  simp only [hs, if_false, himage, if_true]
  exact ⟨_, rfl, rfl⟩

/-- Away from the end of the image: an image-type region, committed or
reserved, takes as detail the file name of the last module of the list whose
range contains it with the region end strictly below the image end. -/
theorem win_region_module_detail (pre post : List MODFILEINFO) (m : MODFILEINFO)
    (mbi_ptr malloc_ptr : Nat) (mbi : MEMORY_BASIC_INFORMATION)
    (hstate : mbi.State = MEM_COMMIT ∨ mbi.State = MEM_RESERVE)
    (himage : mbi.Type_ = MEM_IMAGE)
    (hm : m.lpBaseOfDll ≤ mbi.BaseAddress ∧
      (mbi.BaseAddress + mbi.RegionSize) % ADDR_MOD <
        (m.lpBaseOfDll + m.SizeOfImage) % ADDR_MOD)
    (hpost : ∀ it ∈ post, ¬ (it.lpBaseOfDll ≤ mbi.BaseAddress ∧
      (mbi.BaseAddress + mbi.RegionSize) % ADDR_MOD <
        (it.lpBaseOfDll + it.SizeOfImage) % ADDR_MOD)) :
    ∃ region, win_region (pre ++ m :: post) mbi_ptr malloc_ptr mbi = some region ∧
      region.region_detail = m.filename := by
  obtain ⟨region, hr, hcls⟩ :=
    win_region_recorded (pre ++ m :: post) mbi_ptr malloc_ptr mbi hstate himage
  refine ⟨region, hr, ?_⟩
  have h2 := congrArg Prod.snd hcls
  simp only at h2
  rw [h2, List.foldl_append, List.foldl_cons, win_module_loop_miss _ _ _ post hpost]
  exact win_module_step_detail_hit _ _ _ _ hm

/-- The region of the demo image just before its last one gets the module
file name. -/
theorem win_region_module_detail_witness :
    ∃ region, win_region demo_modules 0x7ff000 0x900000
      { BaseAddress := 0x401000, RegionSize := 0x1000, State := MEM_COMMIT,
        Protect := PAGE_READONLY, Type_ := MEM_IMAGE } = some region ∧
      region.region_detail = "memlens.exe" :=
  win_region_module_detail [] []
    { lpBaseOfDll := 0x400000, SizeOfImage := 0x3000, filename := "memlens.exe" }
    0x7ff000 0x900000
    { BaseAddress := 0x401000, RegionSize := 0x1000, State := MEM_COMMIT,
      Protect := PAGE_READONLY, Type_ := MEM_IMAGE }
    (by decide) (by decide) (by decide) (by decide)

/-- C20 at the failing input: the last region `[0x402000, 0x403000)` of the
image of `memlens.exe`, `[0x400000, 0x403000)`, lies within the image range,
yet it is recorded with an empty detail (and an empty type) instead of the
module file name. -/
theorem win_region_last_of_image :
    (0x400000 ≤ demo_last_image_region.BaseAddress ∧
      demo_last_image_region.BaseAddress + demo_last_image_region.RegionSize
        ≤ 0x400000 + 0x3000) ∧
    demo_last_image_region.Type_ = MEM_IMAGE ∧
    demo_last_image_region.State = MEM_COMMIT ∧
    win_region demo_modules 0x7ff000 0x900000 demo_last_image_region =
      some { start_address := 0x402000, size := 0x1000, resident_size := 0x1000,
             region_type := "", region_detail := "", permissions := 1 } := by
  decide

/-! ## Properties that span the three enumerators -/

/-- C13 (as amended): when the data source of the enumerator cannot be opened
or queried (Linux: the maps file does not open; macOS, Win32: the first query
fails), a refresh leaves the collection empty, whatever it held before. -/
theorem update_memory_layout_source_failure (prior : List memory_region_t) :
    (∀ (hex_get : List Char → Nat × List Char × Bool) (indet : Nat → indeterminate),
      update_memory_layout (load_memory_layout_linux hex_get indet none) prior = []) ∧
    (∀ (mach_vm_region : Nat → Option mach_region) (read_u32 : Nat → Nat)
        (getsegmentdata : Nat → String → Nat) (page_size indet_pages fuel : Nat),
      mach_vm_region 0 = none →
      update_memory_layout (load_memory_layout_macos mach_vm_region read_u32 getsegmentdata
        page_size indet_pages fuel) prior = []) ∧
    (∀ (VirtualQueryEx : Nat → Option MEMORY_BASIC_INFORMATION)
        (moduleInfos : List MODFILEINFO) (mbi_ptr malloc_ptr fuel : Nat),
      VirtualQueryEx 0 = none →
      update_memory_layout (load_memory_layout_windows VirtualQueryEx moduleInfos mbi_ptr
        malloc_ptr fuel) prior = []) := by
  refine ⟨fun _ _ => rfl, ?_, ?_⟩
  · intro mach_vm_region read_u32 getsegmentdata page_size indet_pages fuel h
    unfold update_memory_layout load_memory_layout_macos vector_clear
    cases fuel with
    | zero => rfl
    | succ n => simp [mach_queries, h, mach_walk]
  · intro VirtualQueryEx moduleInfos mbi_ptr malloc_ptr fuel h
    unfold update_memory_layout load_memory_layout_windows vector_clear
    cases fuel with
    | zero => rfl
    | succ n => simp [win_walk, h]

/-- Witness of C13 as amended: a refresh of the demo snapshot with a source
that fails yields the empty collection on each platform. -/
theorem update_memory_layout_source_failure_witness :
    update_memory_layout (load_memory_layout_linux hex_digits_get zero_indeterminate none)
      demo_snapshot = [] ∧
    update_memory_layout (load_memory_layout_macos (fun _ => none) zero_memory
      demo_getsegmentdata 4096 0 100) demo_snapshot = [] ∧
    update_memory_layout (load_memory_layout_windows (fun _ => none) demo_modules
      0x7ff000 0x900000 100) demo_snapshot = [] :=
  ⟨(update_memory_layout_source_failure demo_snapshot).1 hex_digits_get zero_indeterminate,
   (update_memory_layout_source_failure demo_snapshot).2.1 (fun _ => none) zero_memory
      demo_getsegmentdata 4096 0 100 rfl,
   (update_memory_layout_source_failure demo_snapshot).2.2 (fun _ => none) demo_modules
      0x7ff000 0x900000 100 rfl⟩

/-- Counterexample to C13 as stated: a first refresh reads two lines of the
demo maps and yields two regions; a second refresh, for which the maps file
does not open, leaves the collection empty and not equal to that last
successful enumeration. -/
theorem update_memory_layout_source_failure_counterexample :
    (update_memory_layout
      (load_memory_layout_linux hex_digits_get zero_indeterminate (some (demo_maps.take 2)))
      []).length = 2 ∧
    update_memory_layout (load_memory_layout_linux hex_digits_get zero_indeterminate none)
      (update_memory_layout
        (load_memory_layout_linux hex_digits_get zero_indeterminate
          (some (demo_maps.take 2))) []) = [] ∧
    update_memory_layout (load_memory_layout_linux hex_digits_get zero_indeterminate none)
      (update_memory_layout
        (load_memory_layout_linux hex_digits_get zero_indeterminate
          (some (demo_maps.take 2))) []) ≠
      update_memory_layout
        (load_memory_layout_linux hex_digits_get zero_indeterminate (some (demo_maps.take 2)))
        [] := by
  decide

theorem lookup_mem (k : Nat) (v : String × String) :
    ∀ l : List (Nat × String × String), l.lookup k = some v → (k, v) ∈ l
  | [], h => by cases h
  | (a, b) :: tl, h => by
    unfold List.lookup at h
    by_cases e : k = a
    · have hb : (k == a) = true := by simp [e]
      simp only [hb] at h
      injection h with h
      subst h
      subst e
      exact List.mem_cons_self _ _
    · have hb : (k == a) = false := by simp [e]
      simp only [hb] at h
      exact List.mem_cons_of_mem _ (lookup_mem k v tl h)

theorem vendor_tag_class_type_ne_empty (user_tag : Nat) (prot_none : Bool) (t d : String)
    (h : vendor_tag_class user_tag prot_none = some (t, d)) : t ≠ "" := by
  unfold vendor_tag_class at h
  by_cases h1 : user_tag = VM_MEMORY_MALLOC
  · rw [if_pos h1] at h
    cases prot_none <;> simp at h <;> obtain ⟨rfl, _⟩ := h <;> decide
  · rw [if_neg h1] at h
    by_cases h2 : user_tag = VM_MEMORY_STACK
    · rw [if_pos h2] at h
      cases prot_none <;> simp at h <;> obtain ⟨rfl, _⟩ := h <;> decide
    · rw [if_neg h2] at h
      have hmem := lookup_mem _ _ _ h
      have hall : ∀ p ∈ vendor_tag_table, p.2.1 ≠ "" := by decide
      exact hall _ hmem

theorem mach_classify_type_ne_empty (read_u32 : Nat → Nat)
    (getsegmentdata : Nat → String → Nat) (seg : image_segments) (q : mach_region) :
    (mach_classify read_u32 getsegmentdata seg q).2.1 ≠ "" := by
  rcases mach_listed_or_unlisted q with hu | ⟨t, d, hl⟩
  · rw [mach_classify_unlisted _ _ _ _ hu]
    unfold mach_default_case
    split
    · simp only
      split_ifs <;> simp
    · simp
  · rw [mach_classify_listed _ _ _ _ t d hl]
    exact vendor_tag_class_type_ne_empty _ _ t d hl

/-- Regions that match no classification rule, by enumerator: in the Linux
parser such a region has type `-`; in the macOS walker no recorded region has
an empty type, and a region that matches no rule has type `-`; in the Win32
walker a committed region that is neither the stack nor the heap region of the
walker and takes no module file name is recorded with the empty string as its
type, and a reserved one with `reserved`. -/
theorem unclassified_region_type_by_enumerator :
    (∀ f : maps_fields,
      (f.detail.toList.head? ≠ some '/' → f.detail.toList.head? ≠ some '[' →
        (maps_region f).region_type = "-") ∧
      (∀ rest, f.detail.toList = '/' :: rest → f.file_offset ≠ 0 →
        (maps_region f).permissions &&& PERM_EXEC = 0 →
        (maps_region f).permissions &&& PERM_WRIT = 0 →
        (maps_region f).permissions &&& PERM_READ = 0 →
        (maps_region f).region_type = "-")) ∧
    (∀ (read_u32 : Nat → Nat) (getsegmentdata : Nat → String → Nat)
        (page_size indet_pages : Nat) (seg : image_segments) (q : mach_region),
      (mach_step read_u32 getsegmentdata page_size indet_pages seg q).region.region_type ≠ "" ∧
      (mach_unlisted q = true → mach_is_header read_u32 q = false →
        (q.filename = none ∨ (q.address ≠ seg.data_addr ∧ q.address ≠ seg.const_addr ∧
          q.address ≠ seg.linksh_addr)) →
        (mach_step read_u32 getsegmentdata page_size indet_pages seg q).region.region_type
          = "-")) ∧
    (∀ (moduleInfos : List MODFILEINFO) (mbi_ptr malloc_ptr : Nat)
        (mbi : MEMORY_BASIC_INFORMATION),
      win_points_into mbi_ptr mbi = false → win_points_into malloc_ptr mbi = false →
      (mbi.Type_ ≠ MEM_IMAGE ∨ ∀ it ∈ moduleInfos, ¬ (it.lpBaseOfDll ≤ mbi.BaseAddress ∧
        (mbi.BaseAddress + mbi.RegionSize) % ADDR_MOD <
          (it.lpBaseOfDll + it.SizeOfImage) % ADDR_MOD)) →
      (mbi.State = MEM_COMMIT →
        ∃ region, win_region moduleInfos mbi_ptr malloc_ptr mbi = some region ∧
          region.region_type = "") ∧
      (mbi.State = MEM_RESERVE →
        ∃ region, win_region moduleInfos mbi_ptr malloc_ptr mbi = some region ∧
          region.region_type = "reserved")) := by
  refine ⟨?_, ?_, ?_⟩
  · intro f
    obtain ⟨ht, _⟩ := maps_region_type_detail f
    constructor
    · intro h1 h2
      rw [ht]
      unfold maps_classify
      split
      · rename_i h
        rw [h] at h1
        exact absurd rfl h1
      · rename_i h
        rw [h] at h2
        exact absurd rfl h2
      · rfl
    · intro rest hpath h0 hx hw hr
      rw [ht, maps_classify_path f.detail rest _ _ hpath, if_neg h0,
        if_neg (not_not.mpr hx), if_neg (not_not.mpr hw), if_neg (not_not.mpr hr)]
  · intro read_u32 getsegmentdata page_size indet_pages seg q
    rw [(mach_step_fields _ _ _ _ _ _).2.1]
    refine ⟨mach_classify_type_ne_empty _ _ _ _, ?_⟩
    intro hu hn hcase
    rw [mach_classify_unlisted _ _ _ _ hu]
    cases hfn : q.filename with
    | none =>
      unfold mach_default_case
      simp only [hfn]
    | some filename =>
      rcases hcase with hnone | ⟨h1, h2, h3⟩
      · rw [hfn] at hnone
        cases hnone
      · rw [(mach_default_case_segment _ _ _ _ filename hfn hn).2.1, if_neg h1, if_neg h2,
          if_neg h3]
  · intro moduleInfos mbi_ptr malloc_ptr mbi hp1 hp2 hmod
    have hloop : ∀ cls : String × String,
        (if mbi.Type_ = MEM_IMAGE then
          moduleInfos.foldl (win_module_step mbi (win_permissions mbi.Protect)) cls
        else cls) = cls := by
      intro cls
      rcases hmod with h | h
      · rw [if_neg h]
      · split_ifs
        · exact win_module_loop_miss _ _ _ _ h
        · rfl
    constructor
    · intro hs
      unfold win_region
      simp only [hp1, hp2, hs, hloop]
      exact ⟨_, rfl, rfl⟩
    · intro hs
      have hne : mbi.State ≠ MEM_COMMIT := by
        rw [hs]
        decide
      unfold win_region
      simp only [hp1, hp2, hs, hloop]
      exact ⟨_, rfl, rfl⟩

/-- C17 at the failing input: the Win32 walker records a committed private
region that holds neither its stack variable nor its heap buffer, and so
matches no classification rule, with the empty string as its type, where the
Linux parser records the anonymous line of the demo maps, and the macOS walker
an untagged region without a file name, with `-`. -/
theorem win_region_unclassified_type :
    win_region demo_modules 0x7ff000 0x900000 demo_private_region =
      some { start_address := 0x10000, size := 0x10000, resident_size := 0x10000,
             region_type := "", region_detail := "", permissions := 3 } ∧
    (maps_region (parse_maps_line hex_digits_get (zero_indeterminate 7)
      "7f00ab000000-7f00ab001000 rw-p 00000000 00:00 0")).region_type = "-" ∧
    (mach_step zero_memory demo_getsegmentdata 4096 0
      { data_addr := 0, const_addr := 0, linksh_addr := 0 }
      { demo_tagged_region with ext_info := none, filename := none }).region.region_type
      = "-" := by
  decide


/-! ## Win32 enumerator: the region filter -/

theorem win_region_isSome_iff (moduleInfos : List MODFILEINFO) (mbi_ptr malloc_ptr : Nat)
    (mbi : MEMORY_BASIC_INFORMATION) :
    (win_region moduleInfos mbi_ptr malloc_ptr mbi).isSome = true ↔
      (mbi.State = MEM_COMMIT ∨ mbi.State = MEM_RESERVE) := by
  unfold win_region
  simp only
  split
  · rename_i h
    constructor
    · intro e
      cases e
    · rintro (e | e)
      · exact absurd e h.1
      · exact absurd e h.2
  · rename_i h
    refine ⟨fun _ => ?_, fun _ => rfl⟩
    by_cases hc : mbi.State = MEM_COMMIT
    · exact Or.inl hc
    · right
      by_contra hr
      exact h ⟨hc, hr⟩

theorem win_region_range (moduleInfos : List MODFILEINFO) (mbi_ptr malloc_ptr : Nat)
    (mbi : MEMORY_BASIC_INFORMATION) (region : memory_region_t)
    (h : win_region moduleInfos mbi_ptr malloc_ptr mbi = some region) :
    region.start_address = mbi.BaseAddress ∧ region.size = mbi.RegionSize := by
  unfold win_region at h
  simp only at h
  split at h
  · cases h
  · injection h with h
    subst h
    exact ⟨rfl, rfl⟩

theorem win_walk_eq_filterMap (VirtualQueryEx : Nat → Option MEMORY_BASIC_INFORMATION)
    (moduleInfos : List MODFILEINFO) (mbi_ptr malloc_ptr fuel addr : Nat) :
    win_walk VirtualQueryEx moduleInfos mbi_ptr malloc_ptr fuel addr =
      (win_queries VirtualQueryEx fuel addr).filterMap
        (win_region moduleInfos mbi_ptr malloc_ptr) := by
  induction fuel generalizing addr with
  | zero => rfl
  | succ n ih =>
    unfold win_walk win_queries
    cases hq : VirtualQueryEx addr with
    | none => rfl
    | some mbi =>
      simp only
      rw [ih]
      cases hr : win_region moduleInfos mbi_ptr malloc_ptr mbi with
      | none => simp [List.filterMap_cons, hr]
      | some region => simp [List.filterMap_cons, hr]

/-- C21: the regions appended by one walk are the records of the queried
regions whose state is committed or reserved, in query order, each with the
base address and the size of its queried region; a queried region in any other
state gives no record, and the walk goes on at the query address advanced by
its region size. -/
theorem win_walk_filter (VirtualQueryEx : Nat → Option MEMORY_BASIC_INFORMATION)
    (moduleInfos : List MODFILEINFO) (mbi_ptr malloc_ptr fuel addr : Nat)
    (regions : List memory_region_t) :
    load_memory_layout_windows VirtualQueryEx moduleInfos mbi_ptr malloc_ptr fuel regions =
      regions ++ (win_queries VirtualQueryEx fuel 0).filterMap
        (win_region moduleInfos mbi_ptr malloc_ptr) ∧
    (win_walk VirtualQueryEx moduleInfos mbi_ptr malloc_ptr fuel addr).map
        (fun region => (region.start_address, region.size)) =
      ((win_queries VirtualQueryEx fuel addr).filter
        (fun mbi => mbi.State = MEM_COMMIT ∨ mbi.State = MEM_RESERVE)).map
        (fun mbi => (mbi.BaseAddress, mbi.RegionSize)) ∧
    (∀ mbi, VirtualQueryEx addr = some mbi →
      ¬ (mbi.State = MEM_COMMIT ∨ mbi.State = MEM_RESERVE) →
      win_walk VirtualQueryEx moduleInfos mbi_ptr malloc_ptr (fuel + 1) addr =
        win_walk VirtualQueryEx moduleInfos mbi_ptr malloc_ptr fuel
          ((addr + mbi.RegionSize) % ADDR_MOD)) := by
  refine ⟨?_, ?_, ?_⟩
  · unfold load_memory_layout_windows
    rw [win_walk_eq_filterMap]
  · rw [win_walk_eq_filterMap]
    generalize win_queries VirtualQueryEx fuel addr = l
    induction l with
    | nil => rfl
    | cons mbi tl ih =>
      cases hr : win_region moduleInfos mbi_ptr malloc_ptr mbi with
      | none =>
        have hs : ¬ (mbi.State = MEM_COMMIT ∨ mbi.State = MEM_RESERVE) := by
          intro e
          have := (win_region_isSome_iff moduleInfos mbi_ptr malloc_ptr mbi).mpr e
          rw [hr] at this
          cases this
        rw [List.filterMap_cons, hr, List.filter_cons]
        simp only [hs, decide_False]
        exact ih
      | some region =>
        have hs : mbi.State = MEM_COMMIT ∨ mbi.State = MEM_RESERVE :=
          (win_region_isSome_iff moduleInfos mbi_ptr malloc_ptr mbi).mp (by rw [hr]; rfl)
        obtain ⟨h1, h2⟩ := win_region_range _ _ _ _ _ hr
        rw [List.filterMap_cons, hr, List.filter_cons]
        simp only [hs, decide_True, if_true, List.map_cons, h1, h2]
        rw [ih]
  · intro mbi hq hs
    have hr : win_region moduleInfos mbi_ptr malloc_ptr mbi = none := by
      cases h : win_region moduleInfos mbi_ptr malloc_ptr mbi with
      | none => rfl
      | some region =>
        exact absurd ((win_region_isSome_iff moduleInfos mbi_ptr malloc_ptr mbi).mp
          (by rw [h]; rfl)) hs
    conv_lhs => unfold win_walk
    simp only [hq, hr]

/-- Witness of C21: over the demo queries (free, committed, free, reserved)
the walk records the committed and the reserved region, in that order. -/
theorem win_walk_filter_witness :
    (win_walk demo_VirtualQueryEx demo_modules 0x7ff000 0x900000 10 0).map
        (fun region => (region.start_address, region.size)) =
      [(0x10000, 0x10000), (0x30000, 0x10000)] ∧
    win_walk demo_VirtualQueryEx demo_modules 0x7ff000 0x900000 10 0 =
      win_walk demo_VirtualQueryEx demo_modules 0x7ff000 0x900000 9 0x10000 :=
  have h := win_walk_filter demo_VirtualQueryEx demo_modules 0x7ff000 0x900000 9 0 []
  ⟨by decide,
   h.2.2 { BaseAddress := 0, RegionSize := 0x10000, State := MEM_FREE,
           Protect := PAGE_NOACCESS, Type_ := 0 } (by decide) (by decide)⟩


/-! ## macOS enumerator: the image-magic probe -/

theorem mach_default_case_probed (read_u32 : Nat → Nat) (getsegmentdata : Nat → String → Nat)
    (seg : image_segments) (q : mach_region) :
    (mach_default_case read_u32 getsegmentdata seg q).2.2.2 =
      if q.filename.isSome ∧ 4 ≤ q.size ∧ q.protection &&& VM_PROT_READ ≠ 0 ∧
          mach_user_tag q = 0 then [q.address] else [] := by
  unfold mach_default_case
  cases hfn : q.filename with
  | none => simp
  | some filename =>
    simp only [Option.isSome_some, true_and]
    by_cases hp : 4 ≤ q.size ∧ q.protection &&& VM_PROT_READ ≠ 0 ∧ mach_user_tag q = 0
    · have hd : decide (4 ≤ q.size ∧ q.protection &&& VM_PROT_READ ≠ 0 ∧
          mach_user_tag q = 0) = true := decide_eq_true hp
      rw [if_pos hp]
      simp only [hd, ↓reduceIte]
      split_ifs <;> rfl
    · have hd : decide (4 ≤ q.size ∧ q.protection &&& VM_PROT_READ ≠ 0 ∧
          mach_user_tag q = 0) = false := decide_eq_false hp
      rw [if_neg hp]
      simp only [hd, Bool.false_eq_true, ↓reduceIte]
      split_ifs <;> rfl

theorem mach_is_header_probe (read_u32 : Nat → Nat) (q : mach_region)
    (h : mach_is_header read_u32 q = true) :
    mach_user_tag q = 0 ∧ q.filename.isSome ∧ 4 ≤ q.size ∧
      q.protection &&& VM_PROT_READ ≠ 0 := by
  unfold mach_is_header at h
  simp only [decide_eq_true_eq, Bool.decide_and, Bool.and_eq_true] at h
  exact ⟨h.1, h.2.1, h.2.2.1, h.2.2.2.1⟩

/-- C24 (as amended): the first four bytes at the start of a region are read
exactly when the vendor tag is 0, the region has a backing file name, it is at
least 4 bytes long and it has read permission; a region that fails one of
these conditions is not dereferenced, leaves the remembered segment addresses
unchanged and is not typed `code`. -/
theorem mach_probe_gating (read_u32 : Nat → Nat) (getsegmentdata : Nat → String → Nat)
    (page_size indet_pages : Nat) (seg : image_segments) (q : mach_region) :
    ((mach_user_tag q = 0 ∧ q.filename.isSome ∧ 4 ≤ q.size ∧
        q.protection &&& VM_PROT_READ ≠ 0) →
      (mach_step read_u32 getsegmentdata page_size indet_pages seg q).probed = [q.address]) ∧
    (¬ (mach_user_tag q = 0 ∧ q.filename.isSome ∧ 4 ≤ q.size ∧
        q.protection &&& VM_PROT_READ ≠ 0) →
      (mach_step read_u32 getsegmentdata page_size indet_pages seg q).probed = [] ∧
      (mach_step read_u32 getsegmentdata page_size indet_pages seg q).segments = seg ∧
      (mach_step read_u32 getsegmentdata page_size indet_pages seg q).region.region_type
        ≠ "code") := by
  obtain ⟨h1, h2, _, h4⟩ :=
    mach_step_fields read_u32 getsegmentdata page_size indet_pages seg q
  rw [h1, h2, h4]
  constructor
  · intro hc
    rw [mach_classify_unlisted _ _ _ _ (mach_unlisted_of_tag_zero q hc.1),
      mach_default_case_probed, if_pos ⟨hc.2.1, hc.2.2.1, hc.2.2.2, hc.1⟩]
  · intro hc
    have hnh : mach_is_header read_u32 q = false := by
      cases hh : mach_is_header read_u32 q with
      | false => rfl
      | true => exact absurd (mach_is_header_probe read_u32 q hh) hc
    refine ⟨?_, mach_classify_keeps_segments _ _ _ _ hnh, ?_⟩
    · rcases mach_listed_or_unlisted q with hu | ⟨t, d, hl⟩
      · rw [mach_classify_unlisted _ _ _ _ hu, mach_default_case_probed,
          if_neg (fun e => hc ⟨e.2.2.2, e.1, e.2.1, e.2.2.1⟩)]
      · rw [mach_classify_listed _ _ _ _ t d hl]
    · rcases mach_listed_or_unlisted q with hu | ⟨t, d, hl⟩
      · rw [mach_classify_unlisted _ _ _ _ hu]
        cases hfn : q.filename with
        | none =>
          unfold mach_default_case
          simp only [hfn]
          decide
        | some filename =>
          rw [(mach_default_case_segment _ _ _ _ filename hfn hnh).2.1]
          split_ifs <;> decide
      · rw [mach_classify_listed _ _ _ _ t d hl]
        intro e
        simp only at e
        subst e
        unfold vendor_tag_class at hl
        by_cases e1 : mach_user_tag q = VM_MEMORY_MALLOC
        · rw [if_pos e1] at hl
          cases hb : decide (q.protection = VM_PROT_NONE) <;> rw [hb] at hl <;>
            simp at hl
        · rw [if_neg e1] at hl
          by_cases e2 : mach_user_tag q = VM_MEMORY_STACK
          · rw [if_pos e2] at hl
            cases hb : decide (q.protection = VM_PROT_NONE) <;> rw [hb] at hl <;>
              simp at hl
          · rw [if_neg e2] at hl
            have hmem := lookup_mem _ _ _ hl
            have hall : ∀ p ∈ vendor_tag_table, p.2.1 ≠ "code" := by decide
            exact hall _ hmem rfl

/-- Witness of C24 as amended: the header region of the demo image (tag 0,
readable, file-backed) is read at its start address; the region with the
unlisted tag 33 is not read and is not typed `code`, although the memory holds
the image magic there. -/
theorem mach_probe_gating_witness :
    (mach_step demo_image_memory demo_getsegmentdata 4096 0
      { data_addr := 0, const_addr := 0, linksh_addr := 0 }
      (demo_image_region 0x100000000 0x4000 5)).probed = [0x100000000] ∧
    (mach_step magic_memory demo_getsegmentdata 4096 0
      { data_addr := 0, const_addr := 0, linksh_addr := 0 } demo_tagged_region).probed = [] ∧
    (mach_step magic_memory demo_getsegmentdata 4096 0
      { data_addr := 0, const_addr := 0, linksh_addr := 0 }
      demo_tagged_region).region.region_type ≠ "code" :=
  ⟨(mach_probe_gating demo_image_memory demo_getsegmentdata 4096 0
      { data_addr := 0, const_addr := 0, linksh_addr := 0 }
      (demo_image_region 0x100000000 0x4000 5)).1 (by decide),
   ((mach_probe_gating magic_memory demo_getsegmentdata 4096 0
      { data_addr := 0, const_addr := 0, linksh_addr := 0 } demo_tagged_region).2
      (by decide)).1,
   ((mach_probe_gating magic_memory demo_getsegmentdata 4096 0
      { data_addr := 0, const_addr := 0, linksh_addr := 0 } demo_tagged_region).2
      (by decide)).2.2⟩

/-- Counterexample to C24 as stated: the header region of the demo image has
vendor tag 0, so it fails the condition that the tag be non-zero, yet its
first four bytes are read and it is treated as an image header; and the region
with the non-zero tag 33, which is 4 bytes long or more and readable, is not
read. -/
theorem mach_probe_gating_counterexample :
    mach_user_tag (demo_image_region 0x100000000 0x4000 5) = 0 ∧
    mach_step demo_image_memory demo_getsegmentdata 4096 0
      { data_addr := 0, const_addr := 0, linksh_addr := 0 }
      (demo_image_region 0x100000000 0x4000 5) =
      { segments := { data_addr := 0x100008000, const_addr := 0x100004000,
                      linksh_addr := 0x10000c000 },
        region := { start_address := 0x100000000, size := 0x4000, resident_size := 4096,
                    region_type := "code", region_detail := "/usr/local/bin/memlens",
                    permissions := 5 },
        probed := [0x100000000] } ∧
    mach_user_tag demo_tagged_region ≠ 0 ∧ 4 ≤ demo_tagged_region.size ∧
    demo_tagged_region.protection &&& VM_PROT_READ ≠ 0 ∧
    (mach_step magic_memory demo_getsegmentdata 4096 0
      { data_addr := 0, const_addr := 0, linksh_addr := 0 } demo_tagged_region).probed = [] := by
  decide


/-! ## The scan of `named_address` -/

theorem named_address_step_eq (address : Nat) (st : resolver_state) (it : memory_region_t) :
    named_address_step address st it =
      if region_contains it address ∧ computed_offset it address < st.offset then
        { offset := computed_offset it address, result := computed_label it address }
      else st := by
  unfold named_address_step region_contains computed_label computed_offset
  by_cases hc : it.start_address ≤ address ∧ address < region_end it
  · by_cases hs : it.region_type = "stack"
    · simp only [hc, hs, and_self, if_true, true_and]
    · simp only [hc, hs, and_self, if_true, if_false, true_and]
  · simp only [hc, if_false, false_and]

theorem computed_label_ne_empty (it : memory_region_t) (address : Nat) :
    computed_label it address ≠ "" := by
  have key : ∀ s : String, s ++ "]" ≠ "" := by
    intro s h
    have hl := congrArg String.length h
    rw [String.length_append] at hl
    change s.length + 1 = 0 at hl
    omega
  unfold computed_label
  split <;> exact key _

/-- Invariant of the scan: the offset kept is at most `2^30` and at most the
offset of every containing region scanned so far; the result is empty while
the offset is still `2^30`, and otherwise it is the label of a containing
region scanned so far whose offset is the one kept. -/
theorem named_address_scan_invariant (regions : List memory_region_t) (address : Nat) :
    (named_address_scan regions address).offset ≤ 2 ^ 30 ∧
    (∀ r ∈ regions, region_contains r address →
      (named_address_scan regions address).offset ≤ computed_offset r address) ∧
    (((named_address_scan regions address).result = "" ∧
        (named_address_scan regions address).offset = 2 ^ 30) ∨
      ∃ r ∈ regions, region_contains r address ∧
        computed_offset r address < 2 ^ 30 ∧
        (named_address_scan regions address).offset = computed_offset r address ∧
        (named_address_scan regions address).result = computed_label r address) := by
  induction regions using List.reverseRecOn with
  | nil => exact ⟨le_refl _, fun r hr => absurd hr (List.not_mem_nil r), Or.inl ⟨rfl, rfl⟩⟩
  | append_singleton l x ih =>
    obtain ⟨h1, h2, h3⟩ := ih
    have hscan : named_address_scan (l ++ [x]) address =
        named_address_step address (named_address_scan l address) x := by
      unfold named_address_scan
      rw [List.foldl_append]
      rfl
    rw [hscan, named_address_step_eq]
    by_cases hc : region_contains x address ∧
        computed_offset x address < (named_address_scan l address).offset
    · rw [if_pos hc]
      refine ⟨by simp only; omega, ?_, Or.inr ⟨x, by simp, hc.1, by omega, rfl, rfl⟩⟩
      intro r hr hrc
      simp only
      rcases List.mem_append.mp hr with hr | hr
      · have := h2 r hr hrc
        omega
      · rw [List.mem_singleton] at hr
        subst hr
        exact le_refl _
    · rw [if_neg hc]
      refine ⟨h1, ?_, ?_⟩
      · intro r hr hrc
        rcases List.mem_append.mp hr with hr | hr
        · exact h2 r hr hrc
        · rw [List.mem_singleton] at hr
          subst hr
          by_contra hlt
          exact hc ⟨hrc, by omega⟩
      · rcases h3 with h3 | ⟨r, hr, hrest⟩
        · exact Or.inl h3
        · exact Or.inr ⟨r, List.mem_append_left _ hr, hrest⟩

/-! ## Properties of the scan of `named_address` -/

/-- C23: in the scan of `pre ++ it :: post`, the region `it` replaces the
answer kept after `pre` only if it contains the address and its offset is
strictly smaller than the offset of every containing region of `pre`; when
some containing region of `pre` has an offset that is not larger, the answer
is kept, so a later region with the same offset never replaces an earlier
one. -/
theorem named_address_tie_break (pre post : List memory_region_t) (it : memory_region_t)
    (address : Nat) :
    named_address_scan (pre ++ it :: post) address =
      post.foldl (named_address_step address)
        (named_address_step address (named_address_scan pre address) it) ∧
    (named_address_step address (named_address_scan pre address) it ≠
        named_address_scan pre address →
      region_contains it address ∧
      ∀ r ∈ pre, region_contains r address →
        computed_offset it address < computed_offset r address) ∧
    ((∃ r ∈ pre, region_contains r address ∧
        computed_offset r address ≤ computed_offset it address) →
      named_address_step address (named_address_scan pre address) it =
        named_address_scan pre address) := by
  obtain ⟨_, h2, _⟩ := named_address_scan_invariant pre address
  refine ⟨?_, ?_, ?_⟩
  · unfold named_address_scan
    rw [List.foldl_append, List.foldl_cons]
  · intro hne
    rw [named_address_step_eq] at hne
    by_cases hc : region_contains it address ∧
        computed_offset it address < (named_address_scan pre address).offset
    · refine ⟨hc.1, fun r hr hrc => ?_⟩
      have := h2 r hr hrc
      omega
    · rw [if_neg hc] at hne
      exact absurd rfl hne
  · rintro ⟨r, hr, hrc, hle⟩
    rw [named_address_step_eq]
    have := h2 r hr hrc
    rw [if_neg (fun hc => by omega)]

/-- Witness of C23: of two regions with the same range the first one keeps
the label. -/
theorem named_address_tie_break_witness :
    named_address hex_ptr demo_overlap 0x1010 = "0x1010 @[heap + 16]" ∧
    named_address_step 0x1010 (named_address_scan (demo_overlap.take 1) 0x1010)
        { start_address := 0x1000, size := 0x1000, resident_size := 0, region_type := "data",
          region_detail := "-", permissions := 3 } =
      named_address_scan (demo_overlap.take 1) 0x1010 :=
  ⟨by decide,
   (named_address_tie_break (demo_overlap.take 1) []
      { start_address := 0x1000, size := 0x1000, resident_size := 0, region_type := "data",
        region_detail := "-", permissions := 3 } 0x1010).2.2
      ⟨{ start_address := 0x1000, size := 0x1000, resident_size := 0, region_type := "heap",
         region_detail := "-", permissions := 3 }, by decide, by decide, by decide⟩⟩

/-- C25: the result carries a ` @[...]` suffix if and only if some region that
contains the address has a computed offset below `2^30`; the suffix is then
the label of such a region, and when every containing region has an offset of
`2^30` or more the result is the bare pointer text, as for an address in no
region. -/
theorem named_address_offset_cap (ptr_str : Nat → String) (regions : List memory_region_t)
    (address : Nat) :
    ((∃ r ∈ regions, region_contains r address ∧ computed_offset r address < 2 ^ 30) →
      named_address ptr_str regions address ≠ ptr_str address ∧
      ∃ r ∈ regions, region_contains r address ∧ computed_offset r address < 2 ^ 30 ∧
        named_address ptr_str regions address =
          ptr_str address ++ " @" ++ computed_label r address) ∧
    ((∀ r ∈ regions, region_contains r address → 2 ^ 30 ≤ computed_offset r address) →
      named_address ptr_str regions address = ptr_str address) := by
  obtain ⟨h1, h2, h3⟩ := named_address_scan_invariant regions address
  have hsuffix : ∀ label : String, label ≠ "" →
      ptr_str address ++ " @" ++ label ≠ ptr_str address := by
    intro label _ e
    have hl := congrArg String.length e
    simp only [String.length_append] at hl
    have h2 : " @".length = 2 := rfl
    omega
  constructor
  · rintro ⟨r, hr, hrc, hlt⟩
    rcases h3 with ⟨_, h3⟩ | ⟨r₁, hr₁, hrc₁, hlt₁, ho₁, hl₁⟩
    · have := h2 r hr hrc
      omega
    · have hres : named_address ptr_str regions address =
          ptr_str address ++ " @" ++ computed_label r₁ address := by
        unfold named_address
        simp only [hl₁, ne_eq, computed_label_ne_empty, not_false_eq_true, if_true]
      exact ⟨by rw [hres]; exact hsuffix _ (computed_label_ne_empty r₁ address),
        r₁, hr₁, hrc₁, hlt₁, hres⟩
  · intro hall
    rcases h3 with ⟨h3, _⟩ | ⟨r₁, hr₁, hrc₁, hlt₁, _, _⟩
    · unfold named_address
      simp [h3]
    · have := hall r₁ hr₁ hrc₁
      omega

/-- Witness of C25: an address 16 bytes below the end of the stack page of the
demo snapshot gets a suffix; the address at offset `2^30` of the 2 GiB heap
region gets none. -/
theorem named_address_offset_cap_witness :
    named_address hex_ptr demo_snapshot 0x7ff0 ≠ hex_ptr 0x7ff0 ∧
    named_address hex_ptr [large_heap] 0x40001000 = hex_ptr 0x40001000 :=
  ⟨((named_address_offset_cap hex_ptr demo_snapshot 0x7ff0).1
      ⟨{ start_address := 0x7000, size := 0x1000, resident_size := 0, region_type := "stack",
         region_detail := "-", permissions := 3 }, by decide, by decide, by decide⟩).1,
   (named_address_offset_cap hex_ptr [large_heap] 0x40001000).2 (by decide)⟩


/-! ## Linux enumerator: records of the line loop -/

theorem maps_region_of_addresses (hex_get : List Char → Nat × List Char × Bool)
    (indet : indeterminate) (line : String) (s e : Nat)
    (h : maps_addresses hex_get line = some (s, e)) :
    (maps_region (parse_maps_line hex_get indet line)).start_address = s ∧
    (maps_region (parse_maps_line hex_get indet line)).size = (e + ADDR_MOD - s) % ADDR_MOD := by
  unfold maps_addresses at h
  unfold maps_region parse_maps_line
  simp only at h ⊢
  cases h1 : extract_hex hex_get { buf := line.toList, failed := false } with
  | mk iss1 a =>
    rw [h1] at h
    simp only at h ⊢
    cases h2 : extract_hex hex_get (iss_ignore iss1) with
    | mk iss3 b =>
      rw [h2] at h
      simp only at h ⊢
      cases a with
      | none => cases h
      | some sa =>
        cases b with
        | none => cases h
        | some eb =>
          simp only [Option.some.injEq, Prod.mk.injEq] at h
          obtain ⟨rfl, rfl⟩ := h
          exact ⟨rfl, rfl⟩

/-- C22 (as amended): for an input of `k` lines the parser appends exactly `k`
regions, the `i`-th one built from the `i`-th line; for every line from which
both addresses are extracted, the start address and the size (end minus
start, modulo `2^64`) of its region are those addresses, whatever the
uninitialised locals held. -/
theorem load_memory_layout_linux_records (hex_get : List Char → Nat × List Char × Bool)
    (indet : Nat → indeterminate) (lines : List String) (regions : List memory_region_t) :
    (load_memory_layout_linux hex_get indet (some lines) regions).length
      = regions.length + lines.length ∧
    (∀ (i : Nat) (line : String), lines[i]? = some line →
      (load_memory_layout_linux hex_get indet (some lines) regions)[regions.length + i]?
        = some (maps_region (parse_maps_line hex_get (indet i) line))) ∧
    (∀ (i : Nat) (line : String) (s e : Nat), lines[i]? = some line →
      maps_addresses hex_get line = some (s, e) →
      ∃ region,
        (load_memory_layout_linux hex_get indet (some lines) regions)[regions.length + i]?
          = some region ∧
        region.start_address = s ∧ region.size = (e + ADDR_MOD - s) % ADDR_MOD) := by
  have hget : ∀ (i : Nat) (line : String), lines[i]? = some line →
      (load_memory_layout_linux hex_get indet (some lines) regions)[regions.length + i]?
        = some (maps_region (parse_maps_line hex_get (indet i) line)) := by
    intro i line hline
    have hi : i < lines.length := (List.getElem?_eq_some.mp hline).1
    unfold load_memory_layout_linux
    simp only
    rw [List.getElem?_append_right (Nat.le_add_right _ _), Nat.add_sub_cancel_left,
      List.getElem?_zipWith, List.getElem?_range hi, hline]
  refine ⟨?_, hget, ?_⟩
  · unfold load_memory_layout_linux
    simp
  · intro i line s e hline haddr
    exact ⟨_, hget i line hline, maps_region_of_addresses hex_get (indet i) line s e haddr⟩

/-- Witness of C22 as amended: over the demo maps the fourth region appended
is the one of the `[heap]` line, `0x21000` bytes at `0x55d0c9b00000`. -/
theorem load_memory_layout_linux_records_witness :
    (load_memory_layout_linux hex_digits_get zero_indeterminate (some demo_maps)
      demo_snapshot).length = 2 + 9 ∧
    ∃ region,
      (load_memory_layout_linux hex_digits_get zero_indeterminate (some demo_maps)
        demo_snapshot)[2 + 3]? = some region ∧
      region.start_address = 0x55d0c9b00000 ∧
      region.size = (0x55d0c9b21000 + ADDR_MOD - 0x55d0c9b00000) % ADDR_MOD :=
  have h := load_memory_layout_linux_records hex_digits_get zero_indeterminate demo_maps
    demo_snapshot
  ⟨h.1, h.2.2 3 "55d0c9b00000-55d0c9b21000 rw-p 00000000 00:00 0      [heap]"
    0x55d0c9b00000 0x55d0c9b21000 (by decide) (by decide)⟩

/-- Counterexample to C22 as stated: the line `abc` holds no end address; the
size of its region is computed from the uninitialised local `end_address`, so
the same line gives the size `0x544` when that local holds `0x1000` and
`0x1544` when it holds `0x2000`. -/
theorem load_memory_layout_linux_records_counterexample :
    maps_addresses hex_digits_get "abc" = none ∧
    (load_memory_layout_linux hex_digits_get
      (fun _ => { start_address := 0, end_address := 0x1000, file_offset := 0 })
      (some ["abc"]) []).map (fun region => region.size) = [0x544] ∧
    (load_memory_layout_linux hex_digits_get
      (fun _ => { start_address := 0, end_address := 0x2000, file_offset := 0 })
      (some ["abc"]) []).map (fun region => region.size) = [0x1544] := by
  decide


/-! ## The loops of `prime_factors` -/

theorem length_lt_of_count (num₀ n : Nat) (fs : List Nat) (hn : 1 ≤ n)
    (h : 2 ^ fs.length * n ≤ num₀) : fs.length < num₀ := by
  have h1 : fs.length < 2 ^ fs.length := Nat.lt_two_pow fs.length
  have h2 : 2 ^ fs.length * 1 ≤ 2 ^ fs.length * n := Nat.mul_le_mul_left _ hn
  omega

/-- The inner loop ends, within `num` steps, with the invariant of the next
counter value. -/
theorem prime_factors_while_spec (num₀ i : Nat) (hi : 2 ≤ i) :
    ∀ (fuel n : Nat) (fs : List Nat), factor_invariant num₀ i n fs → n ≤ fuel →
      ∃ n₁ fs₁, prime_factors_while num₀ i fuel n fs = .ok (n₁, fs₁) ∧
        factor_invariant num₀ (i + 1) n₁ fs₁ ∧ n₁ ≤ n := by
  intro fuel
  induction fuel with
  | zero =>
    intro n fs inv hle
    have := inv.num_pos
    omega
  | succ f ih =>
    intro n fs inv hle
    have hi0 : ¬ i = 0 := by omega
    unfold prime_factors_while
    rw [if_neg hi0]
    by_cases hd : n % i = 0
    · rw [if_pos hd]
      have hdvd : i ∣ n := Nat.dvd_of_mod_eq_zero hd
      have hin : i ≤ n := Nat.le_of_dvd inv.num_pos hdvd
      have hmul : i * (n / i) = n := Nat.mul_div_cancel' hdvd
      have hlen : fs.length < num₀ := length_lt_of_count num₀ n fs inv.num_pos inv.count
      rw [if_neg (Nat.not_le.mpr hlen)]
      have hprime : Nat.Prime i := by
        rw [Nat.prime_def_lt]
        refine ⟨hi, fun m hm hmi => ?_⟩
        by_contra h1
        have hm0 : m ≠ 0 := by
          rintro rfl
          have := Nat.eq_zero_of_zero_dvd hmi
          omega
        exact inv.divided m (by omega) hm (Nat.dvd_trans hmi hdvd)
      have hdivlt : n / i < n := Nat.div_lt_self inv.num_pos (by omega)
      have inv₁ : factor_invariant num₀ i (n / i) (fs ++ [i]) :=
        { num_pos := Nat.div_pos hin (by omega)
          product := by
            rw [List.prod_append, List.prod_singleton, Nat.mul_assoc, hmul]
            exact inv.product
          primes := by
            intro p hp
            rcases List.mem_append.mp hp with hp | hp
            · exact inv.primes p hp
            · rw [List.mem_singleton] at hp
              rw [hp]
              exact hprime
          bounded := by
            intro p hp
            rcases List.mem_append.mp hp with hp | hp
            · exact inv.bounded p hp
            · rw [List.mem_singleton] at hp
              omega
          sorted := by
            rw [List.pairwise_append]
            refine ⟨inv.sorted, List.pairwise_singleton _ _, ?_⟩
            intro a ha b hb
            rw [List.mem_singleton] at hb
            rw [hb]
            exact inv.bounded a ha
          divided := by
            intro d hd2 hdi hdd
            exact inv.divided d hd2 hdi (Nat.dvd_trans hdd (Nat.div_dvd_of_dvd hdvd))
          count := by
            rw [List.length_append, List.length_singleton, Nat.pow_succ, Nat.mul_assoc]
            calc 2 ^ fs.length * (2 * (n / i))
                ≤ 2 ^ fs.length * (i * (n / i)) :=
                  Nat.mul_le_mul_left _ (Nat.mul_le_mul_right _ hi)
              _ = 2 ^ fs.length * n := by rw [hmul]
              _ ≤ num₀ := inv.count }
      obtain ⟨n₁, fs₁, hrun, hinv, hn₁⟩ := ih (n / i) (fs ++ [i]) inv₁ (by omega)
      exact ⟨n₁, fs₁, hrun, hinv, by omega⟩
    · rw [if_neg hd]
      refine ⟨n, fs, rfl, ?_, le_refl _⟩
      exact
        { num_pos := inv.num_pos
          product := inv.product
          primes := inv.primes
          bounded := fun p hp => Nat.le_succ_of_le (inv.bounded p hp)
          sorted := inv.sorted
          divided := by
            intro d hd2 hdi hdd
            by_cases e : d = i
            · subst e
              exact hd (Nat.mod_eq_zero_of_dvd hdd)
            · exact inv.divided d hd2 (by omega) hdd
          count := inv.count }

/-- The outer loop ends, within `num + 2 - i` tests of its condition, with
the complete factorisation; the counter never wraps around `2^32`. -/
theorem prime_factors_for_spec (num₀ inner : Nat) (h32 : num₀ < UINT32_MOD)
    (hinner : num₀ ≤ inner) :
    ∀ (fuel i n : Nat) (fs : List Nat), factor_invariant num₀ i n fs → 2 ≤ i →
      n + 2 ≤ fuel + i → 1 ≤ fuel →
      ∃ fs₁, prime_factors_for num₀ inner fuel i n fs = .ok fs₁ ∧
        (∀ p ∈ fs₁, Nat.Prime p) ∧ fs₁.Pairwise (· ≤ ·) ∧ fs₁.prod = num₀ ∧
        fs₁.length < num₀ := by
  intro fuel
  induction fuel with
  | zero =>
    intro i n fs _ _ _ h1
    omega
  | succ f ih =>
    intro i n fs inv hi hfuel _
    have hn : n ≤ num₀ := by
      have h1 : 1 ≤ 2 ^ fs.length := Nat.one_le_two_pow
      have h2 : 1 * n ≤ 2 ^ fs.length * n := Nat.mul_le_mul_right _ h1
      have := inv.count
      omega
    unfold prime_factors_for
    by_cases hle : i ≤ n
    · rw [if_pos hle]
      obtain ⟨n₁, fs₁, hrun, hinv, hn₁⟩ :=
        prime_factors_while_spec num₀ i hi inner n fs inv (by omega)
      rw [hrun]
      simp only
      have hwrap : (i + 1) % UINT32_MOD = i + 1 := by
        apply Nat.mod_eq_of_lt
        by_contra hge
        have h32' : num₀ < 4294967296 := h32
        have hge' : ¬ i + 1 < 4294967296 := hge
        have hn3 : n = 4294967295 := by omega
        have h3 : ¬ 3 ∣ n := inv.divided 3 (by omega) (by omega)
        rw [hn3] at h3
        exact h3 (by decide)
      rw [hwrap]
      exact ih (i + 1) n₁ fs₁ hinv (by omega) (by omega) (by omega)
    · rw [if_neg hle]
      have hn1 : n = 1 := by
        by_contra hne
        have hpos := inv.num_pos
        exact inv.divided n (by omega) (by omega) (dvd_refl n)
      have hprod := inv.product
      rw [hn1, Nat.mul_one] at hprod
      exact ⟨fs, rfl, inv.primes, inv.sorted, hprod,
        length_lt_of_count num₀ n fs inv.num_pos inv.count⟩

/-! ## Properties of `prime_factors` -/

/-- C26: for every 32-bit `num ≥ 2` the loops of `prime_factors` end (any fuel
of at least `num` steps is enough), no write falls outside the array, and the
elements written are primes in non-decreasing order whose product is `num`;
their number is less than `num`, and they are the prime factorisation of
`num`. -/
theorem prime_factors_correct (num fuel : Nat) (h2 : 2 ≤ num) (h32 : num < UINT32_MOD)
    (hfuel : num ≤ fuel) :
    ∃ factors, prime_factors fuel num = .ok factors ∧
      (∀ p ∈ factors, Nat.Prime p) ∧ factors.Pairwise (· ≤ ·) ∧ factors.prod = num ∧
      factors.length < num ∧ factors = num.primeFactorsList := by
  have inv₀ : factor_invariant num 2 num [] :=
    { num_pos := by omega
      product := by simp
      primes := fun p hp => absurd hp (List.not_mem_nil p)
      bounded := fun p hp => absurd hp (List.not_mem_nil p)
      sorted := List.Pairwise.nil
      divided := fun d h1 h2 => by omega
      count := by simp }
  obtain ⟨fs, hrun, hprimes, hsorted, hprod, hlen⟩ :=
    prime_factors_for_spec num fuel h32 hfuel fuel 2 num [] inv₀ (le_refl _) (by omega)
      (by omega)
  refine ⟨fs, hrun, hprimes, hsorted, hprod, hlen, ?_⟩
  exact List.eq_of_perm_of_sorted (Nat.primeFactorsList_unique hprod hprimes) hsorted
    (Nat.primeFactorsList_sorted num)

/-- Witness of C26: for `12348`, the argument of the demo, the elements
written are `2 2 3 3 7 7 7`. -/
theorem prime_factors_correct_witness :
    prime_factors 12348 12348 = .ok [2, 2, 3, 3, 7, 7, 7] ∧
    ∃ factors, prime_factors 12348 12348 = .ok factors ∧
      (∀ p ∈ factors, Nat.Prime p) ∧ factors.Pairwise (· ≤ ·) ∧ factors.prod = 12348 ∧
      factors.length < 12348 ∧ factors = (12348).primeFactorsList :=
  ⟨by decide, prime_factors_correct 12348 12348 (by decide) (by decide) (by decide)⟩

end Memlens
